import Mathlib

/-!
# SoilMachine: water particle, cascade and seepage (source/particle/water.h)

A shallow embedding of `WaterParticle`.  C++ `double`/`float` values are
modelled as `ℚ`.  The main embedding computes in exact rational arithmetic:
equalities proved there hold in the code up to the rounding of IEEE
arithmetic.  Where a sharp bound of the code is decided by rounding (the order
of the two water surfaces after a partial transfer of `cascade`, the saturation
range of `seep`), the functions concerned are embedded a second time in
`double` arithmetic (the definitions with the suffix `D`), every operation
rounded to binary64 in source order by `fl`.  The terrain (`Layermap`), the
layer pool and the soil table are declared elsewhere in the repository; their
parts used here are either parameters (`Env`) or modelled from the
specification.
-/

namespace SoilMachine

/-! ## Data model -/

/-- Soil type identifier (`SurfType`). -/
abbrev SurfType := Nat

/-- Integer cell position (`ivec2`). -/
abbrev IVec2 := Int × Int

/-- Continuous position or velocity (`vec2`). -/
abbrev Vec2 := ℚ × ℚ

/-- Per soil type parameters (`SurfParam`), the fields read by water.h. -/
structure SurfParam where
  friction : ℚ
  solubility : ℚ
  porosity : ℚ
  equrate : ℚ
  erosionrate : ℚ
  erodes : SurfType
  transports : SurfType
deriving DecidableEq

/-- One layer of a column (`sec`): soil type, thickness (`size`), floor
elevation and saturation.  The `prev` pointer of the source is the position
in the column list. -/
structure sec where
  type : SurfType
  size : ℚ
  floor : ℚ
  saturation : ℚ
deriving DecidableEq

/-- A column of the terrain: its layers from the floor (index 0) to the
surface (last element).  `top->prev` of the layer at index `d + 1` is the
layer at index `d`. -/
abbrev Column := List sec

/-- Modelled from the spec: `Layermap::top`, the top layer of a column or
absent (`NULL`) for an empty column. -/
def Column.top (col : Column) : Option sec := col.getLast?

/-- Modelled from the spec: `Layermap::remove` on one column, "remove-material
(returns unconsumed remainder)".  Material is taken from the top layer; when the
request reaches the layer's thickness the layer is deleted and the part of the
request that it could not supply is returned, otherwise the layer is thinned and
the remainder is 0.  A non-positive request removes nothing.  The spec does not
say what is returned for an empty column, where nothing can be removed: the
remainder is taken to be 0 there, so that the re-issue loop of `interact` ends
on a column that has run out of material. -/
def Column.remove (col : Column) (h : ℚ) : Column × ℚ :=
  match col.getLast? with
  | none => (col, 0)
  | some t =>
    if h ≤ 0 then (col, 0)
    else if h < t.size then (col.dropLast ++ [{ t with size := t.size - h }], 0)
    else (col.dropLast, h - t.size)

/-- Modelled from the spec: `Layermap::add` on one column, "add-material": the
layer is put on top of the column, its floor at the height of the previous top
(layers are contiguous). -/
def Column.add (col : Column) (e : sec) : Column :=
  match col.getLast? with
  | none => [{ e with floor := 0 }]
  | some t => col ++ [{ e with floor := t.floor + t.size }]

/-- Modelled from the spec: the terrain volume (`Layermap`), a grid of columns
of dimension `dim`. -/
structure Layermap where
  dim : IVec2
  dat : IVec2 → Column

/-- Replace the column of one cell. -/
def Layermap.setColumn (m : Layermap) (p : IVec2) (c : Column) : Layermap :=
  { m with dat := fun q => if q = p then c else m.dat q }

/-- Modelled from the spec: `map.top(pos)`. -/
def Layermap.top (m : Layermap) (p : IVec2) : Option sec := (m.dat p).top

/-- Modelled from the spec: `map.remove(pos, h)`, returning the new terrain and
the unconsumed remainder. -/
def Layermap.remove (m : Layermap) (p : IVec2) (h : ℚ) : Layermap × ℚ :=
  (m.setColumn p ((m.dat p).remove h).1, ((m.dat p).remove h).2)

/-- Modelled from the spec: `map.add(pos, E)`. -/
def Layermap.add (m : Layermap) (p : IVec2) (e : sec) : Layermap :=
  m.setColumn p ((m.dat p).add e)

/-- Modelled from the spec: `map.pool.get(size, type)`, a fresh layer of the
given thickness and type. -/
def poolGet (size : ℚ) (type : SurfType) : sec :=
  { type := type, size := size, floor := 0, saturation := 0 }

/-- A record of one nested start of `WaterParticle::cascade`: the nesting
depth of the started invocation, the spill budget the starting invocation was
called with, and the budget handed to the started one. -/
structure CallRecord where
  depth : Nat
  caller : Int
  budget : Int
deriving DecidableEq

/-- The mutable state the particle code works on: the terrain, the two traffic
arrays (`track`, `frequency`, indexed by the flat cell index), the list of
cells notified through `map.update` (latest first) and the position in the
`rand()` stream.  `calls` is a ghost field: it logs every nested start of
`WaterParticle::cascade` (latest first) and is read by no operation. -/
structure World where
  map : Layermap
  frequency : Int → ℚ
  track : Int → ℚ
  updated : List IVec2
  rng : Nat
  calls : List CallRecord

/-- The change notification `map.update(pos, vertexpool)`. -/
def World.update (w : World) (p : IVec2) : World :=
  { w with updated := p :: w.updated }

/-- Conversion `ivec2 ipos = pos` of a float to an int: truncation toward 0. -/
def truncQ (q : ℚ) : Int := if 0 ≤ q then ⌊q⌋ else ⌈q⌉

/-- C `round` as used by `glm::round`: to the nearest integer, halves away
from 0. -/
def roundQ (q : ℚ) : Int := if 0 ≤ q then ⌊q + 1 / 2⌋ else ⌈q - 1 / 2⌉

/-- The cell `ipos = round(pos)` of a position. -/
def roundVec (p : Vec2) : IVec2 := (roundQ p.1, roundQ p.2)

/-- The blend `glm::mix(x, y, a)`, that is `x*(1-a) + y*a`. -/
def mix (x y : Vec2) (a : ℚ) : Vec2 :=
  (x.1 * (1 - a) + y.1 * a, x.2 * (1 - a) + y.2 * a)

/-- Conversion of a `vec2` to an `ivec2`. -/
def toIVec2 (p : Vec2) : IVec2 := (truncQ p.1, truncQ p.2)

/-- Conversion of an `ivec2` to a `vec2`. -/
def toVec2 (p : IVec2) : Vec2 := ((p.1 : ℚ), (p.2 : ℚ))

/-- The part of the environment water.h reads but does not define: the soil
table `soils`, the soil type `soilmap["Air"]`, the constant `SCALE`, the
terrain queries `normal`, `height` (at a cell and at a continuous position) and
`surface`, the thermal relaxation `Particle::cascade`, the `rand()` stream and
the glm functions `length`, `normalize` and `sqrt(2.0f)`. -/
structure Env where
  soils : SurfType → SurfParam
  Air : SurfType
  SCALE : ℚ
  normal : Layermap → IVec2 → ℚ × ℚ × ℚ
  height : Layermap → IVec2 → ℚ
  heightAt : Layermap → Vec2 → ℚ
  surface : Layermap → IVec2 → SurfType
  thermal : Vec2 → Layermap → Layermap
  rand : Nat → Nat
  length : Vec2 → ℚ
  normalize : Vec2 → Vec2
  sqrt2 : ℚ

/-! ## Seepage (water.h 285-333) -/

/-- The amount `transfer` computed by `seep` for a pair of adjacent layers:
the smaller of the water volume of `top` and the empty volume of `prev`. -/
def seepTransfer (soils : SurfType → SurfParam) (top prev : sec) : ℚ :=
  let param := soils top.type
  let nparam := soils prev.type
  -- Volume Top Layer
  let vol := top.size * top.saturation * param.porosity
  -- Empty Volume Bottom Layer
  let nevol := prev.size * (1 - prev.saturation) * nparam.porosity
  -- Transferred Volume is the Smaller Amount!
  if vol < nevol then vol else nevol

/-- The body of `if(transfer > 0)` in `seep`, for `top` at index `d + 1` and
`prev` at index `d` of the column: the water leaves `top` (through `map.remove`
when `top` is open water, through its saturation otherwise) and the saturation
of `prev` is raised. -/
def seepPair (soils : SurfType → SurfParam) (Air : SurfType)
    (remove : Column → ℚ → Column × ℚ) (d : Nat) (col : Column) (top prev : sec) : Column :=
  let param := soils top.type
  let nparam := soils prev.type
  let transfer := seepTransfer soils top prev
  let seepage : ℚ := if transfer < 1 / 1000000 then 1 else 1
  -- Remove from Top Layer
  let col1 :=
    if top.type = Air then (remove col (seepage * transfer)).1
    else col.set (d + 1)
      { top with saturation :=
          top.saturation - (seepage * transfer) / (top.size * param.porosity) }
  match col1[d]? with
  | some prev1 =>
    col1.set d
      { prev1 with saturation :=
          prev1.saturation + (seepage * transfer) / (prev1.size * nparam.porosity) }
  | none => col1

/-- The `while(top != NULL && top->prev != NULL)` loop of `seep`.  The first
argument is the index of `top` in the column, counted from the floor; `remove`
is `map.remove(ipos, .)` on the column. -/
def seepLoop (soils : SurfType → SurfParam) (Air : SurfType)
    (remove : Column → ℚ → Column × ℚ) : Nat → Column → Column
  | 0, col => col
  | d + 1, col =>
    match col[d + 1]?, col[d]? with
    | some top, some prev =>
      if seepTransfer soils top prev > 0 then
        seepLoop soils Air remove d (seepPair soils Air remove d col top prev)
      else seepLoop soils Air remove d col
    | _, _ => col

/-- Per-cell `seep(pos, map, vertexpool)`. -/
def seep (env : Env) (pos : Vec2) (w : World) : World :=
  let ipos := toIVec2 pos
  match w.map.top ipos with
  | none => w
  | some _ =>
    let col := seepLoop env.soils env.Air Column.remove ((w.map.dat ipos).length - 1) (w.map.dat ipos)
    ({ w with map := w.map.setColumn ipos col }).update ipos

/-- Flat index `ipos.y*map.dim.x+ipos.x` of a cell in `track` and `frequency`. -/
def cellIndex (m : Layermap) (ipos : IVec2) : Int := ipos.2 * m.dim.1 + ipos.1

/-- Source `WaterParticle::init`: both arrays are allocated zero-initialised. -/
def init (w : World) : World :=
  { w with frequency := fun _ => 0, track := fun _ => 0 }

/-- Source `updatefrequency(map, ipos)` for a particle of the given volume:
`track[ind] += volume`. -/
def updatefrequency (volume : ℚ) (w : World) (ipos : IVec2) : World :=
  let ind := cellIndex w.map ipos
  { w with track := fun i => if i = ind then w.track i + volume else w.track i }

/-- Source `resetfrequency(map)`: `track[i] = 0` for `0 ≤ i < dim.x*dim.y`. -/
def resetfrequency (w : World) : World :=
  { w with track := fun i =>
      if 0 ≤ i ∧ i < w.map.dim.1 * w.map.dim.2 then 0 else w.track i }

/-- Smoothing constant `lrate` of `mapfrequency`. -/
def lrate : ℚ := 1 / 100

/-- Steepness constant `K` of `mapfrequency`. -/
def K : ℚ := 50

/-- The new value `mapfrequency` stores for one cell with the old value `f`
and the accumulated traffic `t`. -/
def mapfrequencyCell (f t : ℚ) : ℚ :=
  (1 - lrate) * f + lrate * K * t / (1 + K * t)

/-- Source `mapfrequency(map)`: every cell `0 ≤ i < dim.x*dim.y` is blended with the
logistic transform of its traffic. -/
def mapfrequency (w : World) : World :=
  { w with frequency := fun i =>
      if 0 ≤ i ∧ i < w.map.dim.1 * w.map.dim.2
      then mapfrequencyCell (w.frequency i) (w.track i) else w.frequency i }

/-- One call on the traffic field, as a driver may issue it. -/
inductive FieldOp where
  | update (volume : ℚ) (ipos : IVec2)
  | reset
  | map

/-- Run one traffic-field call. -/
def FieldOp.run (w : World) : FieldOp → World
  | .update volume ipos => updatefrequency volume w ipos
  | .reset => resetfrequency w
  | .map => mapfrequency w

/-- The volume argument of a traffic-field call is non-negative. -/
def FieldOp.NonNeg : FieldOp → Prop
  | .update volume _ => 0 ≤ volume
  | .reset => True
  | .map => True

/-! ## Water particle (water.h 9-145) -/

/-- The state of a `WaterParticle` (with `pos` and `speed` of its base
`Particle`). -/
structure WaterParticle where
  pos : Vec2
  speed : Vec2
  volume : ℚ
  sediment : ℚ
  evaprate : ℚ
  spill : Int
  ipos : IVec2
  n : ℚ × ℚ × ℚ
  param : SurfParam
  surface : SurfType
  contains : SurfType

/-- Member constant `minvol = 0.01`. -/
def minvol : ℚ := 1 / 100

/-- Static member `WaterParticle::volumeFactor = 0.015`. -/
def volumeFactor : ℚ := 15 / 1000

/-- The constructor `WaterParticle(Layermap& map)`: a pseudorandom cell, its
surface type and parameters, the member initialisers `volume = 1.0`,
`sediment = 0.0`, `evaprate = 0.001`, `spill = 3`. -/
def WaterParticle.new (env : Env) (w : World) : WaterParticle × World :=
  let pos : Vec2 :=
    ((Int.tmod (env.rand w.rng) w.map.dim.1 : ℚ), (Int.tmod (env.rand (w.rng + 1)) w.map.dim.2 : ℚ))
  let ipos := roundVec pos
  let surface := env.surface w.map ipos
  let param := env.soils surface
  ({ pos := pos, speed := (0, 0), volume := 1, sediment := 0, evaprate := 1 / 1000,
     spill := 3, ipos := ipos, n := (0, 0, 0), param := param, surface := surface,
     contains := param.transports },
   { w with rng := w.rng + 2 })

/-- Source `WaterParticle::move`: returns the particle, the world and the result. -/
def move (env : Env) (p : WaterParticle) (w : World) : WaterParticle × World × Bool :=
  let ipos := roundVec p.pos
  let n := env.normal w.map ipos
  let surface := env.surface w.map ipos
  let param := env.soils surface
  let evaprate : ℚ := 1 / 100
  let w1 := updatefrequency p.volume w ipos
  -- Modify Parameters Based on Frequency
  let param1 := { param with friction := param.friction * (1 - w1.frequency (cellIndex w1.map ipos)) }
  let evaprate1 := evaprate * (1 - 2 / 10 * w1.frequency (cellIndex w1.map ipos))
  let p1 := { p with ipos := ipos, n := n, surface := surface, param := param1, evaprate := evaprate1 }
  if env.length (n.1 * param1.friction, n.2.2 * param1.friction) < 1 / 100000 then
    (p1, w1, false)
  else
    let speed := mix (n.1, n.2.2) p.speed param1.friction
    let speed1 : Vec2 := (env.sqrt2 * (env.normalize speed).1, env.sqrt2 * (env.normalize speed).2)
    let pos : Vec2 := (p.pos.1 + speed1.1, p.pos.2 + speed1.2)
    let p2 := { p1 with speed := speed1, pos := pos }
    -- Out-of-Bounds
    if ¬ (0 ≤ pos.1 ∧ 0 ≤ pos.2) ∨
        ¬ (pos.1 < (w1.map.dim.1 : ℚ) - 1 ∧ pos.2 < (w1.map.dim.2 : ℚ) - 1) then
      ({ p2 with volume := 0 }, w1, false)
    else (p2, w1, true)

/-- The loop `while(abs(diff) > 1E-8) diff = map.remove(ipos, diff)` of
`interact`. -/
def removeLoop (m : Layermap) (ipos : IVec2) (diff : ℚ) : Layermap :=
  if |diff| > 1 / 100000000 then
    removeLoop (m.remove ipos diff).1 ipos (m.remove ipos diff).2
  else m
termination_by ((m.dat ipos).length, if |diff| > 1 / 100000000 then 1 else 0)
decreasing_by
  rename_i h
  have key : ∀ col : Column, (Column.remove col diff).1.length < col.length ∨
      ((Column.remove col diff).1.length = col.length ∧ (Column.remove col diff).2 = 0) := by
    intro col
    unfold Column.remove
    cases hl : col.getLast? with
    | none => right; simp
    | some t =>
      have hne : col ≠ [] := by intro h0; simp [h0] at hl
      have hlen : 0 < col.length := List.length_pos.mpr hne
      simp only []
      split
      · right; simp
      · split
        · right; simp; omega
        · left; simp; omega
  simp only [Layermap.remove, Layermap.setColumn, if_true]
  rcases key (m.dat ipos) with h1 | ⟨h1, h2⟩
  · exact Prod.Lex.left _ _ h1
  · rw [h1]
    apply Prod.Lex.right
    simp only [h2, if_pos h]
    norm_num

/-- The equilibrium sediment capacity `c_eq` of `interact`, clamped to [0,1]. -/
def equilibrium (env : Env) (p : WaterParticle) (w : World) : ℚ :=
  let c_eq := p.param.solubility * (env.height w.map p.ipos - env.heightAt w.map p.pos) * env.SCALE / 80
  let c_eq1 := if c_eq < 0 then 0 else c_eq
  if c_eq1 > 1 then 1 else c_eq1

/-- The carried type after the step "Erode Sediment IN Particle" of
`interact`. -/
def erodeContains (env : Env) (p : WaterParticle) (w : World) : SurfType :=
  if (env.soils p.contains).erosionrate < w.frequency (cellIndex w.map p.ipos)
  then (env.soils p.contains).erodes else p.contains

/-- The sediment exchange of `interact` (water.h 77-110): everything before the
thermal relaxation and the evaporation. -/
def exchange (env : Env) (p : WaterParticle) (w : World) : WaterParticle × World :=
  let c_eq := equilibrium env p w
  let contains := erodeContains env p w
  -- Execute Transport to Particle
  let cdiff := c_eq - p.sediment
  if cdiff > 0 then
    -- Remove Sediment from Map
    let diff := w.map.remove p.ipos (p.param.equrate * cdiff * p.volume)
    ({ p with sediment := p.sediment + p.param.equrate * cdiff,
              contains := (env.soils (env.surface w.map p.ipos)).transports },
     { w with map := removeLoop diff.1 p.ipos diff.2 })
  else if cdiff < 0 then
    -- Add Sediment to Map
    ({ p with sediment := p.sediment + (env.soils contains).equrate * cdiff,
              contains := contains },
     { w with map := w.map.add p.ipos
                (poolGet (-(env.soils contains).equrate * cdiff * p.volume) contains) })
  else ({ p with contains := contains }, w)

/-- Source `WaterParticle::interact`: the exchange, the thermal relaxation
`Particle::cascade(pos, map, vertexpool, 0)` and the evaporation. -/
def interact (env : Env) (p : WaterParticle) (w : World) : WaterParticle × World × Bool :=
  let p1 := (exchange env p w).1
  let w1 := (exchange env p w).2
  -- Particle Cascade: Thermal Erosion!
  let w2 := { w1 with map := env.thermal p1.pos w1.map }
  -- Update Map, Particle
  let sediment := p1.sediment / (1 - p1.evaprate)
  let sediment1 := if sediment > 1 then 1 else sediment
  let volume := p1.volume * (1 - p1.evaprate)
  ({ p1 with sediment := sediment1, volume := volume }, w2, decide (volume > minvol))

/-- Why a run of the model stopped before the code returned: the iteration
bound given to the particle loops was reached (`fuel`), the nesting bound of
`cascadeN` was reached (`depth`), or the code read through a `NULL` layer
pointer (`nullTop`). -/
inductive StopReason where
  | fuel
  | depth
  | nullTop
deriving DecidableEq

/-- A stopped run: the reason and the state at that point. -/
structure Stop where
  reason : StopReason
  world : World

/-- Ghost step: log the start of a nested cascade. -/
def World.logCall (w : World) (r : CallRecord) : World :=
  { w with calls := r :: w.calls }

/-- The deposits of `flood` (water.h 131-139) for a particle whose `ipos` is
set: the remaining soil, the thermal relaxation, the water, and the seepage at
the cell. -/
def floodDeposit (env : Env) (p : WaterParticle) (w : World) : World :=
  -- Add Remaining Soil
  let m1 := w.map.add p.ipos (poolGet (p.sediment * (env.soils p.contains).equrate) p.contains)
  let m2 := env.thermal p.pos m1
  -- Add Water
  let m3 := m2.add p.ipos (poolGet (p.volume * volumeFactor) env.Air)
  seep env (toVec2 p.ipos) { w with map := m3 }

/-- Source `WaterParticle::flood`.  The argument `cascade` is
`WaterParticle::cascade(. , map, vertexpool, .)`. -/
def flood (env : Env) (cascade : Vec2 → Int → World → Except Stop World)
    (p : WaterParticle) (w : World) : Except Stop (WaterParticle × World × Bool) :=
  if p.volume < minvol then .ok (p, w, false)
  else if p.spill ≤ 0 then .ok ({ p with spill := p.spill - 1 }, w, false)
  else
    let p1 := { p with spill := p.spill - 1, ipos := toIVec2 p.pos }
    match cascade (toVec2 p1.ipos) p1.spill (floodDeposit env p1 w) with
    | .error e => .error e
    | .ok w2 => .ok (p1, w2.update p1.ipos, false)

/-- The loop `while(particle.move(..) && particle.interact(..));`, cut off
after the given number of iterations. -/
def runMoveInteract (env : Env) : Nat → WaterParticle → World → Except Stop (WaterParticle × World)
  | 0, _, w => .error ⟨.fuel, w⟩
  | k + 1, p, w =>
    if (move env p w).2.2 then
      if (interact env (move env p w).1 (move env p w).2.1).2.2 then
        runMoveInteract env k (interact env (move env p w).1 (move env p w).2.1).1
          (interact env (move env p w).1 (move env p w).2.1).2.1
      else .ok ((interact env (move env p w).1 (move env p w).2.1).1,
                (interact env (move env p w).1 (move env p w).2.1).2.1)
    else .ok ((move env p w).1, (move env p w).2.1)

/-- The loop `while(true){ while(move && interact); if(!flood) break; }` run
on the particle spawned by `cascade`. -/
def runParticle (env : Env) (pfuel : Nat) (cascade : Vec2 → Int → World → Except Stop World) :
    Nat → WaterParticle → World → Except Stop World
  | 0, _, w => .error ⟨.fuel, w⟩
  | k + 1, p, w =>
    match runMoveInteract env pfuel p w with
    | .error e => .error e
    | .ok (p1, w1) =>
      match flood env cascade p1 w1 with
      | .error e => .error e
      | .ok (p2, w2, b) => if b then runParticle env pfuel cascade k p2 w2 else .ok w2

/-! ## Cascade (water.h 151-283) -/

/-- The eight neighbour offsets `n[]`. -/
def neighbourOffsets : List IVec2 :=
  [(-1, -1), (-1, 0), (-1, 1), (0, -1), (0, 1), (1, -1), (1, 0), (1, 1)]

/-- The in-bounds neighbours of a cell, sorted by `map.height`, highest first
(`sn` after the `sort`; cells of equal height may come in any order in the
source). -/
def sortedNeighbours (env : Env) (m : Layermap) (ipos : IVec2) : List IVec2 :=
  let npos := neighbourOffsets.map (fun nn => (ipos.1 + nn.1, ipos.2 + nn.2))
  let inb := npos.filter
    (fun q => ¬ (q.1 ≥ m.dim.1 ∨ q.2 ≥ m.dim.2 ∨ q.1 < 0 ∨ q.2 < 0))
  let sn := inb.map (fun q => (q, env.height m q))
  (sn.insertionSort (fun a b => a.2 > b.2)).map Prod.fst

/-- Water table height `whA`/`whB` of a top layer: its size in both branches
of the source, 0 for an absent layer. -/
def waterHeight (Air : SurfType) : Option sec → ℚ
  | none => 0
  | some s => if s.type = Air then s.size else s.size

/-- Floor value `fA`/`fB` of a top layer, 0 for an absent layer. -/
def floorValue : Option sec → ℚ
  | none => 0
  | some s => s.floor

/-- The scaled height difference `diff` between the water tables of two
top layers. -/
def headDiff (env : Env) (secA secB : Option sec) : ℚ :=
  (floorValue secA + waterHeight env.Air secA - floorValue secB - waterHeight env.Air secB)
    * env.SCALE / 80

/-- The amount `transfer`: half the absolute height difference, capped by the
water available in `top`. -/
def cascadeTransfer (diff : ℚ) (top : sec) : ℚ :=
  let transfer := |diff| / 2
  let wh := top.size
  if wh < transfer then wh else transfer

/-- The assignment `map.top(pos)->saturation = v`. -/
def Layermap.setTopSaturation (m : Layermap) (p : IVec2) (v : ℚ) : Option Layermap :=
  match (m.dat p).getLast? with
  | none => none
  | some t => some (m.setColumn p ((m.dat p).dropLast ++ [{ t with saturation := v }]))

/-- The full-transfer branch `if(transfer == wh)` of `cascade`: the water is
removed and a particle is spawned on the higher cell and run. -/
def cascadeFull (env : Env) (pfuel : Nat) (cascade : Vec2 → Int → World → Except Stop World)
    (tpos bpos : IVec2) (transfer : ℚ) (spill : Int) (w : World) : Except Stop World :=
  let w1 := ({ w with map := (w.map.remove tpos transfer).1 }).update tpos
  let particle := (WaterParticle.new env w1).1
  let w2 := (WaterParticle.new env w1).2
  let d : Vec2 := ((bpos.1 : ℚ) - (tpos.1 : ℚ), (bpos.2 : ℚ) - (tpos.2 : ℚ))
  let particle1 := { particle with
    speed := (env.sqrt2 * (env.normalize d).1, env.sqrt2 * (env.normalize d).2),
    pos := toVec2 tpos, spill := spill, volume := transfer / volumeFactor }
  runParticle env pfuel cascade pfuel particle1 w2

/-- The partial-transfer branch of `cascade`: returns the flag `recascade` and
the new state. -/
def cascadePartial (env : Env) (tpos bpos : IVec2) (transfer : ℚ) (w : World) :
    Except Stop (Bool × World) :=
  let r := w.map.remove tpos transfer
  let recascade0 : Bool := decide (r.2 ≠ 0)
  let recascade : Bool := if transfer > 0 then true else recascade0
  let m1 := r.1.add bpos (poolGet transfer env.Air)
  match m1.setTopSaturation bpos 1 with
  | none => .error ⟨.nullTop, { w with map := m1 }⟩
  | some m2 => .ok (recascade, (({ w with map := m2 }).update tpos).update bpos)

/-- What the neighbour loop of `cascade` decides for one pair before it
changes anything: `continue` (`skip`), the read of `top->type` through a `NULL`
pointer (`nullTop`), the full transfer or the partial transfer (`part`) of the
amount `transfer` from the cell `tpos` to the cell `bpos`. -/
inductive PairAction where
  | skip
  | nullTop
  | full (tpos bpos : IVec2) (transfer : ℚ)
  | part (tpos bpos : IVec2) (transfer : ℚ)
deriving DecidableEq

/-- The decisions of the neighbour loop of `cascade` for the source cell `ipos`
and the neighbour `npos` (water.h 190-246). -/
def pairAction (env : Env) (ipos npos : IVec2) (m : Layermap) : PairAction :=
  let secA := m.top ipos
  let secB := m.top npos
  -- Actual Height Difference Between Watertables
  let diff := headDiff env secA secB
  if diff = 0 then .skip
  else
    -- Higher and Lower Section
    let top := if diff > 0 then secA else secB
    let tpos := if diff > 0 then ipos else npos
    let bpos := if diff > 0 then npos else ipos
    match top with
    | none => .nullTop
    | some top =>
      -- We are currently only cascading air
      if top.type ≠ env.Air then .skip
      else
        let transfer := cascadeTransfer diff top
        if transfer ≤ 0 then .skip
        else if transfer = top.size then .full tpos bpos transfer
        else .part tpos bpos transfer

/-- The body of the neighbour loop of `cascade` for the neighbour `npos`:
returns the value of the local `spill` after the body and the new state. -/
def cascadePair (env : Env) (pfuel : Nat) (cascade : Vec2 → Int → World → Except Stop World)
    (ipos npos : IVec2) (spill : Int) (w : World) : Except Stop (Int × World) :=
  match pairAction env ipos npos w.map with
  | .skip => .ok (spill, w)
  | .nullTop => .error ⟨.nullTop, w⟩
  | .full tpos bpos transfer =>
    match cascadeFull env pfuel cascade tpos bpos transfer spill w with
    | .error e => .error e
    | .ok w1 => .ok (spill, w1)
  | .part tpos bpos transfer =>
    match cascadePartial env tpos bpos transfer w with
    | .error e => .error e
    | .ok (recascade, w1) =>
      if recascade = true ∧ spill > 0 then
        match cascade (toVec2 npos) (spill - 1) w1 with
        | .error e => .error e
        | .ok w2 => .ok (spill - 1, w2)
      else .ok (spill, w1)

/-- The loop `for (int i = 0; i < num; ++i)` of `cascade` over the sorted
neighbours, threading the local `spill`. -/
def cascadeLoop (env : Env) (pfuel : Nat) (cascade : Vec2 → Int → World → Except Stop World)
    (ipos : IVec2) : List IVec2 → Int → World → Except Stop World
  | [], _, w => .ok w
  | npos :: rest, spill, w =>
    match cascadePair env pfuel cascade ipos npos spill w with
    | .error e => .error e
    | .ok (spill1, w1) => cascadeLoop env pfuel cascade ipos rest spill1 w1

/-- Source `WaterParticle::cascade(pos, map, vertexpool, spill)` at nesting depth
`depth`.  The first numeric argument bounds the nesting of the model (a nested
start beyond it stops the run with `depth`); the nested invocations (direct, or
through `flood` of a spawned particle) are logged in the ghost field `calls`. -/
def cascadeN (env : Env) (pfuel : Nat) : Nat → Nat → Vec2 → Int → World → Except Stop World
  | 0, depth, pos, spill, w =>
    cascadeLoop env pfuel
      (fun _ b w1 => .error ⟨.depth, w1.logCall ⟨depth + 1, spill, b⟩⟩)
      (toIVec2 pos) (sortedNeighbours env w.map (toIVec2 pos)) spill w
  | n + 1, depth, pos, spill, w =>
    cascadeLoop env pfuel
      (fun npos b w1 => cascadeN env pfuel n (depth + 1) npos b (w1.logCall ⟨depth + 1, spill, b⟩))
      (toIVec2 pos) (sortedNeighbours env w.map (toIVec2 pos)) spill w

/-- Source `WaterParticle::cascade(pos, map, vertexpool, spill)` called from outside
(nesting depth 0). -/
def cascade (env : Env) (pfuel : Nat) (pos : Vec2) (spill : Int) (w : World) : Except Stop World :=
  cascadeN env pfuel spill.toNat 0 pos spill w

/-! ## Predicates and measures used in the statements -/

/-- The invariant of the traffic field: `track` is non-negative and
`frequency` lies in [0,1), at every index. -/
def FieldInv (w : World) : Prop :=
  ∀ i, 0 ≤ w.track i ∧ 0 ≤ w.frequency i ∧ w.frequency i < 1

/-- The property of a record logged beneath an invocation of `cascade` at
nesting depth `d0` with spill budget `s`: the started invocation is nested
deeper than `d0`, by at most `s` minus its own budget; its budget is not
negative and strictly smaller than the budget of the invocation that started
it, which is at most `s`. -/
def RecordOk (d0 : Nat) (s : Int) (r : CallRecord) : Prop :=
  d0 < r.depth ∧ (r.depth : Int) + r.budget ≤ (d0 : Int) + s ∧
    0 ≤ r.budget ∧ r.budget < r.caller ∧ r.caller ≤ s

/-- The call log of `w2` is the call log of `w` with new records in front, all
of which satisfy `P`. -/
def Extends (P : CallRecord → Prop) (w w2 : World) : Prop :=
  ∃ new : List CallRecord, w2.calls = new ++ w.calls ∧ ∀ r ∈ new, P r

/-- The outcome of a run started in `w`, ended normally or stopped, has only
logged records satisfying `P`, and was not stopped by the nesting bound of the
model. -/
def Good {α : Type} (P : CallRecord → Prop) (w : World) (proj : α → World) :
    Except Stop α → Prop
  | .ok a => Extends P w (proj a)
  | .error e => Extends P w e.world ∧ e.reason ≠ .depth

/-- The state in which a run ended, normally or stopped. -/
def finalWorld : Except Stop World → World
  | .ok w => w
  | .error e => e.world

/-! ## Termination: runs that do not depend on the iteration bound -/

/-- Every value of the traffic field `frequency` lies in [0,1). -/
def FreqOk (w : World) : Prop := ∀ i, 0 ≤ w.frequency i ∧ w.frequency i < 1

/-- A run that depends on an iteration bound `k` settles: from some bound on
it has one and the same outcome, which is not a stop for lack of iterations;
when it ends normally the traffic field of its state is still in [0,1). -/
def Settles {α : Type} (proj : α → World) (f : Nat → Except Stop α) : Prop :=
  ∃ (F : Nat) (out : Except Stop α), (∀ k, F ≤ k → f k = out) ∧
    (match out with
     | .ok a => FreqOk (proj a)
     | .error e => e.reason ≠ .fuel)

/-- Source `flood` called from outside: the nested call is `WaterParticle::cascade`. -/
def floodRun (env : Env) (pfuel : Nat) (p : WaterParticle) (w : World) :
    Except Stop (WaterParticle × World × Bool) :=
  flood env (fun pos b w1 => cascade env pfuel pos b w1) p w

/-! ## Concrete inputs -/

/-- A soil table with open water as type 0 (porosity 1) and every other type
a soil of porosity 0.3 and equilibrium rate 1. -/
def exSoils (t : SurfType) : SurfParam :=
  if t = 0 then
    { friction := 1 / 2, solubility := 1, porosity := 1, equrate := 1, erosionrate := 1,
      erodes := 0, transports := 0 }
  else
    { friction := 1 / 2, solubility := 1, porosity := 3 / 10, equrate := 1, erosionrate := 1,
      erodes := t, transports := t }

/-- Height of a column: floor plus thickness of its top layer, 0 when empty. -/
def exHeight (m : Layermap) (p : IVec2) : ℚ :=
  match m.top p with
  | none => 0
  | some t => t.floor + t.size

/-- Type of the top layer of a column, open water when empty. -/
def exSurface (m : Layermap) (p : IVec2) : SurfType :=
  match m.top p with
  | none => 0
  | some t => t.type

/-- An environment: `SCALE = 80`, flat normals, no thermal relaxation,
`rand()` constantly 0. -/
def exEnv : Env :=
  { soils := exSoils, Air := 0, SCALE := 80,
    normal := fun _ _ => (0, 1, 0),
    height := exHeight,
    heightAt := fun m v => exHeight m (toIVec2 v),
    surface := exSurface,
    thermal := fun _ m => m,
    rand := fun _ => 0,
    length := fun v => |v.1| + |v.2|,
    normalize := fun v => v,
    sqrt2 := 1 }

/-- A world whose terrain is the given column at cell (0,0) of a 4×4 grid and
empty elsewhere, with zero traffic. -/
def exWorld (col : Column) : World :=
  { map := { dim := (4, 4), dat := fun q => if q = (0, 0) then col else [] },
    frequency := fun _ => 0, track := fun _ => 0, updated := [], rng := 0, calls := [] }

/-- Ten units of saturated soil on ten units of dry soil. -/
def exSoilOnSoil : Column :=
  [{ type := 1, size := 10, floor := 0, saturation := 0 },
   { type := 2, size := 10, floor := 10, saturation := 1 }]

/-- An empty 4×4 terrain with frequency 1/2 and traffic 1000000 in every
cell. -/
def exTrafficWorld : World :=
  { map := { dim := (4, 4), dat := fun _ => [] },
    frequency := fun _ => 1 / 2, track := fun _ => 1000000, updated := [], rng := 0, calls := [] }

/-- A soil table in which every type has equilibrium rate 2. -/
def exSoilsFast (t : SurfType) : SurfParam :=
  { friction := 1 / 2, solubility := 1, porosity := 3 / 10, equrate := 2, erosionrate := 1,
    erodes := t, transports := t }

/-- The environment `exEnv` with the soil table `exSoilsFast`. -/
def exEnvFast : Env := { exEnv with soils := exSoilsFast }

/-- A particle at cell (0,0) carrying soil type 1, with the given volume,
sediment fraction and spill budget, its evaporation rate as `move` sets it
for zero traffic. -/
def exParticle (env : Env) (volume sediment : ℚ) (spill : Int) : WaterParticle :=
  { pos := (0, 0), speed := (0, 0), volume := volume, sediment := sediment,
    evaprate := 1 / 100, spill := spill, ipos := (0, 0), n := (0, 1, 0),
    param := env.soils 1, surface := 1, contains := 1 }

/-- The environment `exEnv` on a slope: the terrain at the particle's
continuous position lies one unit below the terrain at its cell, so the
equilibrium capacity is 1. -/
def exEnvDrop : Env := { exEnv with heightAt := fun m v => exHeight m (toIVec2 v) - 1 }

/-- A column holding a tenth of a unit of soil. -/
def exThin : Column := [{ type := 1, size := 1 / 10, floor := 0, saturation := 0 }]

/-- Two neighbouring columns: at (0,0) five units of open water on five units
of soil (water table at 10), at (1,0) four units of soil (height 4). -/
def exPond : World :=
  { map := { dim := (4, 4), dat := fun q =>
      if q = (0, 0) then
        [{ type := 1, size := 5, floor := 0, saturation := 0 },
         { type := 0, size := 5, floor := 5, saturation := 1 }]
      else if q = (1, 0) then [{ type := 1, size := 4, floor := 0, saturation := 0 }]
      else [] },
    frequency := fun _ => 0, track := fun _ => 0, updated := [], rng := 0, calls := [] }

/-! ## The motion step of `move` -/

/-- The friction `param.friction` of `move` after the step "Modify Parameters
Based on Frequency". -/
def moveFriction (env : Env) (p : WaterParticle) (w : World) : ℚ :=
  (env.soils (env.surface w.map (roundVec p.pos))).friction *
    (1 - w.frequency (cellIndex w.map (roundVec p.pos)))

/-- The test "No Motion" of `move`:
`length(vec2(n.x, n.z)*param.friction) < 1E-5`. -/
def moveStuck (env : Env) (p : WaterParticle) (w : World) : Prop :=
  env.length ((env.normal w.map (roundVec p.pos)).1 * moveFriction env p w,
    (env.normal w.map (roundVec p.pos)).2.2 * moveFriction env p w) < 1 / 100000

instance (env : Env) (p : WaterParticle) (w : World) : Decidable (moveStuck env p w) := by
  unfold moveStuck
  infer_instance

/-- The velocity `speed` of `move` after the step "Motion Low". -/
def moveSpeed (env : Env) (p : WaterParticle) (w : World) : Vec2 :=
  (env.sqrt2 * (env.normalize (mix ((env.normal w.map (roundVec p.pos)).1,
      (env.normal w.map (roundVec p.pos)).2.2) p.speed (moveFriction env p w))).1,
   env.sqrt2 * (env.normalize (mix ((env.normal w.map (roundVec p.pos)).1,
      (env.normal w.map (roundVec p.pos)).2.2) p.speed (moveFriction env p w))).2)

/-- The advanced position `pos += speed` of `move`. -/
def moveTarget (env : Env) (p : WaterParticle) (w : World) : Vec2 :=
  (p.pos.1 + (moveSpeed env p w).1, p.pos.2 + (moveSpeed env p w).2)

/-- The position lies inside the grid: each coordinate is at least 0 and below
the dimension of its axis. -/
def InGrid (m : Layermap) (pos : Vec2) : Prop :=
  0 ≤ pos.1 ∧ 0 ≤ pos.2 ∧ pos.1 < (m.dim.1 : ℚ) ∧ pos.2 < (m.dim.2 : ℚ)

instance (m : Layermap) (pos : Vec2) : Decidable (InGrid m pos) := by
  unfold InGrid
  infer_instance

/-- The environment `exEnv` on a slope falling in the x direction: the normal
is (1,0,0) everywhere, `length` and `normalize` are taken in the 1-norm (exact
on axis-parallel vectors) and `sqrt(2.0f)` is 1.414. -/
def exEnvSlope : Env :=
  { soils := exSoils, Air := 0, SCALE := 80,
    normal := fun _ _ => (1, 0, 0),
    height := exHeight,
    heightAt := fun m v => exHeight m (toIVec2 v),
    surface := exSurface,
    thermal := fun _ m => m,
    rand := fun _ => 0,
    length := fun v => |v.1| + |v.2|,
    normalize := fun v => (v.1 / (|v.1| + |v.2|), v.2 / (|v.1| + |v.2|)),
    sqrt2 := 1414 / 1000 }

/-- A particle of volume 1 at rest at the given position, with spill budget 3. -/
def exParticleAt (env : Env) (pos : Vec2) : WaterParticle :=
  { pos := pos, speed := (0, 0), volume := 1, sediment := 0,
    evaprate := 1 / 100, spill := 3, ipos := roundVec pos, n := (0, 1, 0),
    param := env.soils 1, surface := 1, contains := 1 }

/-! ## Partial transfer: the water surfaces of the two columns -/

/-- The elevation of the surface of a column as `cascade` computes it from the
top layer: floor + thickness, 0 for an empty column. -/
def surfaceOf (Air : SurfType) (o : Option sec) : ℚ := floorValue o + waterHeight Air o

/-- The state after the partial-transfer branch, returned or stopped. -/
def partialWorld : Except Stop (Bool × World) → World
  | .ok r => r.2
  | .error e => e.world

/-- The environment `exEnv` with `SCALE = 160`. -/
def exEnvScaled : Env := { exEnv with SCALE := 160 }

/-- Two neighbouring columns: at (0,0) eight units of open water on two units
of soil (water surface at 10), at (1,0) four units of soil (surface at 4). -/
def exDeepPond : World :=
  { map := { dim := (4, 4), dat := fun q =>
      if q = (0, 0) then
        [{ type := 1, size := 2, floor := 0, saturation := 0 },
         { type := 0, size := 8, floor := 2, saturation := 1 }]
      else if q = (1, 0) then [{ type := 1, size := 4, floor := 0, saturation := 0 }]
      else [] },
    frequency := fun _ => 0, track := fun _ => 0, updated := [], rng := 0, calls := [] }

/-- A strip of three cells: at (1,0) twenty units of open water on five units
of soil (surface at 25), the two neighbours (0,0) and (2,0) empty. -/
def exStrip : World :=
  { map := { dim := (3, 1), dat := fun q =>
      if q = (1, 0) then
        [{ type := 1, size := 5, floor := 0, saturation := 0 },
         { type := 0, size := 20, floor := 5, saturation := 1 }]
      else [] },
    frequency := fun _ => 0, track := fun _ => 0, updated := [], rng := 0, calls := [] }

/-- The particle and the state with which `flood` returned, if it did. -/
def floodOutcome : Except Stop (WaterParticle × World × Bool) → Option (WaterParticle × World)
  | .ok r => some (r.1, r.2.1)
  | .error _ => none

/-! ## Seepage in exact arithmetic: the saturation range -/

/-- Every layer of the column has positive thickness, positive porosity and a
saturation in [0,1]. -/
def SatOk (soils : SurfType → SurfParam) (col : Column) : Prop :=
  ∀ s ∈ col, 0 < s.size ∧ 0 < (soils s.type).porosity ∧ 0 ≤ s.saturation ∧ s.saturation ≤ 1

/-- A column of three layers: a unit of saturated open water on a unit of dry
soil of type 2 on ten units of dry soil of type 1. -/
def exThreeLayers : Column :=
  [{ type := 1, size := 10, floor := 0, saturation := 0 },
   { type := 2, size := 1, floor := 10, saturation := 0 },
   { type := 0, size := 1, floor := 11, saturation := 1 }]

/-! ## The higher side of a cascade pair -/

/-- A terrain with a sunk column at (0,0), a unit of soil on a floor at −3
(surface at −2), next to empty columns. -/
def exSunk : World :=
  { map := { dim := (4, 4), dat := fun q =>
      if q = (0, 0) then [{ type := 1, size := 1, floor := -3, saturation := 0 }] else [] },
    frequency := fun _ => 0, track := fun _ => 0, updated := [], rng := 0, calls := [] }

/-! ## Cell indices -/

/-- The test of `move` on an advanced position that lets the particle go on:
each coordinate is at least 0 and below the dimension of its axis minus 1. -/
def moveAccepts (m : Layermap) (pos : Vec2) : Prop :=
  (0 ≤ pos.1 ∧ 0 ≤ pos.2) ∧ (pos.1 < (m.dim.1 : ℚ) - 1 ∧ pos.2 < (m.dim.2 : ℚ) - 1)

instance (m : Layermap) (pos : Vec2) : Decidable (moveAccepts m pos) := by
  unfold moveAccepts
  infer_instance

/-- The cell lies in the grid and its flat index lies in the range of the
arrays `track` and `frequency`. -/
def CellOk (m : Layermap) (c : IVec2) : Prop :=
  (0 ≤ c.1 ∧ c.1 < m.dim.1) ∧ (0 ≤ c.2 ∧ c.2 < m.dim.2) ∧
    (0 ≤ cellIndex m c ∧ cellIndex m c < m.dim.1 * m.dim.2)

instance (m : Layermap) (c : IVec2) : Decidable (CellOk m c) := by
  unfold CellOk
  infer_instance

/-! ## Double-precision arithmetic

The rounding `fl` of a rational to the nearest binary64 number, and the
embedding in `double` arithmetic of the partial transfer of `cascade` and of
`seep`. -/

/-- The integer nearest to a rational, ties to the even one. -/
def roundEven (q : ℚ) : Int :=
  if q - ⌊q⌋ < 1 / 2 then ⌊q⌋
  else if 1 / 2 < q - ⌊q⌋ then ⌊q⌋ + 1
  else if ⌊q⌋ % 2 = 0 then ⌊q⌋ else ⌊q⌋ + 1

/-- The number of binary digits of a natural number, by halving; the first
argument bounds the number of halvings. -/
def bitLength : Nat → Nat → Nat
  | 0, _ => 0
  | f + 1, n => if n = 0 then 0 else bitLength f (n / 2) + 1

/-- The floor of the binary logarithm of a positive natural number. -/
def log2Nat (n : Nat) : Nat := bitLength n n - 1

/-- The binary exponent of a non-zero rational: the integer `e` with
2^e ≤ |q| < 2^(e+1), found from the bit lengths of numerator and denominator. -/
def binExp (q : ℚ) : Int :=
  if (2 : ℚ) ^ ((log2Nat q.num.natAbs : Int) - (log2Nat q.den : Int)) ≤ |q| then
    (log2Nat q.num.natAbs : Int) - (log2Nat q.den : Int)
  else (log2Nat q.num.natAbs : Int) - (log2Nat q.den : Int) - 1

/-- Exponent of the spacing of the binary64 numbers (`double`) around a
rational: 52 below the exponent of the rational for normal numbers, −1074 in
the subnormal range. -/
def ulpExp (q : ℚ) : Int := max (binExp q - 52) (-1074)

/-- The result of a `double` operation whose exact result is the given
rational: the nearest binary64 number, ties to even (the default rounding
mode), with gradual underflow.  Overflow is not represented: a rational beyond
the largest `double` is rounded to 53 bits like any other. -/
def fl (q : ℚ) : ℚ := (roundEven (q / 2 ^ ulpExp q) : ℚ) * 2 ^ ulpExp q

/-- Unit roundoff of binary64, 2^-53. -/
def uRound : ℚ := 1 / 2 ^ 53

/-- Half the smallest positive binary64 number, 2^-1075. -/
def etaRound : ℚ := 1 / 2 ^ 1075

/-! ## The partial transfer of `cascade` in double arithmetic -/

/-- Modelled from the spec: `Layermap::remove` on one column, as `Column.remove`,
with the thinning `size -= h` and the remainder `h - size` computed in `double`. -/
def Column.removeD (col : Column) (h : ℚ) : Column × ℚ :=
  match col.getLast? with
  | none => (col, 0)
  | some t =>
    if h ≤ 0 then (col, 0)
    else if h < t.size then (col.dropLast ++ [{ t with size := fl (t.size - h) }], 0)
    else (col.dropLast, fl (h - t.size))

/-- Modelled from the spec: `Layermap::add` on one column, as `Column.add`, with
the floor `floor + size` of the new layer computed in `double`. -/
def Column.addD (col : Column) (e : sec) : Column :=
  match col.getLast? with
  | none => [{ e with floor := 0 }]
  | some t => col ++ [{ e with floor := fl (t.floor + t.size) }]

/-- Modelled from the spec: `map.remove(pos, h)` in `double`. -/
def Layermap.removeD (m : Layermap) (p : IVec2) (h : ℚ) : Layermap × ℚ :=
  (m.setColumn p ((m.dat p).removeD h).1, ((m.dat p).removeD h).2)

/-- Modelled from the spec: `map.add(pos, E)` in `double`. -/
def Layermap.addD (m : Layermap) (p : IVec2) (e : sec) : Layermap :=
  m.setColumn p ((m.dat p).addD e)

/-- The value of `(fA + whA - fB - whB)*(double)SCALE/80.0` in `double`: every
operation, from left to right, is rounded. -/
def headDiffD (env : Env) (secA secB : Option sec) : ℚ :=
  fl (fl (fl (fl (fl (floorValue secA + waterHeight env.Air secA) - floorValue secB) -
    waterHeight env.Air secB) * env.SCALE) / 80)

/-- The amount `transfer` in `double`: `abs(diff) / 2.0`, capped by the water
available in `top`. -/
def cascadeTransferD (diff : ℚ) (top : sec) : ℚ :=
  let transfer := fl (|diff| / 2)
  let wh := top.size
  if wh < transfer then wh else transfer

/-- The decisions of the neighbour loop of `cascade` (water.h 190-246) in
`double`. -/
def pairActionD (env : Env) (ipos npos : IVec2) (m : Layermap) : PairAction :=
  let secA := m.top ipos
  let secB := m.top npos
  -- Actual Height Difference Between Watertables
  let diff := headDiffD env secA secB
  if diff = 0 then .skip
  else
    -- Higher and Lower Section
    let top := if diff > 0 then secA else secB
    let tpos := if diff > 0 then ipos else npos
    let bpos := if diff > 0 then npos else ipos
    match top with
    | none => .nullTop
    | some top =>
      -- We are currently only cascading air
      if top.type ≠ env.Air then .skip
      else
        let transfer := cascadeTransferD diff top
        if transfer ≤ 0 then .skip
        else if transfer = top.size then .full tpos bpos transfer
        else .part tpos bpos transfer

/-- The partial-transfer branch of `cascade` in `double`. -/
def cascadePartialD (env : Env) (tpos bpos : IVec2) (transfer : ℚ) (w : World) :
    Except Stop (Bool × World) :=
  let r := w.map.removeD tpos transfer
  let recascade0 : Bool := decide (r.2 ≠ 0)
  let recascade : Bool := if transfer > 0 then true else recascade0
  let m1 := r.1.addD bpos (poolGet transfer env.Air)
  match m1.setTopSaturation bpos 1 with
  | none => .error ⟨.nullTop, { w with map := m1 }⟩
  | some m2 => .ok (recascade, (({ w with map := m2 }).update tpos).update bpos)

/-- The elevation `floor + size` of the surface of a column as `cascade`
computes it in `double` from the top layer, 0 for an empty column. -/
def surfaceOfD (Air : SurfType) (o : Option sec) : ℚ := fl (floorValue o + waterHeight Air o)

/-- The sum of the magnitudes of the floors and thicknesses of two top layers. -/
def headMagnitude (Air : SurfType) (secA secB : Option sec) : ℚ :=
  |floorValue secA| + |waterHeight Air secA| + |floorValue secB| + |waterHeight Air secB|

/-- Two neighbouring columns with `double` values: at (0,0) open water of
thickness 19.82 on soil of thickness 17.13, at (1,0) soil of thickness 3.27 on
soil of thickness 13.43 (each the nearest `double`). -/
def exPondD : World :=
  { map := { dim := (4, 4), dat := fun q =>
      if q = (0, 0) then
        [{ type := 1, size := 4821666351053537 / 281474976710656, floor := 0, saturation := 0 },
         { type := 0, size := 2789417019202601 / 140737488355328, floor := 4821666351053537 / 281474976710656, saturation := 1 }]
      else if q = (1, 0) then
        [{ type := 1, size := 1890104468612055 / 140737488355328, floor := 0, saturation := 0 },
         { type := 1, size := 7363385390750761 / 2251799813685248, floor := 1890104468612055 / 140737488355328, saturation := 0 }]
      else [] },
    frequency := fun _ => 0, track := fun _ => 0, updated := [], rng := 0, calls := [] }

/-! ## Seepage in double arithmetic -/

/-- The amount `transfer` of `seep` in `double`: the products are rounded from
left to right. -/
def seepTransferD (soils : SurfType → SurfParam) (top prev : sec) : ℚ :=
  let param := soils top.type
  let nparam := soils prev.type
  -- Volume Top Layer
  let vol := fl (fl (top.size * top.saturation) * param.porosity)
  -- Empty Volume Bottom Layer
  let nevol := fl (fl (prev.size * fl (1 - prev.saturation)) * nparam.porosity)
  -- Transferred Volume is the Smaller Amount!
  if vol < nevol then vol else nevol

/-- The body of `if(transfer > 0)` in `seep` in `double`, for `top` at index
`d + 1` and `prev` at index `d` of the column. -/
def seepPairD (soils : SurfType → SurfParam) (Air : SurfType) (d : Nat) (col : Column)
    (top prev : sec) : Column :=
  let param := soils top.type
  let nparam := soils prev.type
  let transfer := seepTransferD soils top prev
  let seepage : ℚ := if transfer < 1 / 1000000 then 1 else 1
  -- Remove from Top Layer
  let col1 :=
    if top.type = Air then (col.removeD (fl (seepage * transfer))).1
    else col.set (d + 1)
      { top with saturation := fl (top.saturation - fl (fl (seepage * transfer) / fl (top.size * param.porosity))) }
  match col1[d]? with
  | some prev1 =>
    col1.set d
      { prev1 with saturation := fl (prev1.saturation + fl (fl (seepage * transfer) / fl (prev1.size * nparam.porosity))) }
  | none => col1

/-- The `while(top != NULL && top->prev != NULL)` loop of `seep` in `double`;
the first argument is the index of `top` in the column. -/
def seepLoopD (soils : SurfType → SurfParam) (Air : SurfType) : Nat → Column → Column
  | 0, col => col
  | d + 1, col =>
    match col[d + 1]?, col[d]? with
    | some top, some prev =>
      if seepTransferD soils top prev > 0 then
        seepLoopD soils Air d (seepPairD soils Air d col top prev)
      else seepLoopD soils Air d col
    | _, _ => col

/-- Per-cell `seep(pos, map, vertexpool)` in `double`. -/
def seepD (env : Env) (pos : Vec2) (w : World) : World :=
  let ipos := toIVec2 pos
  match w.map.top ipos with
  | none => w
  | some _ =>
    let col := seepLoopD env.soils env.Air ((w.map.dat ipos).length - 1) (w.map.dat ipos)
    ({ w with map := w.map.setColumn ipos col }).update ipos

/-- A layer as the claim on the saturation range takes it: thickness and
porosity positive (here between 2^-100 and 2^100, so that no product overflows
or underflows) and saturation in [0,1]. -/
def LayerIn (soils : SurfType → SurfParam) (s : sec) : Prop :=
  (1 / 2 ^ 100 ≤ s.size ∧ s.size ≤ 2 ^ 100) ∧
  (1 / 2 ^ 100 ≤ (soils s.type).porosity ∧ (soils s.type).porosity ≤ 2 ^ 100) ∧
  (0 ≤ s.saturation ∧ s.saturation ≤ 1)

/-- The saturation of the layer is in [0,1] up to 2^-49. -/
def SatNear (s : sec) : Prop := -(1 / 2 ^ 49) ≤ s.saturation ∧ s.saturation ≤ 1 + 1 / 2 ^ 49

instance (soils : SurfType → SurfParam) (s : sec) : Decidable (LayerIn soils s) := by
  unfold LayerIn
  infer_instance

/-- The state of a column when the loop of `seep` stands at the layer of index
`n`: every saturation is in [0,1] up to 2^-49, the layers below index `n` are
as at the start of the pass, and the layer of index `n` has gained at most
12·2^-53 beyond saturation 1. -/
def SeepInv (soils : SurfType → SurfParam) (n : Nat) (col : Column) : Prop :=
  (∀ s ∈ col, SatNear s) ∧
  (∀ i s, i < n → col[i]? = some s → LayerIn soils s) ∧
  (∀ s, col[n]? = some s →
    (1 / 2 ^ 100 ≤ s.size ∧ s.size ≤ 2 ^ 100) ∧
    (1 / 2 ^ 100 ≤ (soils s.type).porosity ∧ (soils s.type).porosity ≤ 2 ^ 100) ∧
    (0 ≤ s.saturation ∧ s.saturation ≤ 1 + 12 / 2 ^ 53))

/-- A soil table with `float` porosities: open water as type 0 (porosity 1),
every other type a soil of porosity `0.3f`. -/
def exSoilsF (t : SurfType) : SurfParam :=
  if t = 0 then
    { friction := 1 / 2, solubility := 1, porosity := 1, equrate := 1, erosionrate := 1,
      erodes := 0, transports := 0 }
  else
    { friction := 1 / 2, solubility := 1, porosity := 5033165 / 16777216, equrate := 1,
      erosionrate := 1, erodes := t, transports := t }

/-- The environment `exEnv` with the soil table `exSoilsF`. -/
def exEnvF : Env := { exEnv with soils := exSoilsF }

/-- Three units of soil with saturation 0.1 (the nearest `double`) on a unit of
dry soil. -/
def exDampOnDry : Column :=
  [{ type := 1, size := 1, floor := 0, saturation := 0 },
   { type := 2, size := 3, floor := 1, saturation := 3602879701896397 / 36028797018963968 }]

/-- A soil layer of thickness 7.241115723711883 and saturation 0.899983255693083
on a layer of thickness 2.8519811759331457 and saturation 0.17402563400690818
(the nearest `double` values). -/
def exNearFull : Column :=
  [{ type := 1, size := 1605522670150023 / 562949953421312, floor := 0, saturation := 391870890233213 / 2251799813685248 },
   { type := 2, size := 8152771518763869 / 1125899906842624, floor := 1605522670150023 / 562949953421312, saturation := 8106328509958109 / 9007199254740992 }]

/-! # Theorems -/

/-! ## Seepage -/

theorem toIVec2_zero : toIVec2 (0, 0) = (0, 0) := by
  unfold toIVec2 truncQ
  simp

theorem seep_exWorld (env : Env) (col : Column) (t : sec) (h : col.getLast? = some t) :
    (seep env (0, 0) (exWorld col)).map.dat (0, 0) =
      seepLoop env.soils env.Air Column.remove (col.length - 1) col := by
  have h1 : (exWorld col).map.dat (0, 0) = col := rfl
  have h2 : (exWorld col).map.top (0, 0) = some t := h
  simp only [seep, toIVec2_zero, h2, h1, World.update, Layermap.setColumn, if_true]

theorem seep_dat (env : Env) (pos : Vec2) (w : World) :
    (seep env pos w).map.dat (toIVec2 pos) =
      seepLoop env.soils env.Air Column.remove ((w.map.dat (toIVec2 pos)).length - 1)
        (w.map.dat (toIVec2 pos)) := by
  cases h : w.map.top (toIVec2 pos) with
  | none =>
    have h0 : w.map.dat (toIVec2 pos) = [] := by
      simpa [Layermap.top, Column.top, List.getLast?_eq_none_iff] using h
    simp only [seep, h, h0, List.length_nil]
    rfl
  | some t => simp only [seep, h, World.update, Layermap.setColumn, if_true]

theorem seepLoop_exSoilOnSoil :
    seepLoop exSoils 0 Column.remove 1 exSoilOnSoil =
      [{ type := 1, size := 10, floor := 0, saturation := 1 },
       { type := 2, size := 10, floor := 10, saturation := 0 }] := by
  simp [seepLoop, exSoilOnSoil, seepTransfer, seepPair, exSoils]

/-- C2, as stated, fails: ten units of saturated soil (porosity 0.3) on ten
units of dry soil (porosity 0.3) do not end at saturation 0.5 each; the pass
moves all 3 units of water down, leaving saturation 0 above and 1 below. -/
theorem seep_scenario_not_half :
    ((seep exEnv (0, 0) (exWorld exSoilOnSoil)).map.dat (0, 0)).map sec.saturation ≠
      [1 / 2, 1 / 2] := by
  rw [seep_exWorld exEnv exSoilOnSoil _ rfl]
  have h2 : seepLoop exEnv.soils exEnv.Air Column.remove (exSoilOnSoil.length - 1) exSoilOnSoil
      = _ := seepLoop_exSoilOnSoil
  rw [h2]
  norm_num

/-- C2 (amended): for a two-layer column whose top layer is not open water and
has saturation 1, porosity 0.3, thickness 10, lying on a layer with saturation
0, thickness 10, porosity 0.3, one per-cell `seep` pass transfers exactly
min(3, 3) = 3 volume units and leaves the top layer at saturation 0 and the
lower layer at saturation 1. -/
theorem seep_scenario (env : Env) (pos : Vec2) (w : World) (top prev : sec)
    (hcol : w.map.dat (toIVec2 pos) = [prev, top])
    (hair : top.type ≠ env.Air)
    (htop : top.size = 10 ∧ top.saturation = 1 ∧ (env.soils top.type).porosity = 3 / 10)
    (hprev : prev.size = 10 ∧ prev.saturation = 0 ∧ (env.soils prev.type).porosity = 3 / 10) :
    seepTransfer env.soils top prev = 3 ∧
    (seep env pos w).map.dat (toIVec2 pos) =
      [{ prev with saturation := 1 }, { top with saturation := 0 }] := by
  obtain ⟨ht1, ht2, ht3⟩ := htop
  obtain ⟨hp1, hp2, hp3⟩ := hprev
  have htr : seepTransfer env.soils top prev = 3 := by
    simp only [seepTransfer, ht1, ht2, ht3, hp1, hp2, hp3]
    norm_num
  refine ⟨htr, ?_⟩
  rw [seep_dat, hcol]
  simp only [List.length_cons, List.length_nil, Nat.zero_add, Nat.add_sub_cancel]
  simp [seepLoop, seepPair, htr, hair, ht1, ht2, ht3, hp1, hp2, hp3]
  norm_num

/-- C2 (amended), at the column of saturated soil on dry soil. -/
theorem seep_scenario_witness :
    seepTransfer exEnv.soils { type := 2, size := 10, floor := 10, saturation := 1 }
        { type := 1, size := 10, floor := 0, saturation := 0 } = 3 ∧
    (seep exEnv (0, 0) (exWorld exSoilOnSoil)).map.dat (toIVec2 (0, 0)) =
      [{ type := 1, size := 10, floor := 0, saturation := 1 },
       { type := 2, size := 10, floor := 10, saturation := 0 }] :=
  seep_scenario exEnv (0, 0) (exWorld exSoilOnSoil)
    { type := 2, size := 10, floor := 10, saturation := 1 }
    { type := 1, size := 10, floor := 0, saturation := 0 }
    (by rw [toIVec2_zero]; rfl) (by simp [exEnv])
    (by norm_num [exEnv, exSoils]) (by norm_num [exEnv, exSoils])

/-! ## Traffic frequency field -/

theorem mapfrequencyCell_bounds (f t : ℚ) (hf0 : 0 ≤ f) (hf1 : f < 1) (ht : 0 ≤ t) :
    0 ≤ mapfrequencyCell f t ∧ mapfrequencyCell f t < 1 := by
  unfold mapfrequencyCell lrate K
  have hpos : (0 : ℚ) < 1 + 50 * t := by linarith
  have h1 : 0 ≤ 1 / 100 * 50 * t / (1 + 50 * t) := by
    apply div_nonneg _ (le_of_lt hpos)
    linarith
  have h2 : 1 / 100 * 50 * t / (1 + 50 * t) < 1 / 100 := by
    rw [div_lt_iff₀ hpos]
    linarith
  constructor
  · have : 0 ≤ (1 - 1 / 100) * f := by
      apply mul_nonneg _ hf0
      norm_num
    linarith
  · linarith

theorem fieldInv_init (w : World) : FieldInv (init w) := by
  intro i
  simp [SoilMachine.init]

theorem fieldInv_run {w : World} (h : FieldInv w) (op : FieldOp) (hop : op.NonNeg) :
    FieldInv (op.run w) := by
  intro i
  obtain ⟨h1, h2, h3⟩ := h i
  cases op with
  | update volume ipos =>
    simp only [FieldOp.run, updatefrequency]
    refine ⟨?_, h2, h3⟩
    split
    · exact add_nonneg h1 hop
    · exact h1
  | reset =>
    simp only [FieldOp.run, resetfrequency]
    refine ⟨?_, h2, h3⟩
    split
    · exact le_refl _
    · exact h1
  | map =>
    simp only [FieldOp.run, mapfrequency]
    refine ⟨h1, ?_⟩
    split
    · exact mapfrequencyCell_bounds _ _ h2 h3 h1
    · exact ⟨h2, h3⟩

theorem fieldInv_foldl (ops : List FieldOp) : ∀ (w : World), FieldInv w →
    (∀ op ∈ ops, op.NonNeg) → FieldInv (ops.foldl FieldOp.run w) := by
  induction ops with
  | nil => intro w h _; exact h
  | cons op rest ih =>
    intro w h hops
    rw [List.foldl_cons]
    apply ih
    · exact fieldInv_run h op (hops op (List.mem_cons_self _ _))
    · intro o ho
      exact hops o (List.mem_cons_of_mem _ ho)

/-- C3: `mapfrequency` stores `(1-lrate)*frequency[i] + lrate*K*track[i]/(1+K*track[i])`
with `lrate = 0.01`, `K = 50` in every cell of the grid; if `frequency[i]` is in
[0,1) and `track[i]` is non-negative (however large), the new `frequency[i]`
is again in [0,1); and every value of `frequency` reachable from the
zero-initialised field of `init` through `updatefrequency` (non-negative
volumes), `resetfrequency` and `mapfrequency` is in [0,1). -/
theorem frequency_stays_in_unit_interval :
    (∀ (w : World) (i : Int), 0 ≤ i → i < w.map.dim.1 * w.map.dim.2 →
      (mapfrequency w).frequency i =
        (1 - 1 / 100) * w.frequency i + 1 / 100 * 50 * w.track i / (1 + 50 * w.track i)) ∧
    (∀ (w : World) (i : Int), 0 ≤ w.frequency i → w.frequency i < 1 → 0 ≤ w.track i →
      0 ≤ (mapfrequency w).frequency i ∧ (mapfrequency w).frequency i < 1) ∧
    (∀ (w : World) (ops : List FieldOp), (∀ op ∈ ops, op.NonNeg) → ∀ i : Int,
      0 ≤ (ops.foldl FieldOp.run (init w)).frequency i ∧
      (ops.foldl FieldOp.run (init w)).frequency i < 1) := by
  refine ⟨?_, ?_, ?_⟩
  · intro w i h0 h1
    simp only [mapfrequency, mapfrequencyCell, lrate, K]
    rw [if_pos ⟨h0, h1⟩]
  · intro w i h0 h1 ht
    simp only [mapfrequency]
    split
    · exact mapfrequencyCell_bounds _ _ h0 h1 ht
    · exact ⟨h0, h1⟩
  · intro w ops hops i
    exact (fieldInv_foldl ops (init w) (fieldInv_init w) hops i).2

/-- C3, at a cell with frequency 1/2 and traffic 1000000 on the 4×4 grid, and
for the call sequence update, map, reset, map. -/
theorem frequency_stays_in_unit_interval_witness :
    (0 ≤ (mapfrequency exTrafficWorld).frequency 3 ∧
      (mapfrequency exTrafficWorld).frequency 3 < 1) ∧
    (0 ≤ ([FieldOp.update 1000000 (1, 1), FieldOp.map, FieldOp.reset, FieldOp.map].foldl
        FieldOp.run (init (exWorld []))).frequency 5 ∧
      ([FieldOp.update 1000000 (1, 1), FieldOp.map, FieldOp.reset, FieldOp.map].foldl
        FieldOp.run (init (exWorld []))).frequency 5 < 1) :=
  ⟨frequency_stays_in_unit_interval.2.1
      exTrafficWorld 3
      (by norm_num [exTrafficWorld]) (by norm_num [exTrafficWorld]) (by norm_num [exTrafficWorld]),
   frequency_stays_in_unit_interval.2.2 (exWorld [])
      [FieldOp.update 1000000 (1, 1), FieldOp.map, FieldOp.reset, FieldOp.map]
      (by
        intro op hop
        simp at hop
        rcases hop with rfl | rfl | rfl | rfl <;> simp [FieldOp.NonNeg])
      5⟩

/-! ## Sediment exchange and evaporation (`interact`) -/

theorem equilibrium_bounds (env : Env) (p : WaterParticle) (w : World) :
    0 ≤ equilibrium env p w ∧ equilibrium env p w ≤ 1 := by
  unfold equilibrium
  simp only []
  generalize p.param.solubility * (env.height w.map p.ipos - env.heightAt w.map p.pos) *
    env.SCALE / 80 = x
  by_cases h1 : x < 0
  · rw [if_pos h1]
    norm_num
  · rw [if_neg h1]
    by_cases h2 : x > 1
    · simp [h2]
    · rw [if_neg h2]
      exact ⟨le_of_not_lt h1, le_of_not_gt h2⟩

theorem blend_bounds (s c e : ℚ) (hs0 : 0 ≤ s) (hs1 : s ≤ 1) (hc0 : 0 ≤ c) (hc1 : c ≤ 1)
    (he0 : 0 ≤ e) (he1 : e ≤ 1) : 0 ≤ s + e * (c - s) ∧ s + e * (c - s) ≤ 1 := by
  have h : s + e * (c - s) = (1 - e) * s + e * c := by ring
  rw [h]
  constructor
  · have h1 : 0 ≤ (1 - e) * s := mul_nonneg (by linarith) hs0
    have h2 : 0 ≤ e * c := mul_nonneg he0 hc0
    linarith
  · have h1 : (1 - e) * s ≤ (1 - e) * 1 := mul_le_mul_of_nonneg_left hs1 (by linarith)
    have h2 : e * c ≤ e * 1 := mul_le_mul_of_nonneg_left hc1 he0
    linarith

theorem exchange_sediment_bounds (env : Env) (p : WaterParticle) (w : World)
    (hs0 : 0 ≤ p.sediment) (hs1 : p.sediment ≤ 1)
    (hp : 0 ≤ p.param.equrate ∧ p.param.equrate ≤ 1)
    (ht : ∀ t, 0 ≤ (env.soils t).equrate ∧ (env.soils t).equrate ≤ 1) :
    0 ≤ (exchange env p w).1.sediment ∧ (exchange env p w).1.sediment ≤ 1 := by
  obtain ⟨hc0, hc1⟩ := equilibrium_bounds env p w
  unfold exchange
  simp only []
  split
  · exact blend_bounds _ _ _ hs0 hs1 hc0 hc1 hp.1 hp.2
  · split
    · exact blend_bounds _ _ _ hs0 hs1 hc0 hc1 (ht _).1 (ht _).2
    · exact ⟨hs0, hs1⟩

theorem exchange_evaprate (env : Env) (p : WaterParticle) (w : World) :
    (exchange env p w).1.evaprate = p.evaprate := by
  unfold exchange
  simp only []
  split
  · rfl
  · split <;> rfl

theorem exchange_volume (env : Env) (p : WaterParticle) (w : World) :
    (exchange env p w).1.volume = p.volume := by
  unfold exchange
  simp only []
  split
  · rfl
  · split <;> rfl

/-- C4, as stated, fails: with a soil table whose equilibrium rate is 2, a
particle with sediment fraction 1 at a cell of capacity 0 leaves `interact` with
the sediment fraction -100/99. -/
theorem interact_sediment_negative :
    ¬ ∀ (env : Env) (p : WaterParticle) (w : World), 0 ≤ p.sediment → p.sediment ≤ 1 →
      0 ≤ (interact env p w).1.sediment ∧ (interact env p w).1.sediment ≤ 1 := by
  intro h
  have h1 := (h exEnvFast (exParticle exEnvFast 1 1 3) (exWorld []) (by norm_num [exParticle])
    (by norm_num [exParticle])).1
  have h2 : (interact exEnvFast (exParticle exEnvFast 1 1 3) (exWorld [])).1.sediment
      = -100 / 99 := by
    simp [interact, exchange, equilibrium, erodeContains, exParticle, exEnvFast, exEnv,
      exSoilsFast, exHeight, exWorld, Layermap.top, Column.top, toIVec2_zero]
    norm_num
  rw [h2] at h1
  norm_num at h1

/-- C4 (amended): for every particle whose sediment fraction is in [0,1] and
whose evaporation rate is below 1 before the call, every terrain, and every
soil-parameter table whose equilibrium rates (and the particle's copy of the
surface parameters) lie in [0,1], the sediment fraction is in [0,1] after
`interact` returns. -/
theorem interact_sediment_in_unit_interval (env : Env) (p : WaterParticle) (w : World)
    (hs0 : 0 ≤ p.sediment) (hs1 : p.sediment ≤ 1) (he1 : p.evaprate < 1)
    (hp : 0 ≤ p.param.equrate ∧ p.param.equrate ≤ 1)
    (ht : ∀ t, 0 ≤ (env.soils t).equrate ∧ (env.soils t).equrate ≤ 1) :
    0 ≤ (interact env p w).1.sediment ∧ (interact env p w).1.sediment ≤ 1 := by
  obtain ⟨h0, h1⟩ := exchange_sediment_bounds env p w hs0 hs1 hp ht
  have hev := exchange_evaprate env p w
  unfold interact
  simp only [hev]
  have hpos : 0 < 1 - p.evaprate := by linarith
  split
  · exact ⟨zero_le_one, le_refl _⟩
  · rename_i hle
    exact ⟨div_nonneg h0 (le_of_lt hpos), le_of_not_gt hle⟩

/-- C4 (amended), at a particle with sediment fraction 1 and the soil table of
equilibrium rate 1. -/
theorem interact_sediment_in_unit_interval_witness :
    0 ≤ (interact exEnv (exParticle exEnv 1 1 3) (exWorld [])).1.sediment ∧
    (interact exEnv (exParticle exEnv 1 1 3) (exWorld [])).1.sediment ≤ 1 :=
  interact_sediment_in_unit_interval exEnv (exParticle exEnv 1 1 3) (exWorld [])
    (by norm_num [exParticle]) (by norm_num [exParticle]) (by norm_num [exParticle])
    (by norm_num [exParticle, exEnv, exSoils])
    (by
      intro t
      simp only [exEnv, exSoils]
      split <;> norm_num)

/-! ## Mass balance of the sediment exchange -/

theorem cascadeTransfer_le (d : ℚ) (t : sec) :
    cascadeTransfer d t ≤ t.size ∧ cascadeTransfer d t ≤ |d| / 2 := by
  unfold cascadeTransfer
  simp only []
  split
  · rename_i h
    exact ⟨le_refl _, le_of_lt h⟩
  · rename_i h
    exact ⟨le_of_not_lt h, le_refl _⟩

/-- What is known when the pair loop reaches a transfer: the head difference
is not 0, the higher side is the source cell exactly when it is positive, the
higher side's top layer is present and open water, and the amount is the
positive value `cascadeTransfer`; the transfer is full exactly when the amount
is the whole layer. -/
theorem pairAction_transfer (env : Env) (ipos npos : IVec2) (m : Layermap)
    (tpos bpos : IVec2) (transfer : ℚ) (isFull : Bool)
    (h : pairAction env ipos npos m =
      if isFull then .full tpos bpos transfer else .part tpos bpos transfer) :
    headDiff env (m.top ipos) (m.top npos) ≠ 0 ∧
    tpos = (if headDiff env (m.top ipos) (m.top npos) > 0 then ipos else npos) ∧
    bpos = (if headDiff env (m.top ipos) (m.top npos) > 0 then npos else ipos) ∧
    ∃ top, m.top tpos = some top ∧ top.type = env.Air ∧
      transfer = cascadeTransfer (headDiff env (m.top ipos) (m.top npos)) top ∧
      0 < transfer ∧ (isFull = true ↔ transfer = top.size) := by
  unfold pairAction at h
  simp only [] at h
  by_cases hd : headDiff env (m.top ipos) (m.top npos) = 0
  · rw [if_pos hd] at h
    cases isFull <;> simp at h
  · rw [if_neg hd] at h
    refine ⟨hd, ?_⟩
    by_cases hpos : headDiff env (m.top ipos) (m.top npos) > 0
    · simp only [if_pos hpos] at h ⊢
      cases htop : m.top ipos with
      | none =>
        rw [htop] at h
        cases isFull <;> simp at h
      | some top =>
        simp only [htop] at h
        by_cases hair : top.type ≠ env.Air
        · rw [if_pos hair] at h
          cases isFull <;> simp at h
        · rw [if_neg hair] at h
          by_cases hle : cascadeTransfer (headDiff env (some top) (m.top npos)) top ≤ 0
          · rw [if_pos hle] at h
            cases isFull <;> simp at h
          · rw [if_neg hle] at h
            by_cases hfull : cascadeTransfer (headDiff env (some top) (m.top npos)) top = top.size
            · rw [if_pos hfull] at h
              cases isFull
              · simp at h
              · simp only [if_true, PairAction.full.injEq] at h
                obtain ⟨h1, h2, h3⟩ := h
                subst h1 h2 h3
                exact ⟨rfl, rfl, top, htop, not_not.mp hair, rfl, lt_of_not_le hle,
                  by simpa using hfull⟩
            · rw [if_neg hfull] at h
              cases isFull
              · simp only [Bool.false_eq_true, if_false, PairAction.part.injEq] at h
                obtain ⟨h1, h2, h3⟩ := h
                subst h1 h2 h3
                exact ⟨rfl, rfl, top, htop, not_not.mp hair, rfl, lt_of_not_le hle,
                  by simpa using hfull⟩
              · simp at h
    · simp only [if_neg hpos] at h ⊢
      cases htop : m.top npos with
      | none =>
        rw [htop] at h
        cases isFull <;> simp at h
      | some top =>
        simp only [htop] at h
        by_cases hair : top.type ≠ env.Air
        · rw [if_pos hair] at h
          cases isFull <;> simp at h
        · rw [if_neg hair] at h
          by_cases hle : cascadeTransfer (headDiff env (m.top ipos) (some top)) top ≤ 0
          · rw [if_pos hle] at h
            cases isFull <;> simp at h
          · rw [if_neg hle] at h
            by_cases hfull : cascadeTransfer (headDiff env (m.top ipos) (some top)) top = top.size
            · rw [if_pos hfull] at h
              cases isFull
              · simp at h
              · simp only [if_true, PairAction.full.injEq] at h
                obtain ⟨h1, h2, h3⟩ := h
                subst h1 h2 h3
                exact ⟨rfl, rfl, top, htop, not_not.mp hair, rfl, lt_of_not_le hle,
                  by simpa using hfull⟩
            · rw [if_neg hfull] at h
              cases isFull
              · simp only [Bool.false_eq_true, if_false, PairAction.part.injEq] at h
                obtain ⟨h1, h2, h3⟩ := h
                subst h1 h2 h3
                exact ⟨rfl, rfl, top, htop, not_not.mp hair, rfl, lt_of_not_le hle,
                  by simpa using hfull⟩
              · simp at h


theorem layermap_top_setColumn_self (m : Layermap) (p : IVec2) (c : Column) :
    (m.setColumn p c).top p = c.getLast? := by
  simp [Layermap.top, Column.top, Layermap.setColumn]

theorem layermap_top_setColumn_ne (m : Layermap) (p q : IVec2) (c : Column) (h : q ≠ p) :
    (m.setColumn p c).top q = m.top q := by
  simp [Layermap.top, Column.top, Layermap.setColumn, h]

theorem layermap_dat_setColumn_ne (m : Layermap) (p q : IVec2) (c : Column) (h : q ≠ p) :
    (m.setColumn p c).dat q = m.dat q := by
  simp [Layermap.setColumn, h]

/-- A partial removal thins the top layer and leaves no remainder. -/
theorem layermap_remove_part (m : Layermap) (p : IVec2) (h : ℚ) (t : sec)
    (ht : m.top p = some t) (h0 : 0 < h) (hlt : h < t.size) :
    (m.remove p h).1 = m.setColumn p ((m.dat p).dropLast ++ [{ t with size := t.size - h }]) ∧
    (m.remove p h).2 = 0 := by
  have ht2 : (m.dat p).getLast? = some t := ht
  simp only [Layermap.remove, Column.remove, ht2, if_neg (not_le.mpr h0), if_pos hlt]
  exact ⟨trivial, trivial⟩

/-- A removal of the whole top layer deletes it and leaves no remainder. -/
theorem layermap_remove_full (m : Layermap) (p : IVec2) (t : sec)
    (ht : m.top p = some t) (h0 : 0 < t.size) :
    (m.remove p t.size).1 = m.setColumn p (m.dat p).dropLast ∧ (m.remove p t.size).2 = 0 := by
  have ht2 : (m.dat p).getLast? = some t := ht
  simp only [Layermap.remove, Column.remove, ht2, if_neg (not_le.mpr h0), if_neg (lt_irrefl _),
    sub_self]
  exact ⟨trivial, trivial⟩

/-- C6: for every source/neighbour pair for which `cascade` reaches a transfer
(full or partial), the higher side's top layer is present and open water, and
the amount satisfies 0 < transfer ≤ its thickness and transfer ≤ |diff|/2 with
diff = (floorA + waterA − floorB − waterB)·SCALE/80; after the removal the
higher side's water is not negative: a partial transfer leaves the open-water
layer with the positive thickness size − transfer, a full transfer deletes the
layer, both without remainder. -/
theorem cascade_transfer_bounds (env : Env) (ipos npos : IVec2) (m : Layermap)
    (tpos bpos : IVec2) (transfer : ℚ)
    (h : pairAction env ipos npos m = .full tpos bpos transfer ∨
      pairAction env ipos npos m = .part tpos bpos transfer) :
    ∃ top, m.top tpos = some top ∧ top.type = env.Air ∧
      0 < transfer ∧ transfer ≤ top.size ∧
      transfer ≤ |(floorValue (m.top ipos) + waterHeight env.Air (m.top ipos) -
        floorValue (m.top npos) - waterHeight env.Air (m.top npos)) * env.SCALE / 80| / 2 ∧
      (pairAction env ipos npos m = .part tpos bpos transfer →
        0 < top.size - transfer ∧
        (m.remove tpos transfer).1.top tpos = some { top with size := top.size - transfer } ∧
        (m.remove tpos transfer).2 = 0) ∧
      (pairAction env ipos npos m = .full tpos bpos transfer →
        top.size - transfer = 0 ∧
        (m.remove tpos transfer).1.dat tpos = (m.dat tpos).dropLast ∧
        (m.remove tpos transfer).2 = 0) := by
  have key : ∃ isFull : Bool, pairAction env ipos npos m =
      if isFull then .full tpos bpos transfer else .part tpos bpos transfer := by
    rcases h with h | h
    · exact ⟨true, by simpa using h⟩
    · exact ⟨false, by simpa using h⟩
  obtain ⟨isFull, hk⟩ := key
  obtain ⟨-, -, -, top, htop, hair, htr, hpos, hfull⟩ :=
    pairAction_transfer env ipos npos m tpos bpos transfer isFull hk
  obtain ⟨hle1, hle2⟩ := cascadeTransfer_le (headDiff env (m.top ipos) (m.top npos)) top
  rw [← htr] at hle1 hle2
  refine ⟨top, htop, hair, hpos, hle1, hle2, fun hp => ?_, fun hf => ?_⟩
  · have hnf : isFull = false := by
      cases isFull
      · rfl
      · rw [hp] at hk
        simp at hk
    have hne : transfer ≠ top.size := fun he => by
      rw [hfull.mpr he] at hnf
      cases hnf
    have hlt : transfer < top.size := lt_of_le_of_ne hle1 hne
    obtain ⟨r1, r2⟩ := layermap_remove_part m tpos transfer top htop hpos hlt
    refine ⟨by linarith, ?_, r2⟩
    rw [r1, layermap_top_setColumn_self]
    simp
  · have hf2 : isFull = true := by
      cases isFull
      · rw [hf] at hk
        simp at hk
      · rfl
    have he : transfer = top.size := hfull.mp hf2
    subst he
    obtain ⟨r1, r2⟩ := layermap_remove_full m tpos top htop hpos
    refine ⟨sub_self _, ?_, r2⟩
    rw [r1]
    simp [Layermap.setColumn]

/-- The decision of the pair loop when the source cell carries 5 units of open
water with its surface at 10 and the neighbour's surface is at 4 (`SCALE` 80):
a partial transfer of 3 from the source to the neighbour. -/
theorem pairAction_scenario (env : Env) (m : Layermap) (ipos npos : IVec2) (secA secB : sec)
    (hscale : env.SCALE = 80)
    (hA : m.top ipos = some secA) (hAair : secA.type = env.Air) (hAsize : secA.size = 5)
    (hAh : secA.floor + secA.size = 10)
    (hB : m.top npos = some secB) (hBh : secB.floor + secB.size = 4) :
    pairAction env ipos npos m = .part ipos npos 3 ∧
    pairAction env npos ipos m = .part ipos npos 3 := by
  have hd : headDiff env (some secA) (some secB) = 6 := by
    simp only [headDiff, floorValue, waterHeight, ite_self, hscale]
    have : secA.floor + secA.size - secB.floor - secB.size = 6 := by linarith
    rw [this]
    norm_num
  have hd2 : headDiff env (some secB) (some secA) = -6 := by
    simp only [headDiff, floorValue, waterHeight, ite_self, hscale]
    have : secB.floor + secB.size - secA.floor - secA.size = -6 := by linarith
    rw [this]
    norm_num
  have ht : cascadeTransfer 6 secA = 3 := by
    simp only [cascadeTransfer, hAsize]
    norm_num [abs_of_pos]
  have ht2 : cascadeTransfer (-6) secA = 3 := by
    simp only [cascadeTransfer, hAsize]
    norm_num [abs_of_neg]
  constructor
  · unfold pairAction
    simp only [hA, hB, hd]
    norm_num [ht, hAsize, hAair]
  · unfold pairAction
    simp only [hA, hB, hd2]
    norm_num [ht2, hAsize, hAair]

theorem exPond_top :
    exPond.map.top (0, 0) = some { type := 0, size := 5, floor := 5, saturation := 1 } ∧
    exPond.map.top (1, 0) = some { type := 1, size := 4, floor := 0, saturation := 0 } := by
  constructor
  · simp [exPond, Layermap.top, Column.top]
  · simp [exPond, Layermap.top, Column.top]

theorem exPond_action : pairAction exEnv (0, 0) (1, 0) exPond.map = .part (0, 0) (1, 0) 3 :=
  (pairAction_scenario exEnv exPond.map (0, 0) (1, 0) _ _ rfl exPond_top.1 rfl rfl
    (by norm_num) exPond_top.2 (by norm_num)).1

/-- C6, at the pair of `exPond`: 5 units of open water at height 10 next to a
column of height 4. -/
theorem cascade_transfer_bounds_witness :
    ∃ top, exPond.map.top (0, 0) = some top ∧ top.type = exEnv.Air ∧
      0 < (3 : ℚ) ∧ 3 ≤ top.size ∧
      3 ≤ |(floorValue (exPond.map.top (0, 0)) + waterHeight exEnv.Air (exPond.map.top (0, 0)) -
        floorValue (exPond.map.top (1, 0)) - waterHeight exEnv.Air (exPond.map.top (1, 0))) *
          exEnv.SCALE / 80| / 2 ∧
      (pairAction exEnv (0, 0) (1, 0) exPond.map = .part (0, 0) (1, 0) 3 →
        0 < top.size - 3 ∧
        (exPond.map.remove (0, 0) 3).1.top (0, 0) = some { top with size := top.size - 3 } ∧
        (exPond.map.remove (0, 0) 3).2 = 0) ∧
      (pairAction exEnv (0, 0) (1, 0) exPond.map = .full (0, 0) (1, 0) 3 →
        top.size - 3 = 0 ∧
        (exPond.map.remove (0, 0) 3).1.dat (0, 0) = (exPond.map.dat (0, 0)).dropLast ∧
        (exPond.map.remove (0, 0) 3).2 = 0) :=
  cascade_transfer_bounds exEnv (0, 0) (1, 0) exPond.map (0, 0) (1, 0) 3 (Or.inr exPond_action)


/-- The partial-transfer branch on two distinct cells whose top layers are
present: the higher layer is thinned, a saturated open-water layer of the
transferred thickness is put on the lower column, both cells are notified and
the edge is marked for re-cascading. -/
theorem cascadePartial_eval (env : Env) (w : World) (tpos bpos : IVec2) (transfer : ℚ)
    (top bot : sec) (hne : bpos ≠ tpos) (htop : w.map.top tpos = some top)
    (hbot : w.map.top bpos = some bot) (h0 : 0 < transfer) (hlt : transfer < top.size) :
    ∃ w1, cascadePartial env tpos bpos transfer w = .ok (true, w1) ∧
      w1.map.top tpos = some { top with size := top.size - transfer } ∧
      w1.map.top bpos =
        some { type := env.Air, size := transfer, floor := bot.floor + bot.size, saturation := 1 } ∧
      w1.updated = bpos :: tpos :: w.updated := by
  obtain ⟨r1, r2⟩ := layermap_remove_part w.map tpos transfer top htop h0 hlt
  have hb1 : ((w.map.remove tpos transfer).1.dat bpos).getLast? = some bot := by
    rw [r1, layermap_dat_setColumn_ne _ _ _ _ hne]
    exact hbot
  have hadd : ((w.map.remove tpos transfer).1.add bpos (poolGet transfer env.Air)) =
      (w.map.remove tpos transfer).1.setColumn bpos
        ((w.map.remove tpos transfer).1.dat bpos ++
          [{ type := env.Air, size := transfer, floor := bot.floor + bot.size, saturation := 0 }]) := by
    simp only [Layermap.add, Column.add, hb1, poolGet]
  have hsat : ((w.map.remove tpos transfer).1.add bpos (poolGet transfer env.Air)).setTopSaturation
      bpos 1 = some (((w.map.remove tpos transfer).1.add bpos (poolGet transfer env.Air)).setColumn bpos
        ((w.map.remove tpos transfer).1.dat bpos ++
          [{ type := env.Air, size := transfer, floor := bot.floor + bot.size, saturation := 1 }])) := by
    rw [hadd]
    simp [Layermap.setTopSaturation, Layermap.setColumn]
  refine ⟨(({ w with map := ((w.map.remove tpos transfer).1.add bpos
      (poolGet transfer env.Air)).setColumn bpos ((w.map.remove tpos transfer).1.dat bpos ++
        [{ type := env.Air, size := transfer, floor := bot.floor + bot.size, saturation := 1 }]) }
      : World).update tpos).update bpos, ?_, ?_, ?_, ?_⟩
  · unfold cascadePartial
    simp only [hsat, if_pos h0]
  · simp only [World.update]
    rw [layermap_top_setColumn_ne _ _ _ _ (Ne.symm hne), hadd,
      layermap_top_setColumn_ne _ _ _ _ (Ne.symm hne), r1, layermap_top_setColumn_self]
    simp
  · simp only [World.update]
    rw [layermap_top_setColumn_self]
    simp
  · simp only [World.update]

/-- C7: for two adjacent columns with water-table heights 10 and 4 (`SCALE` 80,
scaled head difference 6, half 3) and an open-water top layer of 5 units on the
higher column, `cascade` decides, from either of the two cells, a partial
transfer of 3 = min(3, 5) from the higher to the lower column (not the full
transfer that spawns a particle); the partial-transfer branch leaves the higher
column with 2 units of open water and puts 3 units of saturated open water on
the lower one. -/
theorem cascade_scenario (env : Env) (w : World) (ipos npos : IVec2) (secA secB : sec)
    (hne : npos ≠ ipos) (hscale : env.SCALE = 80)
    (hA : w.map.top ipos = some secA) (hAair : secA.type = env.Air) (hAsize : secA.size = 5)
    (hAh : secA.floor + secA.size = 10)
    (hB : w.map.top npos = some secB) (hBh : secB.floor + secB.size = 4) :
    |headDiff env (some secA) (some secB)| / 2 = 3 ∧
    cascadeTransfer (headDiff env (some secA) (some secB)) secA = 3 ∧
    pairAction env ipos npos w.map = .part ipos npos 3 ∧
    pairAction env npos ipos w.map = .part ipos npos 3 ∧
    ∃ w1, cascadePartial env ipos npos 3 w = .ok (true, w1) ∧
      w1.map.top ipos = some { secA with size := 2 } ∧
      w1.map.top npos = some { type := env.Air, size := 3, floor := 4, saturation := 1 } := by
  have hd : headDiff env (some secA) (some secB) = 6 := by
    simp only [headDiff, floorValue, waterHeight, ite_self, hscale]
    have : secA.floor + secA.size - secB.floor - secB.size = 6 := by linarith
    rw [this]
    norm_num
  obtain ⟨p1, p2⟩ := pairAction_scenario env w.map ipos npos secA secB hscale hA hAair hAsize hAh hB hBh
  obtain ⟨w1, e1, e2, e3, -⟩ := cascadePartial_eval env w ipos npos 3 secA secB hne hA hB
    (by norm_num) (by rw [hAsize]; norm_num)
  refine ⟨?_, ?_, p1, p2, w1, e1, ?_, ?_⟩
  · rw [hd]
    norm_num [abs_of_pos]
  · rw [hd]
    simp only [cascadeTransfer, hAsize]
    norm_num [abs_of_pos]
  · rw [e2, hAsize]
    norm_num
  · rw [e3, hBh]

/-- C7, at the pair of `exPond`. -/
theorem cascade_scenario_witness :
    pairAction exEnv (0, 0) (1, 0) exPond.map = .part (0, 0) (1, 0) 3 ∧
    ∃ w1, cascadePartial exEnv (0, 0) (1, 0) 3 exPond = .ok (true, w1) ∧
      w1.map.top (0, 0) = some { type := 0, size := 2, floor := 5, saturation := 1 } ∧
      w1.map.top (1, 0) = some { type := 0, size := 3, floor := 4, saturation := 1 } :=
  ⟨(cascade_scenario exEnv exPond (0, 0) (1, 0) _ _ (by decide) rfl exPond_top.1 rfl rfl
      (by norm_num) exPond_top.2 (by norm_num)).2.2.1,
   (cascade_scenario exEnv exPond (0, 0) (1, 0) _ _ (by decide) rfl exPond_top.1 rfl rfl
      (by norm_num) exPond_top.2 (by norm_num)).2.2.2.2⟩


/-! ## Particle volume and `flood` -/

theorem move_volume (env : Env) (p : WaterParticle) (w : World) :
    (move env p w).1.volume = p.volume ∨ (move env p w).1.volume = 0 := by
  unfold move
  simp only []
  split
  · exact Or.inl rfl
  · split
    · exact Or.inr rfl
    · exact Or.inl rfl

theorem move_evaprate (env : Env) (p : WaterParticle) (w : World) :
    (move env p w).1.evaprate =
      1 / 100 * (1 - 2 / 10 * w.frequency (cellIndex w.map (roundVec p.pos))) := by
  unfold move
  simp only [updatefrequency]
  split
  · rfl
  · split <;> rfl

theorem interact_volume (env : Env) (p : WaterParticle) (w : World) :
    (interact env p w).1.volume = p.volume * (1 - p.evaprate) := by
  simp only [interact, exchange_volume, exchange_evaprate]

/-- C9: for every particle with volume ≥ 0 and every traffic field with values
in [0,1), the volume is ≥ 0 after `move` (which leaves it unchanged or sets it
to 0), after the `interact` that follows a `move` (which multiplies it by
1 − evaprate, with evaprate = 0.01·(1 − 0.2·frequency) in (0, 0.01]), after
`interact` on any particle whose evaporation rate is at most 1, and after
`flood` (which leaves it unchanged). -/
theorem volume_nonneg (env : Env) (p : WaterParticle) (w : World)
    (hv : 0 ≤ p.volume) (hf : ∀ i, 0 ≤ w.frequency i ∧ w.frequency i < 1) :
    0 ≤ (move env p w).1.volume ∧
    ((move env p w).1.volume = p.volume ∨ (move env p w).1.volume = 0) ∧
    (move env p w).1.evaprate =
      1 / 100 * (1 - 2 / 10 * w.frequency (cellIndex w.map (roundVec p.pos))) ∧
    0 < (move env p w).1.evaprate ∧ (move env p w).1.evaprate ≤ 1 / 100 ∧
    (interact env (move env p w).1 (move env p w).2.1).1.volume =
      (move env p w).1.volume * (1 - (move env p w).1.evaprate) ∧
    0 ≤ (interact env (move env p w).1 (move env p w).2.1).1.volume ∧
    (p.evaprate ≤ 1 → 0 ≤ (interact env p w).1.volume) ∧
    (∀ (cascade : Vec2 → Int → World → Except Stop World) (r : WaterParticle × World × Bool),
      flood env cascade p w = .ok r → r.1.volume = p.volume ∧ 0 ≤ r.1.volume) := by
  have hm : 0 ≤ (move env p w).1.volume := by
    rcases move_volume env p w with h | h <;> rw [h]
    exact hv
  obtain ⟨f0, f1⟩ := hf (cellIndex w.map (roundVec p.pos))
  have he := move_evaprate env p w
  have he0 : 0 < (move env p w).1.evaprate := by
    rw [he]
    have : 0 < 1 - 2 / 10 * w.frequency (cellIndex w.map (roundVec p.pos)) := by linarith
    positivity
  have he1 : (move env p w).1.evaprate ≤ 1 / 100 := by
    rw [he]
    linarith
  refine ⟨hm, move_volume env p w, he, he0, he1, interact_volume _ _ _, ?_, ?_, ?_⟩
  · rw [interact_volume]
    exact mul_nonneg hm (by linarith)
  · intro h1
    rw [interact_volume]
    exact mul_nonneg hv (by linarith)
  · intro cascade r hr
    unfold flood at hr
    split at hr
    · cases hr
      exact ⟨rfl, hv⟩
    · split at hr
      · cases hr
        exact ⟨rfl, hv⟩
      · simp only [] at hr
        split at hr
        · cases hr
        · cases hr
          exact ⟨rfl, hv⟩

/-- C9, at a particle of volume 1 on an empty terrain with zero traffic. -/
theorem volume_nonneg_witness :
    0 ≤ (move exEnv (exParticle exEnv 1 0 3) (exWorld [])).1.volume ∧
    0 ≤ (interact exEnv (move exEnv (exParticle exEnv 1 0 3) (exWorld [])).1
      (move exEnv (exParticle exEnv 1 0 3) (exWorld [])).2.1).1.volume :=
  ⟨(volume_nonneg exEnv (exParticle exEnv 1 0 3) (exWorld []) (by norm_num [exParticle])
      (fun i => by norm_num [exWorld])).1,
   (volume_nonneg exEnv (exParticle exEnv 1 0 3) (exWorld []) (by norm_num [exParticle])
      (fun i => by norm_num [exWorld])).2.2.2.2.2.2.1⟩

/-! ## Nesting depth of `cascade` -/

theorem extends_refl (P : CallRecord → Prop) (w : World) : Extends P w w :=
  ⟨[], rfl, fun _ h => absurd h (List.not_mem_nil _)⟩

theorem extends_of_calls_eq {P : CallRecord → Prop} {w w2 : World} (h : w2.calls = w.calls) :
    Extends P w w2 :=
  ⟨[], by simpa using h, fun _ h => absurd h (List.not_mem_nil _)⟩

theorem extends_trans {P : CallRecord → Prop} {w w1 w2 : World}
    (h1 : Extends P w w1) (h2 : Extends P w1 w2) : Extends P w w2 := by
  obtain ⟨n1, e1, p1⟩ := h1
  obtain ⟨n2, e2, p2⟩ := h2
  refine ⟨n2 ++ n1, by rw [e2, e1, List.append_assoc], ?_⟩
  intro r hr
  rcases List.mem_append.mp hr with h | h
  · exact p2 r h
  · exact p1 r h

theorem extends_calls_eq_left {P : CallRecord → Prop} {w w0 w2 : World}
    (h0 : w.calls = w0.calls) (h : Extends P w w2) : Extends P w0 w2 := by
  obtain ⟨n, e, p⟩ := h
  exact ⟨n, by rw [e, h0], p⟩

theorem extends_mono {P Q : CallRecord → Prop} {w w2 : World} (hPQ : ∀ r, P r → Q r)
    (h : Extends P w w2) : Extends Q w w2 := by
  obtain ⟨n, e, p⟩ := h
  exact ⟨n, e, fun r hr => hPQ r (p r hr)⟩

theorem extends_logCall {P : CallRecord → Prop} {w w2 : World} (r : CallRecord) (hr : P r)
    (h : Extends P (w.logCall r) w2) : Extends P w w2 := by
  obtain ⟨n, e, p⟩ := h
  refine ⟨n ++ [r], by rw [e]; simp [World.logCall], ?_⟩
  intro x hx
  rcases List.mem_append.mp hx with h1 | h1
  · exact p x h1
  · simp at h1
    subst h1
    exact hr

theorem move_calls (env : Env) (p : WaterParticle) (w : World) :
    (move env p w).2.1.calls = w.calls ∧ (move env p w).1.spill = p.spill := by
  unfold move
  simp only [updatefrequency]
  split
  · exact ⟨rfl, rfl⟩
  · split <;> exact ⟨rfl, rfl⟩

theorem exchange_calls (env : Env) (p : WaterParticle) (w : World) :
    (exchange env p w).2.calls = w.calls ∧ (exchange env p w).1.spill = p.spill := by
  unfold exchange
  simp only []
  split
  · exact ⟨rfl, rfl⟩
  · split <;> exact ⟨rfl, rfl⟩

theorem interact_calls (env : Env) (p : WaterParticle) (w : World) :
    (interact env p w).2.1.calls = w.calls ∧ (interact env p w).1.spill = p.spill := by
  obtain ⟨h1, h2⟩ := exchange_calls env p w
  simp only [interact]
  exact ⟨h1, h2⟩

theorem seep_calls (env : Env) (pos : Vec2) (w : World) : (seep env pos w).calls = w.calls := by
  unfold seep
  simp only []
  split <;> rfl

/-- The move/interact loop logs nothing, keeps the spill budget of the particle
and is never stopped by the nesting bound. -/
theorem runMoveInteract_calls (env : Env) : ∀ (k : Nat) (p : WaterParticle) (w : World),
    (∀ r, runMoveInteract env k p w = .ok r → r.2.calls = w.calls ∧ r.1.spill = p.spill) ∧
    (∀ e, runMoveInteract env k p w = .error e → e.world.calls = w.calls ∧ e.reason = .fuel) := by
  intro k
  induction k with
  | zero =>
    intro p w
    simp only [runMoveInteract]
    constructor
    · intro r hr
      cases hr
    · intro e he
      cases he
      exact ⟨rfl, rfl⟩
  | succ k ih =>
    intro p w
    obtain ⟨m1, m2⟩ := move_calls env p w
    obtain ⟨i1, i2⟩ := interact_calls env (move env p w).1 (move env p w).2.1
    rw [runMoveInteract]
    by_cases hmv : (move env p w).2.2 = true
    · rw [if_pos hmv]
      by_cases hin : (interact env (move env p w).1 (move env p w).2.1).2.2 = true
      · rw [if_pos hin]
        obtain ⟨h1, h2⟩ := ih (interact env (move env p w).1 (move env p w).2.1).1
          (interact env (move env p w).1 (move env p w).2.1).2.1
        constructor
        · intro r hr
          obtain ⟨a, b⟩ := h1 r hr
          exact ⟨by rw [a, i1, m1], by rw [b, i2, m2]⟩
        · intro e he
          obtain ⟨a, b⟩ := h2 e he
          exact ⟨by rw [a, i1, m1], b⟩
      · rw [if_neg hin]
        constructor
        · intro r hr
          cases hr
          exact ⟨by rw [i1, m1], by rw [i2, m2]⟩
        · intro e he
          cases he
    · rw [if_neg hmv]
      constructor
      · intro r hr
        cases hr
        exact ⟨m1, m2⟩
      · intro e he
        cases he

theorem flood_result_false (env : Env) (cascade : Vec2 → Int → World → Except Stop World)
    (p : WaterParticle) (w : World) (r : WaterParticle × World × Bool)
    (hr : flood env cascade p w = .ok r) : r.2.2 = false := by
  unfold flood at hr
  split at hr
  · cases hr; rfl
  · split at hr
    · cases hr; rfl
    · simp only [] at hr
      split at hr
      · cases hr
      · cases hr; rfl

theorem floodDeposit_calls (env : Env) (p : WaterParticle) (w : World) :
    (floodDeposit env p w).calls = w.calls := by
  unfold floodDeposit
  simp only [seep_calls]

/-- Goodness of `flood` with a nested `cascade` whose runs are good for the budgets
`0 ≤ b < S`, on a particle with spill budget at most `S`. -/
theorem flood_good (env : Env) (cascade : Vec2 → Int → World → Except Stop World)
    (P : CallRecord → Prop) (S : Int)
    (hcb : ∀ pos b w1, 0 ≤ b → b < S → Good P w1 id (cascade pos b w1))
    (p : WaterParticle) (w : World) (hp : p.spill ≤ S) :
    Good P w (fun r => r.2.1) (flood env cascade p w) := by
  unfold flood
  by_cases hv : p.volume < minvol
  · rw [if_pos hv]
    exact extends_refl P w
  · rw [if_neg hv]
    by_cases hs : p.spill ≤ 0
    · rw [if_pos hs]
      exact extends_refl P w
    · rw [if_neg hs]
      simp only []
      have hsc := floodDeposit_calls env { p with spill := p.spill - 1, ipos := toIVec2 p.pos } w
      have hg := hcb (toVec2 (toIVec2 p.pos)) (p.spill - 1)
        (floodDeposit env { p with spill := p.spill - 1, ipos := toIVec2 p.pos } w)
        (by omega) (by omega)
      revert hg
      cases cascade (toVec2 (toIVec2 p.pos)) (p.spill - 1)
        (floodDeposit env { p with spill := p.spill - 1, ipos := toIVec2 p.pos } w) with
      | error e =>
        intro hg
        exact ⟨extends_calls_eq_left hsc hg.1, hg.2⟩
      | ok w2 =>
        intro hg
        have hg2 : Extends P w w2 := extends_calls_eq_left hsc hg
        exact extends_trans hg2 (extends_of_calls_eq rfl)


theorem runParticle_good (env : Env) (pfuel : Nat)
    (cascade : Vec2 → Int → World → Except Stop World) (P : CallRecord → Prop) (S : Int)
    (hcb : ∀ pos b w1, 0 ≤ b → b < S → Good P w1 id (cascade pos b w1)) :
    ∀ (k : Nat) (p : WaterParticle) (w : World), p.spill ≤ S →
      Good P w id (runParticle env pfuel cascade k p w) := by
  intro k
  induction k with
  | zero =>
    intro p w _
    exact ⟨extends_refl P w, by simp⟩
  | succ k ih =>
    intro p w hp
    obtain ⟨h1, h2⟩ := runMoveInteract_calls env pfuel p w
    rw [runParticle]
    cases hrun : runMoveInteract env pfuel p w with
    | error e =>
      obtain ⟨a, b⟩ := h2 e hrun
      exact ⟨extends_of_calls_eq a, by rw [b]; simp⟩
    | ok r =>
      obtain ⟨p1, w1⟩ := r
      obtain ⟨a, b⟩ := h1 (p1, w1) hrun
      simp only [] at a b
      have hf := flood_good env cascade P S hcb p1 w1 (by rw [b]; exact hp)
      simp only []
      cases hfl : flood env cascade p1 w1 with
      | error e =>
        rw [hfl] at hf
        exact ⟨extends_calls_eq_left a hf.1, hf.2⟩
      | ok r2 =>
        obtain ⟨p2, w2, b2⟩ := r2
        have hb := flood_result_false env cascade p1 w1 _ hfl
        simp only [] at hb
        subst hb
        rw [hfl] at hf
        simp only [Bool.false_eq_true, if_false]
        exact extends_calls_eq_left a hf

theorem cascadeFull_good (env : Env) (pfuel : Nat)
    (cascade : Vec2 → Int → World → Except Stop World) (P : CallRecord → Prop) (S : Int)
    (hcb : ∀ pos b w1, 0 ≤ b → b < S → Good P w1 id (cascade pos b w1))
    (tpos bpos : IVec2) (transfer : ℚ) (spill : Int) (w : World) (hs : spill ≤ S) :
    Good P w id (cascadeFull env pfuel cascade tpos bpos transfer spill w) := by
  unfold cascadeFull
  simp only []
  have h := runParticle_good env pfuel cascade P S hcb pfuel
    { (WaterParticle.new env (({ w with map := (w.map.remove tpos transfer).1 } : World).update tpos)).1 with
      speed := (env.sqrt2 * (env.normalize ((bpos.1 : ℚ) - (tpos.1 : ℚ), (bpos.2 : ℚ) - (tpos.2 : ℚ))).1,
        env.sqrt2 * (env.normalize ((bpos.1 : ℚ) - (tpos.1 : ℚ), (bpos.2 : ℚ) - (tpos.2 : ℚ))).2),
      pos := toVec2 tpos, spill := spill, volume := transfer / volumeFactor }
    (WaterParticle.new env (({ w with map := (w.map.remove tpos transfer).1 } : World).update tpos)).2 hs
  revert h
  cases runParticle env pfuel cascade pfuel _ _ with
  | error e =>
    intro h
    exact ⟨extends_calls_eq_left rfl h.1, h.2⟩
  | ok w2 =>
    intro h
    exact extends_calls_eq_left rfl h

theorem cascadePartial_calls (env : Env) (tpos bpos : IVec2) (transfer : ℚ) (w : World) :
    (∀ r, cascadePartial env tpos bpos transfer w = .ok r → r.2.calls = w.calls) ∧
    (∀ e, cascadePartial env tpos bpos transfer w = .error e →
      e.world.calls = w.calls ∧ e.reason = .nullTop) := by
  unfold cascadePartial
  simp only []
  cases ((w.map.remove tpos transfer).1.add bpos (poolGet transfer env.Air)).setTopSaturation bpos 1 with
  | none =>
    simp only []
    constructor
    · intro r hr
      cases hr
    · intro e he
      cases he
      exact ⟨rfl, rfl⟩
  | some m2 =>
    simp only []
    constructor
    · intro r hr
      cases hr
      rfl
    · intro e he
      cases he


/-- One pass of the neighbour loop body: the local `spill` does not grow and
stays non-negative, and the run is good. -/
theorem cascadePair_good (env : Env) (pfuel : Nat)
    (cascade : Vec2 → Int → World → Except Stop World) (P : CallRecord → Prop) (S : Int)
    (hcb : ∀ pos b w1, 0 ≤ b → b < S → Good P w1 id (cascade pos b w1))
    (ipos npos : IVec2) (spill : Int) (w : World) (h0 : 0 ≤ spill) (hs : spill ≤ S) :
    (∀ r, cascadePair env pfuel cascade ipos npos spill w = .ok r →
      Extends P w r.2 ∧ 0 ≤ r.1 ∧ r.1 ≤ S) ∧
    (∀ e, cascadePair env pfuel cascade ipos npos spill w = .error e →
      Extends P w e.world ∧ e.reason ≠ .depth) := by
  unfold cascadePair
  cases pairAction env ipos npos w.map with
  | skip =>
    simp only []
    constructor
    · intro r hr
      cases hr
      exact ⟨extends_refl P w, h0, hs⟩
    · intro e he
      cases he
  | nullTop =>
    simp only []
    constructor
    · intro r hr
      cases hr
    · intro e he
      cases he
      exact ⟨extends_refl P w, by simp⟩
  | full tpos bpos transfer =>
    simp only []
    have hf := cascadeFull_good env pfuel cascade P S hcb tpos bpos transfer spill w hs
    cases hc : cascadeFull env pfuel cascade tpos bpos transfer spill w with
    | error e0 =>
      rw [hc] at hf
      simp only []
      constructor
      · intro r hr
        cases hr
      · intro e he
        cases he
        exact hf
    | ok w1 =>
      rw [hc] at hf
      simp only []
      constructor
      · intro r hr
        cases hr
        exact ⟨hf, h0, hs⟩
      · intro e he
        cases he
  | part tpos bpos transfer =>
    simp only []
    obtain ⟨c1, c2⟩ := cascadePartial_calls env tpos bpos transfer w
    cases hc : cascadePartial env tpos bpos transfer w with
    | error e0 =>
      obtain ⟨a, b⟩ := c2 e0 hc
      simp only []
      constructor
      · intro r hr
        cases hr
      · intro e he
        cases he
        exact ⟨extends_of_calls_eq a, by rw [b]; simp⟩
    | ok r0 =>
      obtain ⟨rc, w1⟩ := r0
      have a := c1 (rc, w1) hc
      simp only [] at a ⊢
      by_cases hre : rc = true ∧ spill > 0
      · rw [if_pos hre]
        have hg := hcb (toVec2 npos) (spill - 1) w1 (by omega) (by omega)
        cases hcc : cascade (toVec2 npos) (spill - 1) w1 with
        | error e0 =>
          rw [hcc] at hg
          simp only []
          constructor
          · intro r hr
            cases hr
          · intro e he
            cases he
            exact ⟨extends_calls_eq_left a hg.1, hg.2⟩
        | ok w2 =>
          rw [hcc] at hg
          simp only []
          constructor
          · intro r hr
            cases hr
            exact ⟨extends_calls_eq_left a hg, by simp only []; omega, by simp only []; omega⟩
          · intro e he
            cases he
      · rw [if_neg hre]
        constructor
        · intro r hr
          cases hr
          exact ⟨extends_of_calls_eq a, h0, hs⟩
        · intro e he
          cases he

theorem cascadeLoop_good (env : Env) (pfuel : Nat)
    (cascade : Vec2 → Int → World → Except Stop World) (P : CallRecord → Prop) (S : Int)
    (hcb : ∀ pos b w1, 0 ≤ b → b < S → Good P w1 id (cascade pos b w1)) (ipos : IVec2) :
    ∀ (l : List IVec2) (spill : Int) (w : World), 0 ≤ spill → spill ≤ S →
      Good P w id (cascadeLoop env pfuel cascade ipos l spill w) := by
  intro l
  induction l with
  | nil =>
    intro spill w _ _
    exact extends_refl P w
  | cons npos rest ih =>
    intro spill w h0 hs
    obtain ⟨p1, p2⟩ := cascadePair_good env pfuel cascade P S hcb ipos npos spill w h0 hs
    rw [cascadeLoop]
    cases hc : cascadePair env pfuel cascade ipos npos spill w with
    | error e => exact p2 e hc
    | ok r =>
      obtain ⟨s1, w1⟩ := r
      obtain ⟨a, b, c⟩ := p1 (s1, w1) hc
      simp only [] at a b c ⊢
      have hg := ih s1 w1 b c
      revert hg
      cases cascadeLoop env pfuel cascade ipos rest s1 w1 with
      | error e =>
        intro hg
        exact ⟨extends_trans a hg.1, hg.2⟩
      | ok w2 =>
        intro hg
        exact extends_trans a hg

theorem recordOk_nested {d0 : Nat} {s b : Int} (hb0 : 0 ≤ b) (hbs : b < s) :
    RecordOk d0 s ⟨d0 + 1, s, b⟩ ∧ ∀ r, RecordOk (d0 + 1) b r → RecordOk d0 s r := by
  constructor
  · refine ⟨Nat.lt_succ_self _, ?_, hb0, hbs, le_refl _⟩
    simp only [Nat.cast_add, Nat.cast_one]
    omega
  · intro r ⟨h1, h2, h3, h4, h5⟩
    refine ⟨by omega, ?_, h3, h4, by omega⟩
    simp only [Nat.cast_add, Nat.cast_one] at h2
    omega

/-- Every run of `cascadeN` whose nesting bound is at least the spill budget
logs only records that satisfy `RecordOk`, and is not stopped by the nesting
bound. -/
theorem cascadeN_good (env : Env) (pfuel : Nat) : ∀ (n d0 : Nat) (pos : Vec2) (s : Int) (w : World),
    0 ≤ s → s ≤ n → Good (RecordOk d0 s) w id (cascadeN env pfuel n d0 pos s w) := by
  intro n
  induction n with
  | zero =>
    intro d0 pos s w h0 hn
    rw [cascadeN]
    apply cascadeLoop_good env pfuel _ (RecordOk d0 s) s _ _ _ _ _ h0 (le_refl _)
    intro pos1 b w1 hb0 hbs
    simp only [Nat.cast_zero] at hn
    omega
  | succ n ih =>
    intro d0 pos s w h0 hn
    rw [cascadeN]
    apply cascadeLoop_good env pfuel _ (RecordOk d0 s) s _ _ _ _ _ h0 (le_refl _)
    intro pos1 b w1 hb0 hbs
    obtain ⟨hr, hmono⟩ := @recordOk_nested d0 s b hb0 hbs
    have hg := ih (d0 + 1) pos1 b (w1.logCall ⟨d0 + 1, s, b⟩) hb0
      (by simp only [Nat.cast_add, Nat.cast_one] at hn; omega)
    revert hg
    cases cascadeN env pfuel n (d0 + 1) pos1 b (w1.logCall ⟨d0 + 1, s, b⟩) with
    | error e =>
      intro hg
      exact ⟨extends_logCall _ hr (extends_mono hmono hg.1), hg.2⟩
    | ok w2 =>
      intro hg
      exact extends_logCall _ hr (extends_mono hmono hg)


/-- C8: for every terrain and every initial spill budget s ≥ 0, every nested
start of `cascade` beneath a call `cascade(cell, s)`, directly from the
partial-transfer branch or through `flood` of a particle spawned in the
full-transfer branch, happens at nesting depth between 1 and s, with a
non-negative budget strictly smaller than the budget of the invocation that
starts it (so an invocation with budget 0 starts none), the depth plus the
remaining budget never exceeding s; this holds for the run as far as it gets,
whether it returns or is cut off, and the nesting bound `s` of the model is
never reached. -/
theorem cascade_depth_bounded (env : Env) (pfuel : Nat) (pos : Vec2) (s : Int) (w : World)
    (hs : 0 ≤ s) :
    (∀ e, cascade env pfuel pos s w = .error e → e.reason ≠ .depth) ∧
    ∃ new : List CallRecord,
      (finalWorld (cascade env pfuel pos s w)).calls = new ++ w.calls ∧
      ∀ r ∈ new, 1 ≤ r.depth ∧ (r.depth : Int) ≤ s ∧ 0 ≤ r.budget ∧ r.budget < r.caller ∧
        r.caller ≤ s ∧ (r.depth : Int) + r.budget ≤ s := by
  have hg := cascadeN_good env pfuel s.toNat 0 pos s w hs (by rw [Int.toNat_of_nonneg hs])
  unfold cascade
  revert hg
  cases cascadeN env pfuel s.toNat 0 pos s w with
  | error e0 =>
    intro hg
    obtain ⟨⟨new, h1, h2⟩, h3⟩ := hg
    refine ⟨fun e he => ?_, new, h1, fun r hr => ?_⟩
    · cases he
      exact h3
    · obtain ⟨a, b, c, d, f⟩ := h2 r hr
      simp only [Nat.cast_zero, zero_add] at b
      exact ⟨a, by omega, c, d, f, b⟩
  | ok w2 =>
    intro hg
    obtain ⟨new, h1, h2⟩ := hg
    refine ⟨fun e he => ?_, new, h1, fun r hr => ?_⟩
    · cases he
    · obtain ⟨a, b, c, d, f⟩ := h2 r hr
      simp only [Nat.cast_zero, zero_add] at b
      exact ⟨a, by omega, c, d, f, b⟩

/-- C8, at the pond of `exPond` with spill budget 3 and 100 iterations for each
particle loop. -/
theorem cascade_depth_bounded_witness :
    ∃ new : List CallRecord,
      (finalWorld (cascade exEnv 100 (0, 0) 3 exPond)).calls = new ++ exPond.calls ∧
      ∀ r ∈ new, 1 ≤ r.depth ∧ (r.depth : Int) ≤ 3 ∧ 0 ≤ r.budget ∧ r.budget < r.caller ∧
        r.caller ≤ 3 ∧ (r.depth : Int) + r.budget ≤ 3 :=
  (cascade_depth_bounded exEnv 100 (0, 0) 3 exPond (by decide)).2


/-! ## Termination of the particle loop, of `cascade` and of `flood` -/

theorem settles_bind {α β : Type} (f : Nat → Except Stop α) (g : Nat → α → Except Stop β)
    (pa : α → World) (pb : β → World) (hf : Settles pa f)
    (hg : ∀ a, FreqOk (pa a) → Settles pb (fun k => g k a)) :
    Settles pb (fun k => (f k).bind (g k)) := by
  obtain ⟨F, out, hF, hout⟩ := hf
  cases out with
  | error e =>
    refine ⟨F, .error e, fun k hk => ?_, hout⟩
    simp only [hF k hk]
    rfl
  | ok a =>
    obtain ⟨G, out2, hG, hout2⟩ := hg a hout
    refine ⟨max F G, out2, fun k hk => ?_, hout2⟩
    simp only [hF k (le_trans (le_max_left F G) hk)]
    exact hG k (le_trans (le_max_right F G) hk)

theorem settles_congr {α : Type} (pa : α → World) (f g : Nat → Except Stop α) (K : Nat)
    (h : ∀ k, K ≤ k → f k = g k) (hg : Settles pa g) : Settles pa f := by
  obtain ⟨F, out, hF, hout⟩ := hg
  refine ⟨max K F, out, fun k hk => ?_, hout⟩
  rw [h k (le_trans (le_max_left K F) hk)]
  exact hF k (le_trans (le_max_right K F) hk)

theorem settles_ok {α : Type} (pa : α → World) (a : α) (h : FreqOk (pa a)) :
    Settles pa (fun _ => .ok a) :=
  ⟨0, .ok a, fun _ _ => rfl, h⟩

theorem move_frequency (env : Env) (p : WaterParticle) (w : World) :
    (move env p w).2.1.frequency = w.frequency := by
  unfold move
  simp only [updatefrequency]
  split
  · rfl
  · split <;> rfl

theorem exchange_frequency (env : Env) (p : WaterParticle) (w : World) :
    (exchange env p w).2.frequency = w.frequency := by
  unfold exchange
  simp only []
  split
  · rfl
  · split <;> rfl

theorem interact_frequency (env : Env) (p : WaterParticle) (w : World) :
    (interact env p w).2.1.frequency = w.frequency := by
  simp only [interact]
  exact exchange_frequency env p w

theorem seep_frequency (env : Env) (pos : Vec2) (w : World) :
    (seep env pos w).frequency = w.frequency := by
  unfold seep
  simp only []
  split <;> rfl

theorem floodDeposit_frequency (env : Env) (p : WaterParticle) (w : World) :
    (floodDeposit env p w).frequency = w.frequency := by
  unfold floodDeposit
  simp only [seep_frequency]

theorem freqOk_of_eq {w w2 : World} (h : w2.frequency = w.frequency) (hw : FreqOk w) :
    FreqOk w2 := by
  intro i
  rw [h]
  exact hw i

/-- With the traffic field in [0,1), a particle whose volume is at most
`minvol·(1000/992)^N` leaves the move/interact loop within `N + 1` iterations. -/
theorem runMoveInteract_ends (env : Env) : ∀ (N : Nat) (p : WaterParticle) (w : World),
    FreqOk w → p.volume * (992 / 1000) ^ N ≤ minvol →
    ∃ r : WaterParticle × World, r.2.frequency = w.frequency ∧
      ∀ k, N + 1 ≤ k → runMoveInteract env k p w = .ok r := by
  intro N
  induction N with
  | zero =>
    intro p w hw hv
    simp only [pow_zero, mul_one] at hv
    by_cases hmv : (move env p w).2.2 = true
    · -- the interaction ends the loop
      have hev := move_evaprate env p w
      obtain ⟨f0, f1⟩ := hw (cellIndex w.map (roundVec p.pos))
      have hvol : (interact env (move env p w).1 (move env p w).2.1).1.volume ≤ minvol := by
        rw [interact_volume, hev]
        rcases move_volume env p w with h | h
        · rw [h]
          by_cases hneg : p.volume ≤ 0
          · have : p.volume * (1 - 1 / 100 * (1 - 2 / 10 * w.frequency (cellIndex w.map (roundVec p.pos)))) ≤ 0 :=
              mul_nonpos_of_nonpos_of_nonneg hneg (by linarith)
            unfold minvol at *
            linarith
          · have hp : 0 ≤ p.volume := le_of_lt (lt_of_not_le hneg)
            have : p.volume * (1 - 1 / 100 * (1 - 2 / 10 * w.frequency (cellIndex w.map (roundVec p.pos)))) ≤
                p.volume * 1 := mul_le_mul_of_nonneg_left (by linarith) hp
            linarith
        · rw [h]
          unfold minvol
          norm_num
      have hin : ¬ (interact env (move env p w).1 (move env p w).2.1).2.2 = true := by
        simp only [interact, decide_eq_true_eq, not_lt]
        simpa [interact] using hvol
      refine ⟨((interact env (move env p w).1 (move env p w).2.1).1,
        (interact env (move env p w).1 (move env p w).2.1).2.1), ?_, ?_⟩
      · simp only [interact_frequency, move_frequency]
      · intro k hk
        obtain ⟨j, rfl⟩ : ∃ j, k = j + 1 := ⟨k - 1, by omega⟩
        rw [runMoveInteract, if_pos hmv, if_neg hin]
    · refine ⟨((move env p w).1, (move env p w).2.1), move_frequency env p w, ?_⟩
      intro k hk
      obtain ⟨j, rfl⟩ : ∃ j, k = j + 1 := ⟨k - 1, by omega⟩
      rw [runMoveInteract, if_neg hmv]
  | succ N ih =>
    intro p w hw hv
    by_cases hmv : (move env p w).2.2 = true
    · by_cases hin : (interact env (move env p w).1 (move env p w).2.1).2.2 = true
      · have hev := move_evaprate env p w
        obtain ⟨f0, f1⟩ := hw (cellIndex w.map (roundVec p.pos))
        have hw2 : FreqOk (interact env (move env p w).1 (move env p w).2.1).2.1 :=
          freqOk_of_eq (by rw [interact_frequency, move_frequency]) hw
        have hpos : minvol < (interact env (move env p w).1 (move env p w).2.1).1.volume := by
          simpa [interact] using hin
        rw [interact_volume, hev] at hpos
        have hfac : 0 < 1 - 1 / 100 * (1 - 2 / 10 * w.frequency (cellIndex w.map (roundVec p.pos))) := by
          linarith
        have hmvol : 0 < (move env p w).1.volume := by
          by_contra hc
          have hc2 : (move env p w).1.volume ≤ 0 := le_of_not_lt hc
          have := mul_nonpos_of_nonpos_of_nonneg hc2 (le_of_lt hfac)
          unfold minvol at hpos
          linarith
        have hmeq : (move env p w).1.volume = p.volume := by
          rcases move_volume env p w with h | h
          · exact h
          · rw [h] at hmvol
            exact absurd hmvol (lt_irrefl _)
        have hv2 : (interact env (move env p w).1 (move env p w).2.1).1.volume * (992 / 1000) ^ N
            ≤ minvol := by
          rw [interact_volume, hev, hmeq]
          rw [hmeq] at hmvol
          have h1 : p.volume * (1 - 1 / 100 * (1 - 2 / 10 * w.frequency (cellIndex w.map (roundVec p.pos))))
              ≤ p.volume * (992 / 1000) := mul_le_mul_of_nonneg_left (by linarith) (le_of_lt hmvol)
          have h2 : (0 : ℚ) ≤ (992 / 1000) ^ N := by positivity
          calc p.volume * (1 - 1 / 100 * (1 - 2 / 10 * w.frequency (cellIndex w.map (roundVec p.pos))))
                * (992 / 1000) ^ N
              ≤ p.volume * (992 / 1000) * (992 / 1000) ^ N := mul_le_mul_of_nonneg_right h1 h2
            _ = p.volume * (992 / 1000) ^ (N + 1) := by ring
            _ ≤ minvol := hv
        obtain ⟨r, hr1, hr2⟩ := ih _ _ hw2 hv2
        refine ⟨r, by rw [hr1, interact_frequency, move_frequency], ?_⟩
        intro k hk
        obtain ⟨j, rfl⟩ : ∃ j, k = j + 1 := ⟨k - 1, by omega⟩
        rw [runMoveInteract, if_pos hmv, if_pos hin]
        exact hr2 j (by omega)
      · refine ⟨((interact env (move env p w).1 (move env p w).2.1).1,
          (interact env (move env p w).1 (move env p w).2.1).2.1), ?_, ?_⟩
        · simp only [interact_frequency, move_frequency]
        · intro k hk
          obtain ⟨j, rfl⟩ : ∃ j, k = j + 1 := ⟨k - 1, by omega⟩
          rw [runMoveInteract, if_pos hmv, if_neg hin]
    · refine ⟨((move env p w).1, (move env p w).2.1), move_frequency env p w, ?_⟩
      intro k hk
      obtain ⟨j, rfl⟩ : ∃ j, k = j + 1 := ⟨k - 1, by omega⟩
      rw [runMoveInteract, if_neg hmv]

theorem exists_decay (v : ℚ) : ∃ N : Nat, v * (992 / 1000) ^ N ≤ minvol := by
  by_cases hv : v ≤ 0
  · exact ⟨0, by unfold minvol; simp only [pow_zero, mul_one]; linarith⟩
  · have hv0 : 0 < v := lt_of_not_le hv
    have hm : (0 : ℚ) < minvol / v := div_pos (by unfold minvol; norm_num) hv0
    obtain ⟨N, hN⟩ := exists_pow_lt_of_lt_one hm (by norm_num : (992 / 1000 : ℚ) < 1)
    refine ⟨N, ?_⟩
    have := mul_lt_mul_of_pos_left hN hv0
    rw [mul_div_cancel₀ _ (ne_of_gt hv0)] at this
    exact le_of_lt this

theorem runMoveInteract_settles (env : Env) (p : WaterParticle) (w : World) (hw : FreqOk w) :
    Settles (fun r : WaterParticle × World => r.2) (fun k => runMoveInteract env k p w) := by
  obtain ⟨N, hN⟩ := exists_decay p.volume
  obtain ⟨r, hr1, hr2⟩ := runMoveInteract_ends env N p w hw hN
  exact ⟨N + 1, .ok r, hr2, freqOk_of_eq hr1 hw⟩


theorem flood_eq_bind (env : Env) (cascade : Vec2 → Int → World → Except Stop World)
    (p : WaterParticle) (w : World) (hv : ¬ p.volume < minvol) (hs : ¬ p.spill ≤ 0) :
    flood env cascade p w =
      (cascade (toVec2 (toIVec2 p.pos)) (p.spill - 1)
        (floodDeposit env { p with spill := p.spill - 1, ipos := toIVec2 p.pos } w)).bind
        (fun w2 => .ok ({ p with spill := p.spill - 1, ipos := toIVec2 p.pos },
          w2.update (toIVec2 p.pos), false)) := by
  unfold flood
  rw [if_neg hv, if_neg hs]
  simp only []
  cases cascade (toVec2 (toIVec2 p.pos)) (p.spill - 1)
    (floodDeposit env { p with spill := p.spill - 1, ipos := toIVec2 p.pos } w) <;> rfl

theorem flood_settles (env : Env) (cb : Nat → Vec2 → Int → World → Except Stop World)
    (hcb : ∀ pos b w1, FreqOk w1 → Settles id (fun k => cb k pos b w1))
    (p : WaterParticle) (w : World) (hw : FreqOk w) :
    Settles (fun r : WaterParticle × World × Bool => r.2.1) (fun k => flood env (cb k) p w) := by
  by_cases hv : p.volume < minvol
  · refine ⟨0, .ok (p, w, false), fun k _ => ?_, hw⟩
    simp only [flood, if_pos hv]
  · by_cases hs : p.spill ≤ 0
    · refine ⟨0, .ok ({ p with spill := p.spill - 1 }, w, false), fun k _ => ?_, hw⟩
      simp only [flood, if_neg hv, if_pos hs]
    · apply settles_congr _ _ _ 0 (fun k _ => flood_eq_bind env (cb k) p w hv hs)
      apply settles_bind _ _ id _
        (hcb _ _ _ (freqOk_of_eq (floodDeposit_frequency env _ w) hw))
      intro w2 hw2
      exact settles_ok _ _ hw2

theorem runParticle_succ_bind (env : Env) (pfuel : Nat)
    (cascade : Vec2 → Int → World → Except Stop World) (j : Nat) (p : WaterParticle) (w : World) :
    runParticle env pfuel cascade (j + 1) p w =
      (runMoveInteract env pfuel p w).bind (fun r =>
        (flood env cascade r.1 r.2).bind (fun r2 => .ok r2.2.1)) := by
  rw [runParticle]
  cases runMoveInteract env pfuel p w with
  | error e => rfl
  | ok r =>
    obtain ⟨p1, w1⟩ := r
    simp only [Except.bind]
    cases hf : flood env cascade p1 w1 with
    | error e => rfl
    | ok r2 =>
      obtain ⟨p2, w2, b⟩ := r2
      have hb := flood_result_false env cascade p1 w1 _ hf
      simp only [] at hb
      subst hb
      rfl

theorem runParticle_settles (env : Env) (cb : Nat → Vec2 → Int → World → Except Stop World)
    (hcb : ∀ pos b w1, FreqOk w1 → Settles id (fun k => cb k pos b w1))
    (p : WaterParticle) (w : World) (hw : FreqOk w) :
    Settles id (fun k => runParticle env k (cb k) k p w) := by
  apply settles_congr _ _
    (fun k => (runMoveInteract env k p w).bind (fun r =>
      (flood env (cb k) r.1 r.2).bind (fun r2 => .ok r2.2.1))) 1
  · intro k hk
    obtain ⟨j, rfl⟩ : ∃ j, k = j + 1 := ⟨k - 1, by omega⟩
    exact runParticle_succ_bind env (j + 1) (cb (j + 1)) j p w
  · apply settles_bind _ _ (fun r : WaterParticle × World => r.2) _
      (runMoveInteract_settles env p w hw)
    intro r hr
    apply settles_bind _ _ (fun r : WaterParticle × World × Bool => r.2.1) _
      (flood_settles env cb hcb r.1 r.2 hr)
    intro r2 hr2
    exact settles_ok _ _ hr2

theorem cascadeFull_settles (env : Env) (cb : Nat → Vec2 → Int → World → Except Stop World)
    (hcb : ∀ pos b w1, FreqOk w1 → Settles id (fun k => cb k pos b w1))
    (tpos bpos : IVec2) (transfer : ℚ) (spill : Int) (w : World) (hw : FreqOk w) :
    Settles id (fun k => cascadeFull env k (cb k) tpos bpos transfer spill w) := by
  unfold cascadeFull
  simp only []
  apply runParticle_settles env cb hcb
  exact freqOk_of_eq rfl hw

theorem cascadePartial_frequency (env : Env) (tpos bpos : IVec2) (transfer : ℚ) (w : World) :
    (∀ r, cascadePartial env tpos bpos transfer w = .ok r → r.2.frequency = w.frequency) ∧
    (∀ e, cascadePartial env tpos bpos transfer w = .error e → e.reason = .nullTop) := by
  unfold cascadePartial
  simp only []
  cases ((w.map.remove tpos transfer).1.add bpos (poolGet transfer env.Air)).setTopSaturation bpos 1 with
  | none =>
    simp only []
    constructor
    · intro r hr
      cases hr
    · intro e he
      cases he
      rfl
  | some m2 =>
    simp only []
    constructor
    · intro r hr
      cases hr
      rfl
    · intro e he
      cases he

theorem cascadePair_eq_bind (env : Env) (pfuel : Nat)
    (cascade : Vec2 → Int → World → Except Stop World) (ipos npos : IVec2) (spill : Int)
    (w : World) :
    cascadePair env pfuel cascade ipos npos spill w =
      match pairAction env ipos npos w.map with
      | .skip => .ok (spill, w)
      | .nullTop => .error ⟨.nullTop, w⟩
      | .full tpos bpos transfer =>
        (cascadeFull env pfuel cascade tpos bpos transfer spill w).bind (fun w1 => .ok (spill, w1))
      | .part tpos bpos transfer =>
        (cascadePartial env tpos bpos transfer w).bind (fun r =>
          if r.1 = true ∧ spill > 0 then
            (cascade (toVec2 npos) (spill - 1) r.2).bind (fun w2 => .ok (spill - 1, w2))
          else .ok (spill, r.2)) := by
  unfold cascadePair
  cases pairAction env ipos npos w.map with
  | skip => rfl
  | nullTop => rfl
  | full tpos bpos transfer =>
    simp only []
    cases cascadeFull env pfuel cascade tpos bpos transfer spill w <;> rfl
  | part tpos bpos transfer =>
    simp only []
    cases cascadePartial env tpos bpos transfer w with
    | error e => rfl
    | ok r =>
      obtain ⟨rc, w1⟩ := r
      simp only [Except.bind]
      split
      · cases cascade (toVec2 npos) (spill - 1) w1 <;> rfl
      · rfl

theorem cascadePair_settles (env : Env) (cb : Nat → Vec2 → Int → World → Except Stop World)
    (hcb : ∀ pos b w1, FreqOk w1 → Settles id (fun k => cb k pos b w1))
    (ipos npos : IVec2) (spill : Int) (w : World) (hw : FreqOk w) :
    Settles (fun r : Int × World => r.2) (fun k => cascadePair env k (cb k) ipos npos spill w) := by
  simp only [cascadePair_eq_bind]
  cases pairAction env ipos npos w.map with
  | skip => exact settles_ok _ _ hw
  | nullTop => exact ⟨0, _, fun _ _ => rfl, by simp⟩
  | full tpos bpos transfer =>
    apply settles_bind _ _ id _ (cascadeFull_settles env cb hcb tpos bpos transfer spill w hw)
    intro w1 hw1
    exact settles_ok _ _ hw1
  | part tpos bpos transfer =>
    obtain ⟨c1, c2⟩ := cascadePartial_frequency env tpos bpos transfer w
    have hp : Settles (fun r : Bool × World => r.2)
        (fun _ : Nat => cascadePartial env tpos bpos transfer w) := by
      cases hc : cascadePartial env tpos bpos transfer w with
      | error e =>
        refine ⟨0, .error e, fun _ _ => rfl, ?_⟩
        show e.reason ≠ StopReason.fuel
        rw [c2 e hc]
        simp
      | ok r => exact settles_ok _ _ (freqOk_of_eq (c1 r hc) hw)
    apply settles_bind _ _ (fun r : Bool × World => r.2) _ hp
    intro r hr
    by_cases hre : r.1 = true ∧ spill > 0
    · simp only [if_pos hre]
      apply settles_bind _ _ id _ (hcb _ _ _ hr)
      intro w2 hw2
      exact settles_ok _ _ hw2
    · simp only [if_neg hre]
      exact settles_ok _ _ hr

theorem cascadeLoop_cons_bind (env : Env) (pfuel : Nat)
    (cascade : Vec2 → Int → World → Except Stop World) (ipos npos : IVec2) (rest : List IVec2)
    (spill : Int) (w : World) :
    cascadeLoop env pfuel cascade ipos (npos :: rest) spill w =
      (cascadePair env pfuel cascade ipos npos spill w).bind
        (fun r => cascadeLoop env pfuel cascade ipos rest r.1 r.2) := by
  rw [cascadeLoop]
  cases cascadePair env pfuel cascade ipos npos spill w with
  | error e => rfl
  | ok r => rfl

theorem cascadeLoop_settles (env : Env) (cb : Nat → Vec2 → Int → World → Except Stop World)
    (hcb : ∀ pos b w1, FreqOk w1 → Settles id (fun k => cb k pos b w1)) (ipos : IVec2) :
    ∀ (l : List IVec2) (spill : Int) (w : World), FreqOk w →
      Settles id (fun k => cascadeLoop env k (cb k) ipos l spill w) := by
  intro l
  induction l with
  | nil =>
    intro spill w hw
    simp only [cascadeLoop]
    exact settles_ok _ _ hw
  | cons npos rest ih =>
    intro spill w hw
    simp only [cascadeLoop_cons_bind]
    apply settles_bind _ _ (fun r : Int × World => r.2) _
      (cascadePair_settles env cb hcb ipos npos spill w hw)
    intro r hr
    exact ih r.1 r.2 hr

/-- With the traffic field in [0,1), every run of `cascadeN` settles. -/
theorem cascadeN_settles (env : Env) : ∀ (n d0 : Nat) (pos : Vec2) (s : Int) (w : World),
    FreqOk w → Settles id (fun k => cascadeN env k n d0 pos s w) := by
  intro n
  induction n with
  | zero =>
    intro d0 pos s w hw
    simp only [cascadeN]
    apply cascadeLoop_settles env
      (fun _ _ b w1 => .error ⟨.depth, w1.logCall ⟨d0 + 1, s, b⟩⟩) _ _ _ _ _ hw
    intro pos1 b w1 _
    exact ⟨0, _, fun _ _ => rfl, by simp⟩
  | succ n ih =>
    intro d0 pos s w hw
    simp only [cascadeN]
    apply cascadeLoop_settles env
      (fun k npos b w1 => cascadeN env k n (d0 + 1) npos b (w1.logCall ⟨d0 + 1, s, b⟩)) _ _ _ _ _ hw
    intro pos1 b w1 hw1
    exact ih (d0 + 1) pos1 b _ (freqOk_of_eq rfl hw1)


theorem cascade_settles (env : Env) (pos : Vec2) (b : Int) (w : World) (hw : FreqOk w) :
    Settles id (fun k => cascade env k pos b w) := by
  unfold cascade
  exact cascadeN_settles env b.toNat 0 pos b w hw

theorem cascade_good_true (env : Env) (pfuel : Nat) (pos : Vec2) (b : Int) (w : World)
    (hb : 0 ≤ b) : Good (fun _ => True) w id (cascade env pfuel pos b w) := by
  have hg := cascadeN_good env pfuel b.toNat 0 pos b w hb (by rw [Int.toNat_of_nonneg hb])
  unfold cascade
  revert hg
  cases cascadeN env pfuel b.toNat 0 pos b w with
  | error e =>
    intro hg
    exact ⟨extends_mono (fun _ _ => trivial) hg.1, hg.2⟩
  | ok w2 =>
    intro hg
    exact extends_mono (fun _ _ => trivial) hg

/-- With the traffic field in [0,1), `flood` called from outside returns false
or stops at a `NULL` read, from some iteration bound on. -/
theorem floodRun_returns (env : Env) (p : WaterParticle) (w : World) (hw : FreqOk w) :
    ∃ F : Nat,
      (∃ p1 w1, ∀ k, F ≤ k → floodRun env k p w = .ok (p1, w1, false)) ∨
      (∃ e, e.reason = .nullTop ∧ ∀ k, F ≤ k → floodRun env k p w = .error e) := by
  obtain ⟨F, out, hF, hout⟩ := flood_settles env (fun k pos b w1 => cascade env k pos b w1)
    (fun pos b w1 hw1 => cascade_settles env pos b w1 hw1) p w hw
  refine ⟨F, ?_⟩
  have hgood := flood_good env (fun pos b w1 => cascade env F pos b w1) (fun _ => True) p.spill
    (fun pos b w1 hb _ => cascade_good_true env F pos b w1 hb) p w (le_refl _)
  have hFF := hF F (le_refl _)
  simp only [] at hFF
  cases out with
  | ok r =>
    obtain ⟨p1, w1, b⟩ := r
    have hb := flood_result_false env _ p w _ hFF
    simp only [] at hb
    subst hb
    exact Or.inl ⟨p1, w1, hF⟩
  | error e =>
    right
    refine ⟨e, ?_, hF⟩
    rw [hFF] at hgood
    have h1 : e.reason ≠ .depth := hgood.2
    have h2 : e.reason ≠ .fuel := hout
    revert h1 h2
    cases e.reason <;> simp

/-- C10: `flood` never returns true, and a particle that is dead (volume below
`minvol` = 0.01, in particular volume 0) or out of budget (spill ≤ 0 on entry)
makes `flood` return false at once with the state unchanged: the terrain is the
same, no change notification is issued and no cascade is started.  On the other
inputs `flood`, with `WaterParticle::cascade` as its nested call, does return
false when the traffic field is in [0,1): from some iteration bound of the
particle loops on, the run ends with the result false, unless it stops at a
read through a `NULL` top layer. -/
theorem flood_false_and_noop (env : Env) (cascade : Vec2 → Int → World → Except Stop World)
    (p : WaterParticle) (w : World) :
    minvol = 1 / 100 ∧
    (∀ r, flood env cascade p w = .ok r → r.2.2 = false) ∧
    (p.volume < minvol → flood env cascade p w = .ok (p, w, false)) ∧
    (p.spill ≤ 0 → ∃ p1, flood env cascade p w = .ok (p1, w, false)) ∧
    ((∀ i, 0 ≤ w.frequency i ∧ w.frequency i < 1) → ∃ F : Nat,
      (∃ p1 w1, ∀ k, F ≤ k → floodRun env k p w = .ok (p1, w1, false)) ∨
      (∃ e, e.reason = .nullTop ∧ ∀ k, F ≤ k → floodRun env k p w = .error e)) := by
  refine ⟨rfl, ?_, ?_, ?_, fun hw => floodRun_returns env p w hw⟩
  · intro r hr
    unfold flood at hr
    split at hr
    · cases hr; rfl
    · split at hr
      · cases hr; rfl
      · simp only [] at hr
        split at hr
        · cases hr
        · cases hr; rfl
  · intro h
    unfold flood
    rw [if_pos h]
  · intro h
    unfold flood
    by_cases hv : p.volume < minvol
    · rw [if_pos hv]
      exact ⟨_, rfl⟩
    · rw [if_neg hv, if_pos h]
      exact ⟨_, rfl⟩

/-- C10, at a particle of volume 0 and at a particle of spill budget 0. -/
theorem flood_false_and_noop_witness :
    flood exEnv (fun _ _ w => .ok w) (exParticle exEnv 0 0 3) (exWorld exThin) =
      .ok (exParticle exEnv 0 0 3, exWorld exThin, false) ∧
    ∃ p1, flood exEnv (fun _ _ w => .ok w) (exParticle exEnv 1 0 0) (exWorld exThin) =
      .ok (p1, exWorld exThin, false) :=
  ⟨(flood_false_and_noop exEnv (fun _ _ w => .ok w) (exParticle exEnv 0 0 3)
      (exWorld exThin)).2.2.1 (by norm_num [exParticle, minvol]),
   (flood_false_and_noop exEnv (fun _ _ w => .ok w) (exParticle exEnv 1 0 0)
      (exWorld exThin)).2.2.2.1 (by norm_num [exParticle])⟩

/-! ## Seepage: conservation of water -/

/-- The bound of C8 is reached: on `exPond` with spill budget 3 the nested
starts, latest first as (depth, budget of the starting invocation, budget
handed over), go down to depth 3; the invocation called with budget 3 starts
two nested cascades, the first with budget 2 and the second with budget 1. -/
theorem cascade_exPond_calls :
    (finalWorld (cascade exEnv 5 (0, 0) 3 exPond)).calls.map
        (fun r => (r.depth, r.caller, r.budget)) =
      [(2, 1, 0), (1, 3, 1), (3, 1, 0), (2, 2, 1), (1, 3, 2)] := by
  decide!

/-! ## The motion step of `move`: leaving the grid -/

/-- The three ways `move` ends, in terms of the no-motion test and the advanced
position. -/
theorem move_cases (env : Env) (p : WaterParticle) (w : World) :
    (moveStuck env p w → (move env p w).2.2 = false ∧ (move env p w).1.pos = p.pos ∧
      (move env p w).1.volume = p.volume) ∧
    (¬ moveStuck env p w → (move env p w).1.pos = moveTarget env p w ∧
      (move env p w).1.speed = moveSpeed env p w) ∧
    (¬ moveStuck env p w →
      ¬ (0 ≤ (moveTarget env p w).1 ∧ 0 ≤ (moveTarget env p w).2 ∧
        (moveTarget env p w).1 < (w.map.dim.1 : ℚ) - 1 ∧
        (moveTarget env p w).2 < (w.map.dim.2 : ℚ) - 1) →
      (move env p w).2.2 = false ∧ (move env p w).1.volume = 0) ∧
    (¬ moveStuck env p w →
      (0 ≤ (moveTarget env p w).1 ∧ 0 ≤ (moveTarget env p w).2 ∧
        (moveTarget env p w).1 < (w.map.dim.1 : ℚ) - 1 ∧
        (moveTarget env p w).2 < (w.map.dim.2 : ℚ) - 1) →
      (move env p w).2.2 = true ∧ (move env p w).1.volume = p.volume) := by
  unfold moveStuck moveTarget moveSpeed moveFriction
  refine ⟨fun hs => ?_, fun hs => ?_, fun hs hout => ?_, fun hs hin => ?_⟩
  · simp only [move, updatefrequency]
    rw [if_pos hs]
    exact ⟨rfl, rfl, rfl⟩
  · simp only [move, updatefrequency]
    rw [if_neg hs]
    split <;> exact ⟨rfl, rfl⟩
  · simp only [move, updatefrequency]
    rw [if_neg hs]
    have hc : ¬ (0 ≤ (moveTarget env p w).1 ∧ 0 ≤ (moveTarget env p w).2) ∨
        ¬ ((moveTarget env p w).1 < (w.map.dim.1 : ℚ) - 1 ∧
          (moveTarget env p w).2 < (w.map.dim.2 : ℚ) - 1) := by
      by_contra hcon
      rw [not_or, not_not, not_not] at hcon
      exact hout ⟨hcon.1.1, hcon.1.2, hcon.2.1, hcon.2.2⟩
    unfold moveTarget moveSpeed moveFriction at hc
    rw [if_pos hc]
    exact ⟨rfl, rfl⟩
  · simp only [move, updatefrequency]
    rw [if_neg hs]
    have hc : ¬ (¬ (0 ≤ (moveTarget env p w).1 ∧ 0 ≤ (moveTarget env p w).2) ∨
        ¬ ((moveTarget env p w).1 < (w.map.dim.1 : ℚ) - 1 ∧
          (moveTarget env p w).2 < (w.map.dim.2 : ℚ) - 1)) := by
      rw [not_or, not_not, not_not]
      exact ⟨⟨hin.1, hin.2.1⟩, hin.2.2.1, hin.2.2.2⟩
    unfold moveTarget moveSpeed moveFriction at hc
    rw [if_neg hc]
    exact ⟨rfl, rfl⟩

/-- C11: for every `move` call that is not stopped by the no-motion test, the
particle is advanced to `pos + speed`, and if that position leaves the grid
(some coordinate is below 0 or not below the grid dimension of its axis) the
volume is 0 afterwards and `move` returns false. -/
theorem move_leaving_grid (env : Env) (p : WaterParticle) (w : World)
    (hmove : ¬ moveStuck env p w) (hout : ¬ InGrid w.map (moveTarget env p w)) :
    (move env p w).1.pos = moveTarget env p w ∧
    (move env p w).1.volume = 0 ∧ (move env p w).2.2 = false := by
  obtain ⟨-, h2, h3, -⟩ := move_cases env p w
  have h := h3 hmove (fun hin => hout ⟨hin.1, hin.2.1, by linarith [hin.2.2.1], by linarith [hin.2.2.2]⟩)
  exact ⟨(h2 hmove).1, h.2, h.1⟩

theorem exEnvSlope_move :
    ¬ moveStuck exEnvSlope (exParticleAt exEnvSlope (29 / 10, 1)) (exWorld []) ∧
    moveTarget exEnvSlope (exParticleAt exEnvSlope (29 / 10, 1)) (exWorld []) =
      (4314 / 1000, 1) := by
  decide!

/-- C11, at a particle at (2.9, 1) of the 4×4 grid on a slope falling in the x
direction: the step of length 1.414 takes it to (4.314, 1). -/
theorem move_leaving_grid_witness :
    (move exEnvSlope (exParticleAt exEnvSlope (29 / 10, 1)) (exWorld [])).1.pos =
      moveTarget exEnvSlope (exParticleAt exEnvSlope (29 / 10, 1)) (exWorld []) ∧
    (move exEnvSlope (exParticleAt exEnvSlope (29 / 10, 1)) (exWorld [])).1.volume = 0 ∧
    (move exEnvSlope (exParticleAt exEnvSlope (29 / 10, 1)) (exWorld [])).2.2 = false :=
  move_leaving_grid exEnvSlope (exParticleAt exEnvSlope (29 / 10, 1)) (exWorld [])
    exEnvSlope_move.1
    (by
      rw [exEnvSlope_move.2]
      unfold InGrid exWorld
      norm_num)

/-! ## Termination of the particle run loop -/

/-- C12: with the traffic field in [0,1), the loop
`while(particle.move(..) && particle.interact(..))` terminates for every
terrain and every starting volume: from some iteration bound on the run ends
normally with one and the same state, within `N + 1` iterations when
`volume·0.992^N ≤ minvol`; every completed iteration (move returned true)
multiplies the volume by 1 − evaprate, which is in [0.99, 0.992). -/
theorem particle_loop_terminates (env : Env) (p : WaterParticle) (w : World)
    (hf : ∀ i, 0 ≤ w.frequency i ∧ w.frequency i < 1) :
    (∃ (K : Nat) (r : WaterParticle × World), ∀ k, K ≤ k → runMoveInteract env k p w = .ok r) ∧
    (∀ N : Nat, p.volume * (992 / 1000) ^ N ≤ minvol →
      ∃ r : WaterParticle × World, ∀ k, N + 1 ≤ k → runMoveInteract env k p w = .ok r) ∧
    ((move env p w).2.2 = true →
      (interact env (move env p w).1 (move env p w).2.1).1.volume =
        p.volume * (1 - (move env p w).1.evaprate) ∧
      99 / 100 ≤ 1 - (move env p w).1.evaprate ∧ 1 - (move env p w).1.evaprate < 992 / 1000) := by
  refine ⟨?_, fun N hN => ?_, fun hmv => ?_⟩
  · obtain ⟨N, hN⟩ := exists_decay p.volume
    obtain ⟨r, -, hr⟩ := runMoveInteract_ends env N p w hf hN
    exact ⟨N + 1, r, hr⟩
  · obtain ⟨r, -, hr⟩ := runMoveInteract_ends env N p w hf hN
    exact ⟨r, hr⟩
  · obtain ⟨f0, f1⟩ := hf (cellIndex w.map (roundVec p.pos))
    have hv : (move env p w).1.volume = p.volume := by
      obtain ⟨c1, -, c3, c4⟩ := move_cases env p w
      by_cases hs : moveStuck env p w
      · exact (c1 hs).2.2
      · by_cases hin : 0 ≤ (moveTarget env p w).1 ∧ 0 ≤ (moveTarget env p w).2 ∧
            (moveTarget env p w).1 < (w.map.dim.1 : ℚ) - 1 ∧
            (moveTarget env p w).2 < (w.map.dim.2 : ℚ) - 1
        · exact (c4 hs hin).2
        · rw [(c3 hs hin).1] at hmv
          cases hmv
    rw [interact_volume, hv, move_evaprate]
    refine ⟨rfl, by linarith, by linarith⟩

/-- C12, at a particle of volume 1 on an empty terrain with zero traffic. -/
theorem particle_loop_terminates_witness :
    ∃ (K : Nat) (r : WaterParticle × World), ∀ k, K ≤ k →
      runMoveInteract exEnv k (exParticle exEnv 1 0 3) (exWorld []) = .ok r :=
  (particle_loop_terminates exEnv (exParticle exEnv 1 0 3) (exWorld [])
    (fun i => by norm_num [exWorld])).1

/-! ## Cascade: water table heights and head difference -/

theorem waterHeight_some (Air : SurfType) (s : sec) : waterHeight Air (some s) = s.size := by
  simp only [waterHeight, ite_self]

/-- C13, as stated, fails: for a column whose top layer is solid soil the water
table height used by `cascade` is not 0 but the thickness of that layer (4 for
the soil column of `exPond`), so the head difference between the pond at 10 and
the soil column of height 4 is 6, not 10. -/
theorem waterHeight_solid_top :
    (∃ s, exPond.map.top (1, 0) = some s ∧ s.type ≠ exEnv.Air) ∧
    waterHeight exEnv.Air (exPond.map.top (1, 0)) ≠ 0 ∧
    waterHeight exEnv.Air (exPond.map.top (1, 0)) = 4 ∧
    headDiff exEnv (exPond.map.top (0, 0)) (exPond.map.top (1, 0)) = 6 := by
  rw [exPond_top.1, exPond_top.2]
  refine ⟨⟨_, rfl, by simp [exEnv]⟩, ?_, ?_, ?_⟩
  · rw [waterHeight_some]
    norm_num
  · rw [waterHeight_some]
  · simp only [headDiff, waterHeight_some, floorValue, exEnv]
    norm_num

/-- C13 (amended): in `cascade`, each side's water-table height used in the
head difference is the top layer's thickness, whether that layer is open water
or not, and 0 when the column has no layer; each side's floor elevation is the
top layer's floor (0 when absent); so the head of a column with a top layer is
the elevation floor + thickness of its surface, the scaled difference is
((floorA + sizeA) − (floorB + sizeB))·SCALE/80, and a pair whose difference is
0 is skipped. -/
theorem cascade_water_table (env : Env) (m : Layermap) (ipos npos : IVec2) :
    (∀ s, waterHeight env.Air (some s) = s.size) ∧ waterHeight env.Air none = 0 ∧
    (∀ s, floorValue (some s) = s.floor) ∧ floorValue none = 0 ∧
    (∀ a b, headDiff env (some a) (some b) =
      ((a.floor + a.size) - (b.floor + b.size)) * env.SCALE / 80) ∧
    (∀ a, headDiff env (some a) none = (a.floor + a.size) * env.SCALE / 80) ∧
    (∀ b, headDiff env none (some b) = -(b.floor + b.size) * env.SCALE / 80) ∧
    (headDiff env (m.top ipos) (m.top npos) = 0 → pairAction env ipos npos m = .skip) := by
  refine ⟨waterHeight_some env.Air, rfl, fun _ => rfl, rfl, fun a b => ?_, fun a => ?_,
    fun b => ?_, fun h => ?_⟩
  · simp only [headDiff, waterHeight_some, floorValue]
    ring
  · simp only [headDiff, floorValue, waterHeight, ite_self]
    ring
  · simp only [headDiff, floorValue, waterHeight, ite_self]
    ring
  · unfold pairAction
    simp only [h, if_true]

/-- C13 (amended), at two empty cells of an empty terrain. -/
theorem cascade_water_table_witness :
    pairAction exEnv (2, 2) (3, 3) (exWorld []).map = .skip :=
  (cascade_water_table exEnv (exWorld []).map (2, 2) (3, 3)).2.2.2.2.2.2.2 (by
    have h1 : (exWorld []).map.top (2, 2) = none := by
      simp [exWorld, Layermap.top, Column.top]
    have h2 : (exWorld []).map.top (3, 3) = none := by
      simp [exWorld, Layermap.top, Column.top]
    rw [h1, h2]
    simp [headDiff, floorValue, waterHeight])

/-! ## Partial transfer in exact arithmetic -/

/-- The partial-transfer branch on two distinct cells: the higher layer is
thinned and a saturated open-water layer of the transferred thickness is put on
the lower column, at the elevation of its former surface. -/
theorem cascadePartial_surfaces (env : Env) (w : World) (tpos bpos : IVec2) (transfer : ℚ)
    (top : sec) (hne : bpos ≠ tpos) (htop : w.map.top tpos = some top)
    (h0 : 0 < transfer) (hlt : transfer < top.size) :
    ∃ w1, cascadePartial env tpos bpos transfer w = .ok (true, w1) ∧
      surfaceOf env.Air (w1.map.top tpos) = surfaceOf env.Air (w.map.top tpos) - transfer ∧
      surfaceOf env.Air (w1.map.top bpos) = surfaceOf env.Air (w.map.top bpos) + transfer := by
  cases hbot : w.map.top bpos with
  | some bot =>
    obtain ⟨w1, e1, e2, e3, -⟩ := cascadePartial_eval env w tpos bpos transfer top bot hne htop
      hbot h0 hlt
    refine ⟨w1, e1, ?_, ?_⟩
    · rw [e2, htop]
      simp only [surfaceOf, floorValue, waterHeight_some]
      ring
    · rw [e3]
      simp only [surfaceOf, floorValue, waterHeight_some]
  | none =>
    obtain ⟨r1, r2⟩ := layermap_remove_part w.map tpos transfer top htop h0 hlt
    have hb0 : w.map.dat bpos = [] := by
      simpa [Layermap.top, Column.top, List.getLast?_eq_none_iff] using hbot
    have hb1 : (w.map.remove tpos transfer).1.dat bpos = [] := by
      rw [r1, layermap_dat_setColumn_ne _ _ _ _ hne]
      exact hb0
    have hadd : ((w.map.remove tpos transfer).1.add bpos (poolGet transfer env.Air)) =
        (w.map.remove tpos transfer).1.setColumn bpos
          [{ type := env.Air, size := transfer, floor := 0, saturation := 0 }] := by
      simp only [Layermap.add, Column.add, hb1, poolGet, List.getLast?_nil]
    have hsat : ((w.map.remove tpos transfer).1.add bpos (poolGet transfer env.Air)).setTopSaturation
        bpos 1 = some (((w.map.remove tpos transfer).1.add bpos (poolGet transfer env.Air)).setColumn
          bpos [{ type := env.Air, size := transfer, floor := 0, saturation := 1 }]) := by
      rw [hadd]
      simp [Layermap.setTopSaturation, Layermap.setColumn]
    refine ⟨(({ w with map := ((w.map.remove tpos transfer).1.add bpos (poolGet transfer env.Air)).setColumn bpos [{ type := env.Air, size := transfer, floor := 0, saturation := 1 }] }
        : World).update tpos).update bpos, ?_, ?_, ?_⟩
    · unfold cascadePartial
      simp only [hsat, if_pos h0]
    · simp only [World.update]
      rw [layermap_top_setColumn_ne _ _ _ _ (Ne.symm hne), hadd,
        layermap_top_setColumn_ne _ _ _ _ (Ne.symm hne), r1, layermap_top_setColumn_self, htop]
      have hl : ∀ x : sec, (List.dropLast (w.map.dat tpos) ++ [x]).getLast? = some x := by
        intro x
        simp
      rw [hl]
      simp only [surfaceOf, floorValue, waterHeight_some]
      ring
    · simp only [World.update]
      rw [layermap_top_setColumn_self]
      simp [surfaceOf, floorValue, waterHeight]

theorem headDiff_surfaces (env : Env) (a b : Option sec) :
    headDiff env a b = (surfaceOf env.Air a - surfaceOf env.Air b) * env.SCALE / 80 := by
  unfold headDiff surfaceOf
  ring

/-- In exact arithmetic, without the rounding of `double`: for every source cell
and distinct neighbour handled by the partial-transfer branch, when
0 < SCALE ≤ 80, the higher column's surface (top floor + top thickness) is not
below the lower column's surface after the transfer. -/
theorem partial_transfer_exact (env : Env) (w : World) (ipos npos tpos bpos : IVec2)
    (transfer : ℚ) (hne : npos ≠ ipos) (hS0 : 0 < env.SCALE) (hS : env.SCALE ≤ 80)
    (hact : pairAction env ipos npos w.map = .part tpos bpos transfer) :
    ∃ w1, cascadePartial env tpos bpos transfer w = .ok (true, w1) ∧
      surfaceOf env.Air (w1.map.top bpos) ≤ surfaceOf env.Air (w1.map.top tpos) := by
  obtain ⟨hd, ht, hb, top, htop, -, htr, hpos, hfull⟩ :=
    pairAction_transfer env ipos npos w.map tpos bpos transfer false (by simpa using hact)
  obtain ⟨hle1, hle2⟩ := cascadeTransfer_le (headDiff env (w.map.top ipos) (w.map.top npos)) top
  rw [← htr] at hle1 hle2
  have hlt : transfer < top.size := lt_of_le_of_ne hle1 (fun he => by simpa using hfull.mpr he)
  have hdiff := headDiff_surfaces env (w.map.top ipos) (w.map.top npos)
  have hk : 0 < env.SCALE / 80 := by positivity
  have hk1 : env.SCALE / 80 ≤ 1 := by
    rw [div_le_one (by norm_num)]
    exact hS
  have hrew : headDiff env (w.map.top ipos) (w.map.top npos) =
      (surfaceOf env.Air (w.map.top ipos) - surfaceOf env.Air (w.map.top npos)) *
        (env.SCALE / 80) := by
    rw [hdiff]
    ring
  by_cases hp : headDiff env (w.map.top ipos) (w.map.top npos) > 0
  · rw [if_pos hp] at ht hb
    subst ht hb
    obtain ⟨w1, e1, e2, e3⟩ := cascadePartial_surfaces env w tpos bpos transfer top hne htop hpos hlt
    refine ⟨w1, e1, ?_⟩
    rw [e2, e3]
    rw [abs_of_pos hp, hrew] at hle2
    have hgap : 0 < surfaceOf env.Air (w.map.top tpos) - surfaceOf env.Air (w.map.top bpos) := by
      rw [hrew] at hp
      by_contra hc
      have := mul_nonpos_of_nonpos_of_nonneg (le_of_not_lt hc) (le_of_lt hk)
      linarith
    have := mul_le_mul_of_nonneg_left hk1 (le_of_lt hgap)
    linarith
  · rw [if_neg hp] at ht hb
    subst ht hb
    have hn : headDiff env (w.map.top bpos) (w.map.top tpos) < 0 :=
      lt_of_le_of_ne (le_of_not_lt hp) hd
    obtain ⟨w1, e1, e2, e3⟩ := cascadePartial_surfaces env w tpos bpos transfer top
      (Ne.symm hne) htop hpos hlt
    refine ⟨w1, e1, ?_⟩
    rw [e2, e3]
    rw [abs_of_neg hn, hrew] at hle2
    have hgap : 0 < surfaceOf env.Air (w.map.top tpos) - surfaceOf env.Air (w.map.top bpos) := by
      rw [hrew] at hn
      by_contra hc
      have h1 : 0 ≤ surfaceOf env.Air (w.map.top bpos) - surfaceOf env.Air (w.map.top tpos) := by
        linarith [le_of_not_lt hc]
      have := mul_nonneg h1 (le_of_lt hk)
      linarith
    have := mul_le_mul_of_nonneg_left hk1 (le_of_lt hgap)
    linarith

/-! ## Cascade: the budget of the recursive calls -/

/-- C15, as stated, fails: in `cascade((1,0), 3)` on the strip `exStrip` both
neighbours receive a partial transfer (no particle is spawned: the `rand()`
stream is untouched), and the two recursive calls, latest first as (depth,
budget of the starting invocation, budget handed over), get the budgets 2 and
then 1, not 2 twice. -/
theorem cascade_later_neighbour_budget :
    (cascade exEnv 5 (1, 0) 3 exStrip).toBool = true ∧
    (finalWorld (cascade exEnv 5 (1, 0) 3 exStrip)).rng = 0 ∧
    (finalWorld (cascade exEnv 5 (1, 0) 3 exStrip)).calls.map
        (fun r => (r.depth, r.caller, r.budget)) = [(1, 3, 1), (1, 3, 2)] ∧
    ¬ ∀ r ∈ (finalWorld (cascade exEnv 5 (1, 0) 3 exStrip)).calls, r.budget = 3 - 1 := by
  decide!

/-- The partial-transfer branch marks the edge for re-cascading whenever it
returns after a positive transfer. -/
theorem cascadePartial_recascade (env : Env) (tpos bpos : IVec2) (transfer : ℚ) (w : World)
    (h0 : 0 < transfer) (r : Bool × World)
    (hr : cascadePartial env tpos bpos transfer w = .ok r) : r.1 = true := by
  unfold cascadePartial at hr
  simp only [if_pos h0] at hr
  split at hr
  · cases hr
  · cases hr
    rfl

/-- C15 (amended): when the partial transfer to a neighbour marks the edge for
re-cascading while the local variable `spill` of the invocation is positive,
the recursive cascade from that neighbour cell is called with `spill - 1` and
the rest of the neighbour loop goes on with the local `spill` decremented by
one; the local variable starts at the budget s of the invocation, so the first
re-cascading neighbour is called with s − 1, the next one with s − 2, and so
on.  A neighbour that is skipped leaves the local `spill` as it is. -/
theorem cascade_recursion_budget (env : Env) (pfuel : Nat)
    (nested : Vec2 → Int → World → Except Stop World) (ipos npos : IVec2)
    (rest : List IVec2) (spill : Int) (w : World) (tpos bpos : IVec2) (transfer : ℚ)
    (w1 : World)
    (hact : pairAction env ipos npos w.map = .part tpos bpos transfer)
    (hpart : cascadePartial env tpos bpos transfer w = .ok (true, w1)) (hs : spill > 0) :
    cascadeLoop env pfuel nested ipos (npos :: rest) spill w =
      (nested (toVec2 npos) (spill - 1) w1).bind
        (fun w2 => cascadeLoop env pfuel nested ipos rest (spill - 1) w2) ∧
    (∀ (qpos : IVec2) (w0 : World), pairAction env ipos qpos w0.map = .skip →
      cascadeLoop env pfuel nested ipos (qpos :: rest) spill w0 =
        cascadeLoop env pfuel nested ipos rest spill w0) := by
  constructor
  · rw [cascadeLoop_cons_bind, cascadePair_eq_bind]
    simp only [hact, hpart, Except.bind]
    rw [if_pos ⟨trivial, hs⟩]
    cases nested (toVec2 npos) (spill - 1) w1 <;> rfl
  · intro qpos w0 hq
    rw [cascadeLoop_cons_bind, cascadePair_eq_bind]
    simp only [hq]
    rfl

theorem exStrip_first_pair :
    pairAction exEnv (1, 0) (2, 0) exStrip.map = .part (1, 0) (2, 0) (25 / 2) ∧
    (cascadePartial exEnv (1, 0) (2, 0) (25 / 2) exStrip).toBool = true := by
  decide!

/-- C15 (amended), at the first neighbour (2,0) of the cell (1,0) of `exStrip`,
with budget 3 and a nested call that returns at once. -/
theorem cascade_recursion_budget_witness :
    cascadeLoop exEnv 5 (fun _ _ w => .ok w) (1, 0) [(2, 0), (0, 0)] 3 exStrip =
      (Except.ok (partialWorld (cascadePartial exEnv (1, 0) (2, 0) (25 / 2) exStrip))).bind
        (fun w2 => cascadeLoop exEnv 5 (fun _ _ w => .ok w) (1, 0) [(0, 0)] (3 - 1) w2) :=
  (cascade_recursion_budget exEnv 5 (fun _ _ w => .ok w) (1, 0) (2, 0) [(0, 0)] 3 exStrip
    (1, 0) (2, 0) (25 / 2) (partialWorld (cascadePartial exEnv (1, 0) (2, 0) (25 / 2) exStrip))
    exStrip_first_pair.1
    (by
      have h := exStrip_first_pair.2
      have hr := cascadePartial_recascade exEnv (1, 0) (2, 0) (25 / 2) exStrip (by norm_num)
      revert h hr
      cases cascadePartial exEnv (1, 0) (2, 0) (25 / 2) exStrip with
      | error e =>
        intro h _
        cases h
      | ok r =>
        intro _ hr
        have := hr r rfl
        obtain ⟨rc, w1⟩ := r
        simp only [] at this
        subst this
        rfl)
    (by decide)).1

/-! ## The cell of `flood` -/

/-- C16 fails on the code: a particle at the position (2.828, 1) inside the 4×4
grid belongs to the cell round(pos) = (3,1), which is the cell `move` computes
(here `move` reports no motion); `flood` sets `ipos = pos`, which truncates to
(2,1).  With the nested cascade left out, `flood` deposits the sediment layer
and the 0.015 units of water at (2,1), notifies (2,1) twice and leaves the
column of (3,1) empty; with `WaterParticle::cascade` as the nested call the
particle's cell is (2,1) as well, and (2,1) is the first and the last cell
notified. -/
theorem flood_cell_is_truncated :
    InGrid (exWorld []).map (exParticleAt exEnv (2828 / 1000, 1)).pos ∧
    roundVec (exParticleAt exEnv (2828 / 1000, 1)).pos = (3, 1) ∧
    (move exEnv (exParticleAt exEnv (2828 / 1000, 1)) (exWorld [])).1.ipos = (3, 1) ∧
    (move exEnv (exParticleAt exEnv (2828 / 1000, 1)) (exWorld [])).1.pos = (2828 / 1000, 1) ∧
    (move exEnv (exParticleAt exEnv (2828 / 1000, 1)) (exWorld [])).2.2 = false ∧
    (floodOutcome (flood exEnv (fun _ _ w => .ok w)
        (move exEnv (exParticleAt exEnv (2828 / 1000, 1)) (exWorld [])).1
        (move exEnv (exParticleAt exEnv (2828 / 1000, 1)) (exWorld [])).2.1)).map
      (fun r => (r.1.ipos, r.2.updated, (r.2.map.dat (2, 1)).map sec.size,
        (r.2.map.dat (3, 1)).map sec.size)) =
      some ((2, 1), [(2, 1), (2, 1)], [0, 3 / 200], []) ∧
    (floodOutcome (floodRun exEnv 5
        (move exEnv (exParticleAt exEnv (2828 / 1000, 1)) (exWorld [])).1
        (move exEnv (exParticleAt exEnv (2828 / 1000, 1)) (exWorld [])).2.1)).map
      (fun r => (r.1.ipos, r.2.updated.getLast?, r.2.updated.head?)) =
      some ((2, 1), some (2, 1), some (2, 1)) := by
  decide!

/-! ## The evaporation step of `interact` -/

/-- C17: the evaporation step of `interact` (after the sediment exchange, which
leaves the particle `(exchange env p w).1` with sediment fraction s, volume
v ≥ 0 and evaporation rate e < 1) multiplies the volume by 1 − e; when
s/(1−e) ≤ 1 the clamp does not fire, the sediment fraction becomes s/(1−e) and
sediment × volume is unchanged; when s/(1−e) > 1 the fraction becomes 1 and
sediment × volume does not grow. -/
theorem evaporation_conserves_sediment (env : Env) (p : WaterParticle) (w : World)
    (hv : 0 ≤ (exchange env p w).1.volume)
    (he : (exchange env p w).1.evaprate < 1) :
    (interact env p w).1.volume =
      (exchange env p w).1.volume * (1 - (exchange env p w).1.evaprate) ∧
    ((exchange env p w).1.sediment / (1 - (exchange env p w).1.evaprate) ≤ 1 →
      (interact env p w).1.sediment =
        (exchange env p w).1.sediment / (1 - (exchange env p w).1.evaprate) ∧
      (interact env p w).1.sediment * (interact env p w).1.volume =
        (exchange env p w).1.sediment * (exchange env p w).1.volume) ∧
    (1 < (exchange env p w).1.sediment / (1 - (exchange env p w).1.evaprate) →
      (interact env p w).1.sediment = 1 ∧
      (interact env p w).1.sediment * (interact env p w).1.volume ≤
        (exchange env p w).1.sediment * (exchange env p w).1.volume) := by
  have h1 : 0 < 1 - (exchange env p w).1.evaprate := by linarith
  refine ⟨rfl, ?_, ?_⟩
  · intro hc
    have hsed : (interact env p w).1.sediment =
        (exchange env p w).1.sediment / (1 - (exchange env p w).1.evaprate) := by
      simp only [interact]
      rw [if_neg (not_lt.mpr hc)]
    refine ⟨hsed, ?_⟩
    rw [hsed]
    simp only [interact]
    field_simp
    ring
  · intro hc
    have hsed : (interact env p w).1.sediment = 1 := by
      simp only [interact]
      rw [if_pos hc]
    refine ⟨hsed, ?_⟩
    rw [hsed]
    simp only [interact]
    rw [lt_div_iff₀ h1] at hc
    nlinarith

/-- C17 at a particle of volume 1 and sediment fraction 1 on the slope of
`exEnvDrop`, where the exchange changes neither: the evaporation rate is 1/100,
the clamp fires and sediment × volume falls from 1 to 99/100. -/
theorem evaporation_conserves_sediment_witness :
    (interact exEnvDrop (exParticle exEnvDrop 1 1 3) (exWorld exThin)).1.volume =
      (exchange exEnvDrop (exParticle exEnvDrop 1 1 3) (exWorld exThin)).1.volume *
        (1 - (exchange exEnvDrop (exParticle exEnvDrop 1 1 3) (exWorld exThin)).1.evaprate) ∧
    ((exchange exEnvDrop (exParticle exEnvDrop 1 1 3) (exWorld exThin)).1.sediment /
        (1 - (exchange exEnvDrop (exParticle exEnvDrop 1 1 3) (exWorld exThin)).1.evaprate) ≤ 1 →
      (interact exEnvDrop (exParticle exEnvDrop 1 1 3) (exWorld exThin)).1.sediment =
        (exchange exEnvDrop (exParticle exEnvDrop 1 1 3) (exWorld exThin)).1.sediment /
          (1 - (exchange exEnvDrop (exParticle exEnvDrop 1 1 3) (exWorld exThin)).1.evaprate) ∧
      (interact exEnvDrop (exParticle exEnvDrop 1 1 3) (exWorld exThin)).1.sediment *
          (interact exEnvDrop (exParticle exEnvDrop 1 1 3) (exWorld exThin)).1.volume =
        (exchange exEnvDrop (exParticle exEnvDrop 1 1 3) (exWorld exThin)).1.sediment *
          (exchange exEnvDrop (exParticle exEnvDrop 1 1 3) (exWorld exThin)).1.volume) ∧
    (1 < (exchange exEnvDrop (exParticle exEnvDrop 1 1 3) (exWorld exThin)).1.sediment /
        (1 - (exchange exEnvDrop (exParticle exEnvDrop 1 1 3) (exWorld exThin)).1.evaprate) →
      (interact exEnvDrop (exParticle exEnvDrop 1 1 3) (exWorld exThin)).1.sediment = 1 ∧
      (interact exEnvDrop (exParticle exEnvDrop 1 1 3) (exWorld exThin)).1.sediment *
          (interact exEnvDrop (exParticle exEnvDrop 1 1 3) (exWorld exThin)).1.volume ≤
        (exchange exEnvDrop (exParticle exEnvDrop 1 1 3) (exWorld exThin)).1.sediment *
          (exchange exEnvDrop (exParticle exEnvDrop 1 1 3) (exWorld exThin)).1.volume) :=
  evaporation_conserves_sediment exEnvDrop (exParticle exEnvDrop 1 1 3) (exWorld exThin)
    (by rw [exchange_volume]; norm_num [exParticle])
    (by rw [exchange_evaprate]; norm_num [exParticle])

/-! ## Seepage in exact arithmetic: the saturation range -/

theorem satOk_set {soils : SurfType → SurfParam} {col : Column} (h : SatOk soils col)
    (j : Nat) (a : sec)
    (ha : 0 < a.size ∧ 0 < (soils a.type).porosity ∧ 0 ≤ a.saturation ∧ a.saturation ≤ 1) :
    SatOk soils (col.set j a) := by
  intro s hs
  rcases List.mem_or_eq_of_mem_set hs with h1 | h1
  · exact h s h1
  · rw [h1]; exact ha

theorem satOk_remove {soils : SurfType → SurfParam} {col : Column} (h : SatOk soils col)
    (x : ℚ) : SatOk soils (col.remove x).1 := by
  unfold Column.remove
  cases hl : col.getLast? with
  | none => exact h
  | some t =>
    have ht := h t (List.mem_of_getLast?_eq_some hl)
    simp only []
    split
    · exact h
    · split
      · rename_i hx
        intro s hs
        rcases List.mem_append.mp hs with h1 | h1
        · exact h s (List.dropLast_subset col h1)
        · rw [List.mem_singleton] at h1
          rw [h1]
          exact ⟨by simp only []; linarith, ht.2.1, ht.2.2.1, ht.2.2.2⟩
      · intro s hs
        exact h s (List.dropLast_subset col hs)

/-- A `map.remove` leaves the layers below the top of the column alone. -/
theorem column_remove_getElem (col : Column) (x : ℚ) (d : Nat) (hd : d + 1 < col.length) :
    (col.remove x).1[d]? = col[d]? := by
  unfold Column.remove
  cases hl : col.getLast? with
  | none => rfl
  | some t =>
    simp only []
    have hdl : d < col.dropLast.length := by rw [List.length_dropLast]; omega
    have hdrop : col.dropLast[d]? = col[d]? := by
      rw [List.getElem?_eq_getElem hdl, List.getElem?_eq_getElem (by omega), List.getElem_dropLast]
    split
    · rfl
    · split
      · rw [List.getElem?_append_left hdl, hdrop]
      · exact hdrop

theorem seepTransfer_le (soils : SurfType → SurfParam) (top prev : sec) :
    seepTransfer soils top prev ≤ top.size * top.saturation * (soils top.type).porosity ∧
    seepTransfer soils top prev ≤
      prev.size * (1 - prev.saturation) * (soils prev.type).porosity := by
  unfold seepTransfer
  simp only []
  split
  · rename_i h
    exact ⟨le_refl _, le_of_lt h⟩
  · rename_i h
    exact ⟨not_lt.mp h, le_refl _⟩

/-- One transfer of `seep` keeps the saturations in [0,1]: the upper layer loses
at most the water it holds, the lower layer gains at most its empty capacity. -/
theorem seepPair_sat (soils : SurfType → SurfParam) (Air : SurfType) (d : Nat) (col : Column)
    (top prev : sec) (hok : SatOk soils col) (htop : col[d + 1]? = some top)
    (hprev : col[d]? = some prev) (hpos : 0 < seepTransfer soils top prev) :
    SatOk soils (seepPair soils Air Column.remove d col top prev) := by
  have hlen : d + 1 < col.length := by
    by_contra hc
    rw [List.getElem?_eq_none (by omega)] at htop
    cases htop
  obtain ⟨hts, htp, hts0, hts1⟩ := hok top (List.getElem?_mem htop)
  obtain ⟨hps, hpp, hps0, hps1⟩ := hok prev (List.getElem?_mem hprev)
  obtain ⟨hle1, hle2⟩ := seepTransfer_le soils top prev
  have hfin : ∀ col1 : Column, SatOk soils col1 → col1[d]? = some prev →
      SatOk soils (match col1[d]? with
        | some prev1 => col1.set d { prev1 with saturation := prev1.saturation +
            ((if seepTransfer soils top prev < 1 / 1000000 then (1 : ℚ) else 1) *
              seepTransfer soils top prev) / (prev1.size * (soils prev.type).porosity) }
        | none => col1) := by
    intro col1 h1 h2
    rw [h2]
    simp only [ite_self, one_mul]
    apply satOk_set h1
    have hden : 0 < prev.size * (soils prev.type).porosity := mul_pos hps hpp
    refine ⟨hps, hpp, ?_, ?_⟩
    · simp only []
      have : 0 ≤ seepTransfer soils top prev / (prev.size * (soils prev.type).porosity) :=
        div_nonneg (le_of_lt hpos) (le_of_lt hden)
      linarith
    · simp only []
      have : seepTransfer soils top prev / (prev.size * (soils prev.type).porosity) ≤
          1 - prev.saturation := by
        rw [div_le_iff₀ hden]
        linarith
      linarith
  unfold seepPair
  simp only []
  by_cases hair : top.type = Air
  · rw [if_pos hair]
    apply hfin
    · exact satOk_remove hok _
    · rw [column_remove_getElem col _ d hlen]
      exact hprev
  · rw [if_neg hair]
    apply hfin
    · apply satOk_set hok
      have hden : 0 < top.size * (soils top.type).porosity := mul_pos hts htp
      simp only [ite_self, one_mul]
      refine ⟨hts, htp, ?_, ?_⟩
      · have : seepTransfer soils top prev / (top.size * (soils top.type).porosity) ≤
            top.saturation := by
          rw [div_le_iff₀ hden]
          linarith
        linarith
      · have : 0 ≤ seepTransfer soils top prev / (top.size * (soils top.type).porosity) :=
          div_nonneg (le_of_lt hpos) (le_of_lt hden)
        linarith
    · rw [List.getElem?_set]
      rw [if_neg (by omega)]
      exact hprev

theorem seepLoop_sat (soils : SurfType → SurfParam) (Air : SurfType) :
    ∀ (d : Nat) (col : Column), SatOk soils col →
      SatOk soils (seepLoop soils Air Column.remove d col) := by
  intro d
  induction d with
  | zero => intro col h; exact h
  | succ d ih =>
    intro col hok
    unfold seepLoop
    cases htop : col[d + 1]? with
    | none => exact hok
    | some top =>
      cases hprev : col[d]? with
      | none => exact hok
      | some prev =>
        simp only []
        split
        · rename_i hpos
          exact ih _ (seepPair_sat soils Air d col top prev hok htop hprev hpos)
        · exact ih _ hok

/-- In exact arithmetic, without the rounding of `double`: if every layer of the
column of the cell has positive thickness, positive porosity and saturation in
[0,1], then after a pass of `seep` every layer that remains in the column again
has positive thickness, positive porosity and saturation in [0,1]; the other
columns are untouched. -/
theorem seep_saturation_exact (env : Env) (pos : Vec2) (w : World)
    (hok : SatOk env.soils (w.map.dat (toIVec2 pos))) :
    SatOk env.soils ((seep env pos w).map.dat (toIVec2 pos)) ∧
    (∀ s ∈ (seep env pos w).map.dat (toIVec2 pos), 0 ≤ s.saturation ∧ s.saturation ≤ 1) ∧
    (∀ q, q ≠ toIVec2 pos → (seep env pos w).map.dat q = w.map.dat q) := by
  have h1 : SatOk env.soils ((seep env pos w).map.dat (toIVec2 pos)) := by
    rw [seep_dat]
    exact seepLoop_sat env.soils env.Air _ _ hok
  refine ⟨h1, fun s hs => ⟨(h1 s hs).2.2.1, (h1 s hs).2.2.2⟩, ?_⟩
  intro q hq
  unfold seep
  simp only []
  split
  · rfl
  · simp only [World.update, Layermap.setColumn, if_neg hq]

theorem exThreeLayers_seep :
    (seep exEnv (0, 0) (exWorld exThreeLayers)).map.dat (toIVec2 (0, 0)) =
      [{ type := 1, size := 10, floor := 0, saturation := 1 / 10 },
       { type := 2, size := 1, floor := 10, saturation := 0 },
       { type := 0, size := 7 / 10, floor := 11, saturation := 1 }] := by
  decide!

/-! ## The higher side of a cascade pair -/

theorem headDiff_eq (env : Env) (a b : Option sec) :
    headDiff env a b =
      (floorValue a + waterHeight env.Air a - floorValue b - waterHeight env.Air b) *
        env.SCALE / 80 := rfl

/-- C19: in `cascade`, for SCALE > 0.  When every present top layer of the pair
has non-negative floor and non-negative thickness, the pair never reads
`top->type` through an absent layer, and whenever the head difference is
non-zero the side selected as higher has a top layer.  Without the
precondition, a present column with floor + thickness < 0 next to an empty
column (on either side of the pair) makes the empty side the higher one and the
read goes through the absent layer. -/
theorem cascade_top_present (env : Env) (ipos npos : IVec2) (m : Layermap)
    (hscale : 0 < env.SCALE) :
    ((∀ s, m.top ipos = some s → 0 ≤ s.floor ∧ 0 ≤ s.size) →
     (∀ s, m.top npos = some s → 0 ≤ s.floor ∧ 0 ≤ s.size) →
      pairAction env ipos npos m ≠ .nullTop ∧
      (headDiff env (m.top ipos) (m.top npos) ≠ 0 →
        (if headDiff env (m.top ipos) (m.top npos) > 0 then m.top ipos else m.top npos) ≠
          none)) ∧
    (∀ s, m.top ipos = some s → s.floor + s.size < 0 → m.top npos = none →
      headDiff env (m.top ipos) (m.top npos) < 0 ∧ pairAction env ipos npos m = .nullTop) ∧
    (∀ s, m.top npos = some s → s.floor + s.size < 0 → m.top ipos = none →
      headDiff env (m.top ipos) (m.top npos) > 0 ∧ pairAction env ipos npos m = .nullTop) := by
  have h80 : (0 : ℚ) < env.SCALE / 80 := by positivity
  refine ⟨?_, ?_, ?_⟩
  · intro hA hB
    have key : headDiff env (m.top ipos) (m.top npos) ≠ 0 →
        (if headDiff env (m.top ipos) (m.top npos) > 0 then m.top ipos else m.top npos) ≠
          none := by
      intro hne
      by_cases hpos : headDiff env (m.top ipos) (m.top npos) > 0
      · rw [if_pos hpos]
        intro hnone
        rw [hnone, headDiff_eq] at hpos
        cases hb : m.top npos with
        | none =>
          rw [hb] at hpos
          simp [floorValue, waterHeight] at hpos
        | some b =>
          rw [hb] at hpos
          obtain ⟨h1, h2⟩ := hB b hb
          rw [waterHeight_some] at hpos
          simp only [floorValue, waterHeight] at hpos
          have : (0 + 0 - b.floor - b.size) * env.SCALE / 80 ≤ 0 := by
            rw [mul_div_assoc]
            exact mul_nonpos_of_nonpos_of_nonneg (by linarith) (le_of_lt h80)
          linarith
      · rw [if_neg hpos]
        intro hnone
        have hlt : headDiff env (m.top ipos) (m.top npos) < 0 :=
          lt_of_le_of_ne (not_lt.mp hpos) hne
        rw [hnone, headDiff_eq] at hlt
        cases ha : m.top ipos with
        | none =>
          rw [ha] at hlt
          simp [floorValue, waterHeight] at hlt
        | some a =>
          rw [ha] at hlt
          obtain ⟨h1, h2⟩ := hA a ha
          rw [waterHeight_some] at hlt
          simp only [floorValue, waterHeight] at hlt
          have : 0 ≤ (a.floor + a.size - 0 - 0) * env.SCALE / 80 := by
            rw [mul_div_assoc]
            exact mul_nonneg (by linarith) (le_of_lt h80)
          linarith
    refine ⟨?_, key⟩
    unfold pairAction
    simp only []
    by_cases hz : headDiff env (m.top ipos) (m.top npos) = 0
    · rw [if_pos hz]
      intro h
      cases h
    · rw [if_neg hz]
      have hk := key hz
      cases ht : (if headDiff env (m.top ipos) (m.top npos) > 0 then m.top ipos
          else m.top npos) with
      | none => exact absurd ht hk
      | some t =>
        simp only []
        split
        · intro h; cases h
        · split
          · intro h; cases h
          · split
            · intro h; cases h
            · intro h; cases h
  · intro s hs hneg hnone
    have hd : headDiff env (m.top ipos) (m.top npos) < 0 := by
      rw [headDiff_eq, hs, hnone, waterHeight_some]
      simp only [floorValue, waterHeight]
      rw [mul_div_assoc]
      exact mul_neg_of_neg_of_pos (by linarith) h80
    refine ⟨hd, ?_⟩
    unfold pairAction
    simp only []
    rw [if_neg (ne_of_lt hd), if_neg (not_lt.mpr (le_of_lt hd)), hnone]
  · intro s hs hneg hnone
    have hd : headDiff env (m.top ipos) (m.top npos) > 0 := by
      rw [headDiff_eq, hs, hnone, waterHeight_some]
      simp only [floorValue, waterHeight]
      rw [mul_div_assoc]
      exact mul_pos (by linarith) h80
    refine ⟨hd, ?_⟩
    unfold pairAction
    simp only []
    rw [if_neg (ne_of_gt hd), if_pos hd, hnone]

theorem exSunk_top :
    exSunk.map.top (0, 0) = some { type := 1, size := 1, floor := -3, saturation := 0 } ∧
    exSunk.map.top (1, 0) = none := by
  constructor
  · simp [exSunk, Layermap.top, Column.top]
  · simp [exSunk, Layermap.top, Column.top]

/-- C19 at the pair (0,0), (1,0): in `exPond`, where both top layers have
non-negative floor and thickness, the pair does not read an absent layer; in
`exSunk`, where the column of (0,0) has its surface at −2 and (1,0) is empty,
the head difference is negative, the empty side is the higher one, and the pair
reads its absent layer. -/
theorem cascade_top_present_witness :
    pairAction exEnv (0, 0) (1, 0) exPond.map ≠ .nullTop ∧
    (headDiff exEnv (exSunk.map.top (0, 0)) (exSunk.map.top (1, 0)) < 0 ∧
      pairAction exEnv (0, 0) (1, 0) exSunk.map = .nullTop) :=
  ⟨((cascade_top_present exEnv (0, 0) (1, 0) exPond.map (by norm_num [exEnv])).1
      (by
        intro s hs
        rw [exPond_top.1] at hs
        cases hs
        norm_num)
      (by
        intro s hs
        rw [exPond_top.2] at hs
        cases hs
        norm_num)).1,
   (cascade_top_present exEnv (0, 0) (1, 0) exSunk.map (by norm_num [exEnv])).2.1 _
      exSunk_top.1 (by norm_num) exSunk_top.2⟩

/-! ## Cell indices -/

theorem roundQ_bounds (x : ℚ) (d : Int) (h0 : 0 ≤ x) (h1 : x ≤ (d : ℚ) - 1) :
    0 ≤ roundQ x ∧ roundQ x < d := by
  unfold roundQ
  rw [if_pos h0]
  constructor
  · exact Int.floor_nonneg.mpr (by linarith)
  · exact Int.floor_lt.mpr (by linarith)

theorem cellOk_of_bounds (m : Layermap) (c : IVec2) (hx : 0 ≤ c.1 ∧ c.1 < m.dim.1)
    (hy : 0 ≤ c.2 ∧ c.2 < m.dim.2) : CellOk m c := by
  refine ⟨hx, hy, ?_, ?_⟩
  · unfold cellIndex
    have : 0 ≤ c.2 * m.dim.1 := mul_nonneg hy.1 (by omega)
    omega
  · unfold cellIndex
    have h1 : c.2 + 1 ≤ m.dim.2 := by omega
    have h2 : 0 ≤ m.dim.1 := by omega
    have h3 : (c.2 + 1) * m.dim.1 ≤ m.dim.2 * m.dim.1 := mul_le_mul_of_nonneg_right h1 h2
    nlinarith

theorem roundVec_cellOk (m : Layermap) (pos : Vec2)
    (hx : 0 ≤ pos.1 ∧ pos.1 ≤ (m.dim.1 : ℚ) - 1) (hy : 0 ≤ pos.2 ∧ pos.2 ≤ (m.dim.2 : ℚ) - 1) :
    CellOk m (roundVec pos) :=
  cellOk_of_bounds m (roundVec pos) (roundQ_bounds pos.1 m.dim.1 hx.1 hx.2)
    (roundQ_bounds pos.2 m.dim.2 hy.1 hy.2)

theorem tmod_bounds (n : Nat) (d : Int) (hd : 1 ≤ d) :
    (0 : ℚ) ≤ (Int.tmod n d : ℚ) ∧ (Int.tmod n d : ℚ) ≤ (d : ℚ) - 1 := by
  have h0 : 0 ≤ Int.tmod n d := Int.tmod_nonneg d (Int.ofNat_nonneg n)
  have h1 : Int.tmod n d < d := Int.tmod_lt_of_pos n (by omega)
  have h2 : Int.tmod n d ≤ d - 1 := by omega
  constructor
  · exact_mod_cast h0
  · exact_mod_cast h2

/-- C20: cell indices used by `move` stay inside the grid.  For a grid with
dimensions ≥ 1: `move` reads and writes the traffic arrays at the flat index of
the cell round(pos), on the unchanged grid; for every position `move` accepts
(each coordinate ≥ 0 and < dim − 1), and `move` reports true only with such a
position, and for the position the constructor produces (whose cell the
constructor also stores), the rounded cell (x, y) has 0 ≤ x < dim.x and
0 ≤ y < dim.y and its flat index y·dim.x + x lies in [0, dim.x·dim.y). -/
theorem move_cell_index_in_grid (env : Env) (p : WaterParticle) (w : World)
    (hdim : 1 ≤ w.map.dim.1 ∧ 1 ≤ w.map.dim.2) :
    ((move env p w).1.ipos = roundVec p.pos ∧ (move env p w).2.1.map = w.map ∧
      ∀ i, i ≠ cellIndex w.map (roundVec p.pos) → (move env p w).2.1.track i = w.track i) ∧
    (∀ pos, moveAccepts w.map pos → CellOk w.map (roundVec pos)) ∧
    ((move env p w).2.2 = true → moveAccepts w.map (move env p w).1.pos ∧
      CellOk w.map (roundVec (move env p w).1.pos)) ∧
    ((WaterParticle.new env w).1.ipos = roundVec (WaterParticle.new env w).1.pos ∧
      CellOk w.map (roundVec (WaterParticle.new env w).1.pos)) := by
  have hacc : ∀ pos, moveAccepts w.map pos → CellOk w.map (roundVec pos) := by
    intro pos h
    exact roundVec_cellOk w.map pos ⟨h.1.1, le_of_lt h.2.1⟩ ⟨h.1.2, le_of_lt h.2.2⟩
  refine ⟨⟨?_, ?_, ?_⟩, hacc, ?_, rfl, ?_⟩
  · unfold move
    simp only []
    split
    · rfl
    · split <;> rfl
  · unfold move
    simp only []
    split
    · rfl
    · split <;> rfl
  · intro i hi
    unfold move
    simp only []
    split
    · simp only [updatefrequency, if_neg hi]
    · split <;> simp only [updatefrequency, if_neg hi]
  · intro ht
    have hc := move_cases env p w
    have hm : moveAccepts w.map (move env p w).1.pos := by
      by_cases hs : moveStuck env p w
      · rw [(hc.1 hs).1] at ht
        cases ht
      · by_cases hin : 0 ≤ (moveTarget env p w).1 ∧ 0 ≤ (moveTarget env p w).2 ∧
            (moveTarget env p w).1 < (w.map.dim.1 : ℚ) - 1 ∧
            (moveTarget env p w).2 < (w.map.dim.2 : ℚ) - 1
        · rw [(hc.2.1 hs).1]
          exact ⟨⟨hin.1, hin.2.1⟩, hin.2.2.1, hin.2.2.2⟩
        · rw [(hc.2.2.1 hs hin).1] at ht
          cases ht
    exact ⟨hm, hacc _ hm⟩
  · exact roundVec_cellOk w.map _ (tmod_bounds _ _ hdim.1) (tmod_bounds _ _ hdim.2)

theorem exEnvSlope_move_accepted :
    (move exEnvSlope (exParticleAt exEnvSlope (1, 1)) (exWorld [])).2.2 = true ∧
    (move exEnvSlope (exParticleAt exEnvSlope (1, 1)) (exWorld [])).1.pos = (2414 / 1000, 1) ∧
    roundVec (move exEnvSlope (exParticleAt exEnvSlope (1, 1)) (exWorld [])).1.pos = (2, 1) ∧
    cellIndex (exWorld []).map (2, 1) = 6 := by
  decide!

/-- C20 on the 4×4 grid of `exWorld`, for the particle at (1, 1) on the slope of
`exEnvSlope`: `move` advances it to (2.414, 1) and reports true, the position
is accepted and its cell (2, 1), of flat index 6, lies in the grid; the cell of
a fresh particle lies in the grid as well. -/
theorem move_cell_index_in_grid_witness :
    (move exEnvSlope (exParticleAt exEnvSlope (1, 1)) (exWorld [])).2.2 = true ∧
    (moveAccepts (exWorld []).map
        (move exEnvSlope (exParticleAt exEnvSlope (1, 1)) (exWorld [])).1.pos ∧
      CellOk (exWorld []).map
        (roundVec (move exEnvSlope (exParticleAt exEnvSlope (1, 1)) (exWorld [])).1.pos)) ∧
    CellOk (exWorld []).map (roundVec (WaterParticle.new exEnvSlope (exWorld [])).1.pos) :=
  ⟨exEnvSlope_move_accepted.1,
   (move_cell_index_in_grid exEnvSlope (exParticleAt exEnvSlope (1, 1)) (exWorld [])
      ⟨by decide, by decide⟩).2.2.1 exEnvSlope_move_accepted.1,
   (move_cell_index_in_grid exEnvSlope (exParticleAt exEnvSlope (1, 1)) (exWorld [])
      ⟨by decide, by decide⟩).2.2.2.2⟩

/-! ## Double-precision arithmetic -/

theorem roundEven_err (q : ℚ) : |(roundEven q : ℚ) - q| ≤ 1 / 2 := by
  have h1 : (⌊q⌋ : ℚ) ≤ q := Int.floor_le q
  have h2 : q < (⌊q⌋ : ℚ) + 1 := Int.lt_floor_add_one q
  unfold roundEven
  rw [abs_le]
  split
  · constructor <;> linarith
  · split
    · push_cast
      constructor <;> linarith
    · split
      · constructor <;> linarith
      · push_cast
        constructor <;> linarith

theorem roundEven_nonneg (q : ℚ) (h : 0 ≤ q) : 0 ≤ roundEven q := by
  have h1 : 0 ≤ ⌊q⌋ := Int.floor_nonneg.mpr h
  unfold roundEven
  split
  · exact h1
  · split
    · omega
    · split
      · exact h1
      · omega

theorem roundEven_nonpos (q : ℚ) (h : q ≤ 0) : roundEven q ≤ 0 := by
  rcases eq_or_lt_of_le h with h0 | hlt
  · subst h0
    simp [roundEven]
  · have h1 : ⌊q⌋ ≤ -1 := by
      have : ⌊q⌋ < 0 := Int.floor_lt.mpr (by exact_mod_cast hlt)
      omega
    unfold roundEven
    split
    · omega
    · split
      · omega
      · split
        · omega
        · omega

theorem ulp_pos (q : ℚ) : (0 : ℚ) < 2 ^ ulpExp q := zpow_pos (by norm_num) _

theorem fl_zero : fl 0 = 0 := by
  simp [fl, roundEven]

/-- The rounding at known values: 0.1 and 1/3 (inexact), 3·0.3f (exact), a tie
at 2^53 + 1 (to the even neighbour 2^53), 2^53 + 3 (to 2^53 + 4), and the
subnormal range (half the smallest number to 0, three halves of it to twice
it, the smallest number to itself). -/
theorem fl_examples :
    fl (1 / 10) = 3602879701896397 / 36028797018963968 ∧
    fl (3 * (5033165 / 16777216)) = 15099495 / 16777216 ∧
    fl (2 ^ 53 + 1) = 2 ^ 53 ∧ fl (2 ^ 53 + 3) = 2 ^ 53 + 4 ∧
    fl (1 / 3) = 6004799503160661 / 18014398509481984 ∧
    fl (1 / 2 ^ 1075) = 0 ∧ fl (3 / 2 ^ 1075) = 1 / 2 ^ 1073 ∧ fl (1 / 2 ^ 1074) = 1 / 2 ^ 1074 := by
  decide!

theorem fl_nonneg (q : ℚ) (h : 0 ≤ q) : 0 ≤ fl q := by
  unfold fl
  have h1 : 0 ≤ roundEven (q / 2 ^ ulpExp q) :=
    roundEven_nonneg _ (div_nonneg h (le_of_lt (ulp_pos q)))
  exact mul_nonneg (by exact_mod_cast h1) (le_of_lt (ulp_pos q))

theorem fl_nonpos (q : ℚ) (h : q ≤ 0) : fl q ≤ 0 := by
  unfold fl
  have h1 : roundEven (q / 2 ^ ulpExp q) ≤ 0 :=
    roundEven_nonpos _ (div_nonpos_of_nonpos_of_nonneg h (le_of_lt (ulp_pos q)))
  exact mul_nonpos_of_nonpos_of_nonneg (by exact_mod_cast h1) (le_of_lt (ulp_pos q))

theorem pos_of_fl_pos (q : ℚ) (h : 0 < fl q) : 0 < q := by
  by_contra hc
  exact absurd (fl_nonpos q (not_lt.mp hc)) (not_le.mpr h)

theorem bitLength_zero (f : Nat) : bitLength f 0 = 0 := by
  cases f <;> simp [bitLength]

theorem bitLength_spec : ∀ (f n : Nat), n ≤ f → n ≠ 0 →
    2 ^ (bitLength f n - 1) ≤ n ∧ n < 2 ^ bitLength f n := by
  intro f
  induction f with
  | zero =>
    intro n h1 h2
    omega
  | succ f ih =>
    intro n h1 h2
    rw [bitLength, if_neg h2]
    by_cases h : n / 2 = 0
    · rw [h, bitLength_zero]
      have : n = 1 := by omega
      subst this
      simp
    · obtain ⟨i1, i2⟩ := ih (n / 2) (by omega) h
      have hpos : 1 ≤ bitLength f (n / 2) := by
        by_contra hc
        have h0 : bitLength f (n / 2) = 0 := by omega
        rw [h0] at i2
        simp at i2
        exact h i2
      have e1 : bitLength f (n / 2) + 1 - 1 = (bitLength f (n / 2) - 1) + 1 := by omega
      rw [e1, pow_succ, pow_succ]
      constructor <;> omega

theorem log2Nat_le (n : Nat) (h : n ≠ 0) : 2 ^ log2Nat n ≤ n :=
  (bitLength_spec n n (le_refl n) h).1

theorem lt_log2Nat (n : Nat) (h : n ≠ 0) : n < 2 ^ (log2Nat n + 1) := by
  have h1 := bitLength_spec n n (le_refl n) h
  have hpos : 1 ≤ bitLength n n := by
    by_contra hc
    have h0 : bitLength n n = 0 := by omega
    have h2 := h1.2
    rw [h0] at h2
    simp at h2
    exact h h2
  have e : log2Nat n + 1 = bitLength n n := by
    unfold log2Nat
    omega
  rw [e]
  exact h1.2

theorem abs_eq_natAbs_div (q : ℚ) : |q| = (q.num.natAbs : ℚ) / (q.den : ℚ) := by
  have h := Rat.num_div_den q
  have hd : (0 : ℚ) < (q.den : ℚ) := by exact_mod_cast q.den_pos
  calc |q| = |(q.num : ℚ) / (q.den : ℚ)| := by rw [h]
    _ = |(q.num : ℚ)| / (q.den : ℚ) := by rw [abs_div, abs_of_pos hd]
    _ = (q.num.natAbs : ℚ) / (q.den : ℚ) := by
      rw [Nat.cast_natAbs, Int.cast_abs]

/-- The exponent `binExp` is the floor of the binary logarithm. -/
theorem binExp_spec (q : ℚ) (hq : q ≠ 0) :
    (2 : ℚ) ^ binExp q ≤ |q| ∧ |q| < (2 : ℚ) ^ (binExp q + 1) := by
  have hn : q.num.natAbs ≠ 0 := by
    intro h
    exact hq (Rat.num_eq_zero.mp (Int.natAbs_eq_zero.mp h))
  have hd : q.den ≠ 0 := q.den_nz
  have hdq : (0 : ℚ) < (q.den : ℚ) := by exact_mod_cast q.den_pos
  have n1 : ((2 : ℚ) ^ log2Nat q.num.natAbs) ≤ (q.num.natAbs : ℚ) := by
    exact_mod_cast log2Nat_le _ hn
  have n2 : (q.num.natAbs : ℚ) < (2 : ℚ) ^ (log2Nat q.num.natAbs + 1) := by
    exact_mod_cast lt_log2Nat _ hn
  have d1 : ((2 : ℚ) ^ log2Nat q.den) ≤ (q.den : ℚ) := by
    exact_mod_cast log2Nat_le _ hd
  have d2 : (q.den : ℚ) < (2 : ℚ) ^ (log2Nat q.den + 1) := by
    exact_mod_cast lt_log2Nat _ hd
  have habs := abs_eq_natAbs_div q
  have e1 : (2 : ℚ) ^ ((log2Nat q.num.natAbs : Int) - (log2Nat q.den : Int) - 1) =
      (2 : ℚ) ^ log2Nat q.num.natAbs / (2 : ℚ) ^ (log2Nat q.den + 1) := by
    rw [sub_sub, zpow_sub₀ (by norm_num)]
    norm_cast
  have e2 : (2 : ℚ) ^ ((log2Nat q.num.natAbs : Int) - (log2Nat q.den : Int) + 1) =
      (2 : ℚ) ^ (log2Nat q.num.natAbs + 1) / (2 : ℚ) ^ log2Nat q.den := by
    rw [sub_add_eq_add_sub, zpow_sub₀ (by norm_num)]
    norm_cast
  unfold binExp
  split
  · rename_i h
    refine ⟨h, ?_⟩
    rw [e2, habs, div_lt_div_iff₀ hdq (by positivity)]
    have p1 : (0 : ℚ) < (2 : ℚ) ^ log2Nat q.den := by positivity
    calc (q.num.natAbs : ℚ) * (2 : ℚ) ^ log2Nat q.den
        < (2 : ℚ) ^ (log2Nat q.num.natAbs + 1) * (2 : ℚ) ^ log2Nat q.den :=
          mul_lt_mul_of_pos_right n2 p1
      _ ≤ (2 : ℚ) ^ (log2Nat q.num.natAbs + 1) * (q.den : ℚ) :=
          mul_le_mul_of_nonneg_left d1 (by positivity)
  · rename_i h
    constructor
    · rw [e1, habs, div_le_div_iff₀ (by positivity) hdq]
      calc (2 : ℚ) ^ log2Nat q.num.natAbs * (q.den : ℚ)
          ≤ (q.num.natAbs : ℚ) * (q.den : ℚ) := mul_le_mul_of_nonneg_right n1 (le_of_lt hdq)
        _ ≤ (q.num.natAbs : ℚ) * (2 : ℚ) ^ (log2Nat q.den + 1) :=
          mul_le_mul_of_nonneg_left (le_of_lt d2) (by positivity)
    · rw [sub_add_cancel]
      exact not_le.mp h

/-- The spacing around a rational is at most 2^-52 times its magnitude, or the
subnormal spacing 2^-1074. -/
theorem ulp_le (q : ℚ) (hq0 : q ≠ 0) :
    (2 : ℚ) ^ ulpExp q ≤ 2 * (uRound * |q| + etaRound) := by
  unfold ulpExp uRound etaRound
  rcases le_total (binExp q - 52) (-1074) with h | h
  · rw [max_eq_right h]
    have : (2 : ℚ) ^ (-1074 : Int) = 2 * (1 / 2 ^ 1075) := by
      rw [zpow_neg]
      norm_num
    have h0 : 0 ≤ (1 : ℚ) / 2 ^ 53 * |q| := mul_nonneg (by positivity) (abs_nonneg q)
    linarith
  · rw [max_eq_left h]
    have hlog : (2 : ℚ) ^ binExp q ≤ |q| := (binExp_spec q hq0).1
    have hsplit : (2 : ℚ) ^ (binExp q - 52) = 2 ^ binExp q * (1 / 2 ^ 52) := by
      rw [zpow_sub₀ (by norm_num)]
      norm_num [div_eq_mul_inv]
    rw [hsplit]
    have h3 : (2 : ℚ) ^ binExp q * (1 / 2 ^ 52) ≤ |q| * (1 / 2 ^ 52) :=
      mul_le_mul_of_nonneg_right hlog (by positivity)
    have h4 : (0 : ℚ) ≤ 1 / 2 ^ 1075 := by positivity
    have h5 : |q| * (1 / 2 ^ 52) = 2 * (1 / 2 ^ 53 * |q|) := by ring
    linarith

/-- The standard model of a `double` operation: relative error at most 2^-53,
or absolute error at most 2^-1075 in the subnormal range. -/
theorem fl_err (q : ℚ) : |fl q - q| ≤ uRound * |q| + etaRound := by
  by_cases hq0 : q = 0
  · subst hq0
    rw [fl_zero]
    norm_num [uRound, etaRound]
  have hp := ulp_pos q
  have hr := roundEven_err (q / 2 ^ ulpExp q)
  have he : fl q - q = ((roundEven (q / 2 ^ ulpExp q) : ℚ) - q / 2 ^ ulpExp q) * 2 ^ ulpExp q := by
    unfold fl
    field_simp
  rw [he, abs_mul, abs_of_pos hp]
  have h1 : |(roundEven (q / 2 ^ ulpExp q) : ℚ) - q / 2 ^ ulpExp q| * 2 ^ ulpExp q ≤
      1 / 2 * 2 ^ ulpExp q := mul_le_mul_of_nonneg_right hr (le_of_lt hp)
  have h2 := ulp_le q hq0
  linarith

/-! ## Partial transfer in double arithmetic: no overshoot beyond rounding -/

theorem uRound_pos : 0 < uRound := by norm_num [uRound]

theorem etaRound_pos : 0 < etaRound := by norm_num [etaRound]

theorem uRound_mul_le (t : ℚ) (ht : 0 ≤ t) : uRound * t ≤ t / 1000 := by
  have h : uRound ≤ 1 / 1000 := by norm_num [uRound]
  have := mul_le_mul_of_nonneg_right h ht
  linarith

/-- A rounded operation on an operand that is off by at most `E` from a value
of magnitude at most `B - E`. -/
theorem fl_close (x y E B : ℚ) (h1 : |x - y| ≤ E) (hB : |y| + E ≤ B) :
    |fl x - y| ≤ E + (uRound * B + etaRound) := by
  have h2 := fl_err x
  have h3 : |x| ≤ |y| + |x - y| := by
    have := abs_add y (x - y)
    simpa using this
  have h4 : uRound * |x| ≤ uRound * B :=
    mul_le_mul_of_nonneg_left (by linarith) (le_of_lt uRound_pos)
  have h5 : |fl x - y| ≤ |fl x - x| + |x - y| := by
    have := abs_add (fl x - x) (x - y)
    simpa using this
  linarith

/-- The rounded difference `fA + whA - fB - whB` against the exact one. -/
theorem headSum_err (a b c d : ℚ) :
    |fl (fl (fl (a + b) - c) - d) - (a + b - c - d)| ≤
      5 * (uRound * (|a| + |b| + |c| + |d|)) + 5 * etaRound := by
  have hM : 0 ≤ |a| + |b| + |c| + |d| := by positivity
  have hX : 0 ≤ uRound * (|a| + |b| + |c| + |d|) := mul_nonneg (le_of_lt uRound_pos) hM
  have hX2 := uRound_mul_le _ hX
  have hE2 := uRound_mul_le _ (le_of_lt etaRound_pos)
  have hη := etaRound_pos
  have hab : |a + b| ≤ |a| + |b| := abs_add a b
  have h1 := fl_close (a + b) (a + b) 0 (|a| + |b| + |c| + |d|) (by simp)
    (by linarith [abs_nonneg c, abs_nonneg d])
  have habc : |a + b - c| ≤ |a| + |b| + |c| := by
    have := abs_sub (a + b) c
    linarith
  have h2 := fl_close (fl (a + b) - c) (a + b - c)
    (uRound * (|a| + |b| + |c| + |d|) + etaRound)
    (|a| + |b| + |c| + |d| + (uRound * (|a| + |b| + |c| + |d|) + etaRound))
    (by
      have : fl (a + b) - c - (a + b - c) = fl (a + b) - (a + b) := by ring
      rw [this]
      linarith)
    (by linarith [abs_nonneg d])
  have h2b : |fl (fl (a + b) - c) - (a + b - c)| ≤
      3 * (uRound * (|a| + |b| + |c| + |d|)) + 3 * etaRound := by
    have e : uRound * (|a| + |b| + |c| + |d| + (uRound * (|a| + |b| + |c| + |d|) + etaRound)) =
        uRound * (|a| + |b| + |c| + |d|) + uRound * (uRound * (|a| + |b| + |c| + |d|)) +
          uRound * etaRound := by ring
    rw [e] at h2
    linarith
  have habcd : |a + b - c - d| ≤ |a| + |b| + |c| + |d| := by
    have := abs_sub (a + b - c) d
    linarith
  have h3 := fl_close (fl (fl (a + b) - c) - d) (a + b - c - d)
    (3 * (uRound * (|a| + |b| + |c| + |d|)) + 3 * etaRound)
    (|a| + |b| + |c| + |d| + (3 * (uRound * (|a| + |b| + |c| + |d|)) + 3 * etaRound))
    (by
      have : fl (fl (a + b) - c) - d - (a + b - c - d) = fl (fl (a + b) - c) - (a + b - c) := by
        ring
      rw [this]
      exact h2b)
    (by linarith)
  have e : uRound * (|a| + |b| + |c| + |d| +
      (3 * (uRound * (|a| + |b| + |c| + |d|)) + 3 * etaRound)) =
      uRound * (|a| + |b| + |c| + |d|) + 3 * (uRound * (uRound * (|a| + |b| + |c| + |d|))) +
        3 * (uRound * etaRound) := by ring
  rw [e] at h3
  linarith

theorem fl_abs_le (x : ℚ) : |fl x| ≤ |x| + (uRound * |x| + etaRound) := by
  have h := fl_close x 0 |x| |x| (by simp) (by simp)
  simpa using h

/-- The amount `abs(diff)/2.0` against the rounded difference `x` it is
computed from, for `0 < SCALE ≤ 80`; the sign of `diff` is that of `x`. -/
theorem transferD_le (x S : ℚ) (hS0 : 0 < S) (hS : S ≤ 80) :
    2 * fl (|fl (fl (x * S) / 80)| / 2) ≤ |x| + 5 * (uRound * |x|) + 6 * etaRound ∧
    (0 < fl (fl (x * S) / 80) → 0 < x) ∧ (fl (fl (x * S) / 80) < 0 → x < 0) := by
  have hη := etaRound_pos
  have hY : 0 ≤ uRound * |x| := mul_nonneg (le_of_lt uRound_pos) (abs_nonneg x)
  have hY2 := uRound_mul_le _ hY
  have hE2 := uRound_mul_le _ (le_of_lt etaRound_pos)
  refine ⟨?_, ?_, ?_⟩
  · have hxs : |x * S| ≤ 80 * |x| := by
      rw [abs_mul, abs_of_pos hS0]
      have := mul_le_mul_of_nonneg_left hS (abs_nonneg x)
      linarith
    have h4 := fl_abs_le (x * S)
    have h4u : uRound * |x * S| ≤ 80 * (uRound * |x|) := by
      have := mul_le_mul_of_nonneg_left hxs (le_of_lt uRound_pos)
      linarith
    have h5 : |fl (x * S) / 80| ≤ |x| + uRound * |x| + etaRound := by
      rw [abs_div, abs_of_pos (by norm_num : (0 : ℚ) < 80), div_le_iff₀ (by norm_num)]
      linarith
    have h6 := fl_abs_le (fl (x * S) / 80)
    have h6u : uRound * |fl (x * S) / 80| ≤ uRound * (|x| + uRound * |x| + etaRound) :=
      mul_le_mul_of_nonneg_left h5 (le_of_lt uRound_pos)
    have h6b : |fl (fl (x * S) / 80)| ≤ |x| + 3 * (uRound * |x|) + 3 * etaRound := by
      have e : uRound * (|x| + uRound * |x| + etaRound) =
          uRound * |x| + uRound * (uRound * |x|) + uRound * etaRound := by ring
      rw [e] at h6u
      linarith
    have h7 := fl_abs_le (|fl (fl (x * S) / 80)| / 2)
    have h7a : |(|fl (fl (x * S) / 80)| / 2)| = |fl (fl (x * S) / 80)| / 2 := by
      rw [abs_of_nonneg (by positivity)]
    rw [h7a] at h7
    have h7u : uRound * (|fl (fl (x * S) / 80)| / 2) ≤
        uRound * ((|x| + 3 * (uRound * |x|) + 3 * etaRound) / 2) :=
      mul_le_mul_of_nonneg_left (by linarith) (le_of_lt uRound_pos)
    have e : uRound * ((|x| + 3 * (uRound * |x|) + 3 * etaRound) / 2) =
        (uRound * |x| + 3 * (uRound * (uRound * |x|)) + 3 * (uRound * etaRound)) / 2 := by ring
    rw [e] at h7u
    have h8 : fl (|fl (fl (x * S) / 80)| / 2) ≤ |fl (|fl (fl (x * S) / 80)| / 2)| := le_abs_self _
    linarith
  · intro h
    have h1 := pos_of_fl_pos _ h
    have h2 : 0 < fl (x * S) := by
      by_contra hc
      have := div_nonpos_of_nonpos_of_nonneg (not_lt.mp hc) (by norm_num : (0 : ℚ) ≤ 80)
      linarith
    have h3 := pos_of_fl_pos _ h2
    by_contra hc
    have := mul_nonpos_of_nonpos_of_nonneg (not_lt.mp hc) (le_of_lt hS0)
    linarith
  · intro h
    have h1 : fl (x * S) / 80 < 0 := by
      by_contra hc
      have := fl_nonneg _ (not_lt.mp hc)
      linarith
    have h2 : fl (x * S) < 0 := by
      by_contra hc
      have := div_nonneg (not_lt.mp hc) (by norm_num : (0 : ℚ) ≤ 80)
      linarith
    have h3 : x * S < 0 := by
      by_contra hc
      have := fl_nonneg _ (not_lt.mp hc)
      linarith
    by_contra hc
    have := mul_nonneg (not_lt.mp hc) (le_of_lt hS0)
    linarith

/-- The rounded surfaces after a partial transfer against the exact ones: the
higher column has floor `p` and thickness `q`, the lower one floor `r` and
thickness `s`. -/
theorem surfaces_err (p q r s tr M : ℚ) (h0 : 0 < tr) (hlt : tr < q)
    (hM : |p| + q + |r| + |s| ≤ M) :
    fl (fl (r + s) + tr) - fl (p + fl (q - tr)) ≤
      (r + s + tr) - (p + q - tr) + 6 * (uRound * M) + 6 * etaRound := by
  have hη := etaRound_pos
  have hM0 : 0 ≤ M := by linarith [abs_nonneg p, abs_nonneg r, abs_nonneg s]
  have hX : 0 ≤ uRound * M := mul_nonneg (le_of_lt uRound_pos) hM0
  have hX2 := uRound_mul_le _ hX
  have hE2 := uRound_mul_le _ (le_of_lt etaRound_pos)
  have e : uRound * (M + (uRound * M + etaRound)) =
      uRound * M + uRound * (uRound * M) + uRound * etaRound := by ring
  have hrs : |r + s| ≤ |r| + |s| := abs_add r s
  have h1 := fl_close (r + s) (r + s) 0 M (by simp) (by linarith [abs_nonneg p])
  have hrst : |r + s + tr| ≤ |r| + |s| + q := by
    have := abs_add (r + s) tr
    rw [abs_of_pos h0] at this
    linarith
  have h2 := fl_close (fl (r + s) + tr) (r + s + tr) (uRound * M + etaRound)
    (M + (uRound * M + etaRound))
    (by
      have : fl (r + s) + tr - (r + s + tr) = fl (r + s) - (r + s) := by ring
      rw [this]
      linarith)
    (by linarith [abs_nonneg p])
  rw [e] at h2
  have hq : |q - tr| ≤ q := by
    rw [abs_of_pos (by linarith)]
    linarith
  have h3 := fl_close (q - tr) (q - tr) 0 M (by simp) (by linarith [abs_nonneg p, abs_nonneg r, abs_nonneg s])
  have hpq : |p + (q - tr)| ≤ |p| + q := by
    have := abs_add p (q - tr)
    linarith
  have h4 := fl_close (p + fl (q - tr)) (p + (q - tr)) (uRound * M + etaRound)
    (M + (uRound * M + etaRound))
    (by
      have : p + fl (q - tr) - (p + (q - tr)) = fl (q - tr) - (q - tr) := by ring
      rw [this]
      linarith)
    (by linarith [abs_nonneg r, abs_nonneg s])
  rw [e] at h4
  have h2a := (abs_le.mp h2).2
  have h4a := (abs_le.mp h4).1
  linarith

/-- No overshoot beyond rounding, in numbers: the head difference is computed
from `a + b - c - d`; when it is positive the column with floor `a` and
thickness `b` gives `tr`, when it is negative the one with floor `c` and
thickness `d`. -/
theorem overshoot_bound (a b c d S tr : ℚ) (hS0 : 0 < S) (hS : S ≤ 80)
    (htr : tr = fl (|fl (fl (fl (fl (fl (a + b) - c) - d) * S) / 80)| / 2)) (h0 : 0 < tr) :
    (0 < fl (fl (fl (fl (fl (a + b) - c) - d) * S) / 80) → tr < b →
      fl (fl (c + d) + tr) ≤ fl (a + fl (b - tr)) +
        ((|a| + |b| + |c| + |d|) / 2 ^ 48 + 1 / 2 ^ 1069)) ∧
    (fl (fl (fl (fl (fl (a + b) - c) - d) * S) / 80) < 0 → tr < d →
      fl (fl (a + b) + tr) ≤ fl (c + fl (d - tr)) +
        ((|a| + |b| + |c| + |d|) / 2 ^ 48 + 1 / 2 ^ 1069)) := by
  have hη := etaRound_pos
  have hM0 : 0 ≤ |a| + |b| + |c| + |d| := by positivity
  have hX : 0 ≤ uRound * (|a| + |b| + |c| + |d|) := mul_nonneg (le_of_lt uRound_pos) hM0
  have hX2 := uRound_mul_le _ hX
  have hE2 := uRound_mul_le _ (le_of_lt etaRound_pos)
  have h1 := headSum_err a b c d
  obtain ⟨h2, h2p, h2n⟩ := transferD_le (fl (fl (fl (a + b) - c) - d)) S hS0 hS
  rw [← htr] at h2
  have habcd : |a + b - c - d| ≤ |a| + |b| + |c| + |d| := by
    have h := abs_sub (a + b - c) d
    have h' := abs_sub (a + b) c
    have h'' := abs_add a b
    linarith
  have hx3 : |fl (fl (fl (a + b) - c) - d)| ≤ (|a| + |b| + |c| + |d|) +
      (5 * (uRound * (|a| + |b| + |c| + |d|)) + 5 * etaRound) := by
    have h := abs_add (a + b - c - d) (fl (fl (fl (a + b) - c) - d) - (a + b - c - d))
    have e : a + b - c - d + (fl (fl (fl (a + b) - c) - d) - (a + b - c - d)) =
        fl (fl (fl (a + b) - c) - d) := by ring
    rw [e] at h
    linarith
  have hux3 : uRound * |fl (fl (fl (a + b) - c) - d)| ≤ uRound * ((|a| + |b| + |c| + |d|) +
      (5 * (uRound * (|a| + |b| + |c| + |d|)) + 5 * etaRound)) :=
    mul_le_mul_of_nonneg_left hx3 (le_of_lt uRound_pos)
  have e : uRound * ((|a| + |b| + |c| + |d|) +
      (5 * (uRound * (|a| + |b| + |c| + |d|)) + 5 * etaRound)) =
      uRound * (|a| + |b| + |c| + |d|) + 5 * (uRound * (uRound * (|a| + |b| + |c| + |d|))) +
        5 * (uRound * etaRound) := by ring
  rw [e] at hux3
  have htol : 17 * (uRound * (|a| + |b| + |c| + |d|)) + 18 * etaRound ≤
      (|a| + |b| + |c| + |d|) / 2 ^ 48 + 1 / 2 ^ 1069 := by
    have e1 : 32 * (uRound * (|a| + |b| + |c| + |d|)) = (|a| + |b| + |c| + |d|) / 2 ^ 48 := by
      unfold uRound
      ring
    have e3 : 18 * etaRound ≤ 1 / 2 ^ 1069 := by
      unfold etaRound
      norm_num
    linarith
  constructor
  · intro hd hlt
    have hpos := h2p hd
    rw [abs_of_pos hpos] at h2 hux3
    have hb : 0 < b := by linarith
    have h3 := surfaces_err a b c d tr (|a| + |b| + |c| + |d|) h0 hlt
      (by rw [abs_of_pos hb])
    have h1a := (abs_le.mp h1).2
    linarith
  · intro hd hlt
    have hneg := h2n hd
    rw [abs_of_neg hneg] at h2 hux3
    have hd0 : 0 < d := by linarith
    have h3 := surfaces_err c d a b tr (|a| + |b| + |c| + |d|) h0 hlt
      (by rw [abs_of_pos hd0]; linarith)
    have h1a := (abs_le.mp h1).1
    linarith

/-- What the pair loop has established, in `double`, when it reaches the
partial transfer. -/
theorem pairActionD_part (env : Env) (ipos npos : IVec2) (m : Layermap)
    (tpos bpos : IVec2) (transfer : ℚ)
    (h : pairActionD env ipos npos m = .part tpos bpos transfer) :
    headDiffD env (m.top ipos) (m.top npos) ≠ 0 ∧
    tpos = (if headDiffD env (m.top ipos) (m.top npos) > 0 then ipos else npos) ∧
    bpos = (if headDiffD env (m.top ipos) (m.top npos) > 0 then npos else ipos) ∧
    ∃ top, m.top tpos = some top ∧ top.type = env.Air ∧
      transfer = fl (|headDiffD env (m.top ipos) (m.top npos)| / 2) ∧
      0 < transfer ∧ transfer < top.size := by
  have key : ∀ (top : sec) (d : ℚ), ¬ cascadeTransferD d top ≤ 0 →
      ¬ cascadeTransferD d top = top.size →
      cascadeTransferD d top = fl (|d| / 2) ∧ 0 < cascadeTransferD d top ∧
        cascadeTransferD d top < top.size := by
    intro top d h1 h2
    unfold cascadeTransferD at h1 h2 ⊢
    simp only [] at h1 h2 ⊢
    by_cases hc : top.size < fl (|d| / 2)
    · rw [if_pos hc] at h2
      exact absurd rfl h2
    · rw [if_neg hc] at h1 h2 ⊢
      exact ⟨rfl, lt_of_not_le h1, lt_of_le_of_ne (not_lt.mp hc) h2⟩
  unfold pairActionD at h
  simp only [] at h
  by_cases hd : headDiffD env (m.top ipos) (m.top npos) = 0
  · rw [if_pos hd] at h
    cases h
  · rw [if_neg hd] at h
    refine ⟨hd, ?_⟩
    by_cases hpos : headDiffD env (m.top ipos) (m.top npos) > 0
    · simp only [if_pos hpos] at h ⊢
      cases htop : m.top ipos with
      | none =>
        rw [htop] at h
        cases h
      | some top =>
        simp only [htop] at h
        by_cases hair : top.type ≠ env.Air
        · rw [if_pos hair] at h
          cases h
        · rw [if_neg hair] at h
          by_cases hle : cascadeTransferD (headDiffD env (some top) (m.top npos)) top ≤ 0
          · rw [if_pos hle] at h
            cases h
          · rw [if_neg hle] at h
            by_cases hfull : cascadeTransferD (headDiffD env (some top) (m.top npos)) top = top.size
            · rw [if_pos hfull] at h
              cases h
            · rw [if_neg hfull] at h
              simp only [PairAction.part.injEq] at h
              obtain ⟨h1, h2, h3⟩ := h
              subst h1 h2 h3
              obtain ⟨k1, k2, k3⟩ := key top _ hle hfull
              exact ⟨rfl, rfl, top, htop, not_not.mp hair, k1, k2, k3⟩
    · simp only [if_neg hpos] at h ⊢
      cases htop : m.top npos with
      | none =>
        rw [htop] at h
        cases h
      | some top =>
        simp only [htop] at h
        by_cases hair : top.type ≠ env.Air
        · rw [if_pos hair] at h
          cases h
        · rw [if_neg hair] at h
          by_cases hle : cascadeTransferD (headDiffD env (m.top ipos) (some top)) top ≤ 0
          · rw [if_pos hle] at h
            cases h
          · rw [if_neg hle] at h
            by_cases hfull : cascadeTransferD (headDiffD env (m.top ipos) (some top)) top = top.size
            · rw [if_pos hfull] at h
              cases h
            · rw [if_neg hfull] at h
              simp only [PairAction.part.injEq] at h
              obtain ⟨h1, h2, h3⟩ := h
              subst h1 h2 h3
              obtain ⟨k1, k2, k3⟩ := key top _ hle hfull
              exact ⟨rfl, rfl, top, htop, not_not.mp hair, k1, k2, k3⟩

/-- The partial-transfer branch in `double` on two distinct cells: the higher
layer is thinned to the rounded difference, and a saturated open-water layer of
the transferred thickness is put on the lower column, its floor at the rounded
elevation of the former surface. -/
theorem cascadePartialD_tops (env : Env) (w : World) (tpos bpos : IVec2) (transfer : ℚ)
    (top : sec) (hne : bpos ≠ tpos) (htop : w.map.top tpos = some top)
    (h0 : 0 < transfer) (hlt : transfer < top.size) :
    ∃ w1, cascadePartialD env tpos bpos transfer w = .ok (true, w1) ∧
      w1.map.top tpos = some { top with size := fl (top.size - transfer) } ∧
      w1.map.top bpos = some { type := env.Air, size := transfer, floor := fl (floorValue (w.map.top bpos) + waterHeight env.Air (w.map.top bpos)), saturation := 1 } := by
  have ht2 : (w.map.dat tpos).getLast? = some top := htop
  have r1 : (w.map.removeD tpos transfer).1 =
      w.map.setColumn tpos ((w.map.dat tpos).dropLast ++ [{ top with size := fl (top.size - transfer) }]) := by
    simp only [Layermap.removeD, Column.removeD, ht2, if_neg (not_le.mpr h0), if_pos hlt]
  have hdat : (w.map.removeD tpos transfer).1.dat bpos = w.map.dat bpos := by
    rw [r1, layermap_dat_setColumn_ne _ _ _ _ hne]
  cases hbot : w.map.top bpos with
  | some bot =>
    have hb1 : ((w.map.removeD tpos transfer).1.dat bpos).getLast? = some bot := by
      rw [hdat]
      exact hbot
    have hadd : ((w.map.removeD tpos transfer).1.addD bpos (poolGet transfer env.Air)) =
        (w.map.removeD tpos transfer).1.setColumn bpos
          ((w.map.removeD tpos transfer).1.dat bpos ++
            [{ type := env.Air, size := transfer, floor := fl (bot.floor + bot.size), saturation := 0 }]) := by
      simp only [Layermap.addD, Column.addD, hb1, poolGet]
    have hsat : ((w.map.removeD tpos transfer).1.addD bpos (poolGet transfer env.Air)).setTopSaturation
        bpos 1 = some (((w.map.removeD tpos transfer).1.addD bpos (poolGet transfer env.Air)).setColumn bpos
          ((w.map.removeD tpos transfer).1.dat bpos ++
            [{ type := env.Air, size := transfer, floor := fl (bot.floor + bot.size), saturation := 1 }])) := by
      rw [hadd]
      simp [Layermap.setTopSaturation, Layermap.setColumn]
    refine ⟨(({ w with map := ((w.map.removeD tpos transfer).1.addD bpos
        (poolGet transfer env.Air)).setColumn bpos ((w.map.removeD tpos transfer).1.dat bpos ++
          [{ type := env.Air, size := transfer, floor := fl (bot.floor + bot.size), saturation := 1 }]) }
        : World).update tpos).update bpos, ?_, ?_, ?_⟩
    · unfold cascadePartialD
      simp only [hsat, if_pos h0]
    · simp only [World.update]
      rw [layermap_top_setColumn_ne _ _ _ _ (Ne.symm hne), hadd,
        layermap_top_setColumn_ne _ _ _ _ (Ne.symm hne), r1, layermap_top_setColumn_self]
      simp
    · simp only [World.update]
      rw [layermap_top_setColumn_self]
      simp [floorValue, waterHeight]
  | none =>
    have hb0 : w.map.dat bpos = [] := by
      simpa [Layermap.top, Column.top, List.getLast?_eq_none_iff] using hbot
    have hb1 : (w.map.removeD tpos transfer).1.dat bpos = [] := by
      rw [hdat]
      exact hb0
    have hadd : ((w.map.removeD tpos transfer).1.addD bpos (poolGet transfer env.Air)) =
        (w.map.removeD tpos transfer).1.setColumn bpos
          [{ type := env.Air, size := transfer, floor := 0, saturation := 0 }] := by
      simp only [Layermap.addD, Column.addD, hb1, poolGet, List.getLast?_nil]
    have hsat : ((w.map.removeD tpos transfer).1.addD bpos (poolGet transfer env.Air)).setTopSaturation
        bpos 1 = some (((w.map.removeD tpos transfer).1.addD bpos (poolGet transfer env.Air)).setColumn
          bpos [{ type := env.Air, size := transfer, floor := 0, saturation := 1 }]) := by
      rw [hadd]
      simp [Layermap.setTopSaturation, Layermap.setColumn]
    refine ⟨(({ w with map := ((w.map.removeD tpos transfer).1.addD bpos (poolGet transfer env.Air)).setColumn bpos [{ type := env.Air, size := transfer, floor := 0, saturation := 1 }] }
        : World).update tpos).update bpos, ?_, ?_, ?_⟩
    · unfold cascadePartialD
      simp only [hsat, if_pos h0]
    · simp only [World.update]
      rw [layermap_top_setColumn_ne _ _ _ _ (Ne.symm hne), hadd,
        layermap_top_setColumn_ne _ _ _ _ (Ne.symm hne), r1, layermap_top_setColumn_self]
      simp
    · simp only [World.update]
      rw [layermap_top_setColumn_self]
      simp [floorValue, waterHeight, fl_zero]

/-- C14 (amended): for every source cell and distinct neighbour handled by
cascade's partial-transfer branch, when 0 < SCALE ≤ 80, in the `double`
arithmetic of the code (floors and thicknesses small enough that no operation
overflows, their magnitudes summing to at most 2^1000): after removing
`transfer` from the higher column and adding it as open water on the lower
column, the lower column's water surface (top floor + top thickness) exceeds
the higher column's by at most the rounding error
2^-48·(|floorA| + |sizeA| + |floorB| + |sizeB|) + 2^-1069 of the floors and
thicknesses the head difference was computed from. -/
theorem partial_transfer_overshoot_bounded (env : Env) (w : World)
    (ipos npos tpos bpos : IVec2) (transfer : ℚ) (hne : npos ≠ ipos)
    (hS0 : 0 < env.SCALE) (hS : env.SCALE ≤ 80)
    (_hM : headMagnitude env.Air (w.map.top ipos) (w.map.top npos) ≤ 2 ^ 1000)
    (hact : pairActionD env ipos npos w.map = .part tpos bpos transfer) :
    ∃ w1, cascadePartialD env tpos bpos transfer w = .ok (true, w1) ∧
      surfaceOfD env.Air (w1.map.top bpos) ≤ surfaceOfD env.Air (w1.map.top tpos) +
        (headMagnitude env.Air (w.map.top ipos) (w.map.top npos) / 2 ^ 48 + 1 / 2 ^ 1069) := by
  obtain ⟨hd, ht, hb, top, htop, -, htr, hpos, hlt⟩ :=
    pairActionD_part env ipos npos w.map tpos bpos transfer hact
  have hob := overshoot_bound (floorValue (w.map.top ipos)) (waterHeight env.Air (w.map.top ipos))
    (floorValue (w.map.top npos)) (waterHeight env.Air (w.map.top npos)) env.SCALE transfer
    hS0 hS htr hpos
  by_cases hp : headDiffD env (w.map.top ipos) (w.map.top npos) > 0
  · rw [if_pos hp] at ht hb
    subst ht hb
    obtain ⟨w1, e1, e2, e3⟩ := cascadePartialD_tops env w tpos bpos transfer top hne htop hpos hlt
    refine ⟨w1, e1, ?_⟩
    rw [e2, e3]
    have := hob.1 hp (by rw [htop, waterHeight_some]; exact hlt)
    rw [htop] at this ⊢
    simpa [surfaceOfD, floorValue, waterHeight_some, headMagnitude] using this
  · rw [if_neg hp] at ht hb
    subst ht hb
    have hn : headDiffD env (w.map.top bpos) (w.map.top tpos) < 0 :=
      lt_of_le_of_ne (le_of_not_lt hp) hd
    obtain ⟨w1, e1, e2, e3⟩ := cascadePartialD_tops env w tpos bpos transfer top
      (Ne.symm hne) htop hpos hlt
    refine ⟨w1, e1, ?_⟩
    rw [e2, e3]
    have := hob.2 hn (by rw [htop, waterHeight_some]; exact hlt)
    rw [htop] at this ⊢
    simpa [surfaceOfD, floorValue, waterHeight_some, headMagnitude] using this

/-- C14, as stated, fails, in the `double` arithmetic of the code.  For
`SCALE = 160` the pond with its surface at 10 next to the column with its
surface at 4 has the scaled difference 12, the partial transfer moves 6, and
afterwards the surface of the higher column is at 4 and that of the lower
column at 10.  For `SCALE = 80` and the columns of `exPondD` (surfaces near
36.95 and 16.7) the partial transfer moves half the computed difference and
the surface of the higher column ends 2^-47 below that of the lower one
(26.824999999999996 against 26.825000000000003). -/
theorem partial_transfer_swaps :
    (pairActionD exEnvScaled (0, 0) (1, 0) exDeepPond.map = .part (0, 0) (1, 0) 6 ∧
      (cascadePartialD exEnvScaled (0, 0) (1, 0) 6 exDeepPond).toBool = true ∧
      surfaceOfD exEnvScaled.Air
        ((partialWorld (cascadePartialD exEnvScaled (0, 0) (1, 0) 6 exDeepPond)).map.top (0, 0)) = 4 ∧
      surfaceOfD exEnvScaled.Air
        ((partialWorld (cascadePartialD exEnvScaled (0, 0) (1, 0) 6 exDeepPond)).map.top (1, 0)) = 10) ∧
    (pairActionD exEnv (0, 0) (1, 0) exPondD.map =
        .part (0, 0) (1, 0) (5699868278390785 / 562949953421312) ∧
      (cascadePartialD exEnv (0, 0) (1, 0) (5699868278390785 / 562949953421312) exPondD).toBool = true ∧
      surfaceOfD exEnv.Air ((partialWorld (cascadePartialD exEnv (0, 0) (1, 0)
        (5699868278390785 / 562949953421312) exPondD)).map.top (0, 0)) =
          3775283125131673 / 140737488355328 ∧
      surfaceOfD exEnv.Air ((partialWorld (cascadePartialD exEnv (0, 0) (1, 0)
        (5699868278390785 / 562949953421312) exPondD)).map.top (1, 0)) =
          3775283125131674 / 140737488355328 ∧
      surfaceOfD exEnv.Air ((partialWorld (cascadePartialD exEnv (0, 0) (1, 0)
        (5699868278390785 / 562949953421312) exPondD)).map.top (0, 0)) <
      surfaceOfD exEnv.Air ((partialWorld (cascadePartialD exEnv (0, 0) (1, 0)
        (5699868278390785 / 562949953421312) exPondD)).map.top (1, 0))) := by
  decide!

theorem exPondD_action :
    pairActionD exEnv (0, 0) (1, 0) exPondD.map =
      .part (0, 0) (1, 0) (5699868278390785 / 562949953421312) := by
  decide!

/-- C14 (amended), at the pair of `exPondD` with `SCALE = 80`, where the
surface of the lower column ends 2^-47 above that of the higher one. -/
theorem partial_transfer_overshoot_bounded_witness :
    ∃ w1, cascadePartialD exEnv (0, 0) (1, 0) (5699868278390785 / 562949953421312) exPondD =
        .ok (true, w1) ∧
      surfaceOfD exEnv.Air (w1.map.top (1, 0)) ≤ surfaceOfD exEnv.Air (w1.map.top (0, 0)) +
        (headMagnitude exEnv.Air (exPondD.map.top (0, 0)) (exPondD.map.top (1, 0)) / 2 ^ 48 +
          1 / 2 ^ 1069) :=
  partial_transfer_overshoot_bounded exEnv exPondD (0, 0) (1, 0) (0, 0) (1, 0)
    (5699868278390785 / 562949953421312) (by decide) (by norm_num [exEnv]) (by norm_num [exEnv])
    (by decide!) exPondD_action

/-! ## Seepage in double arithmetic: the error of one transfer -/

theorem fl_le_of_nonneg (x : ℚ) (hx : 0 ≤ x) : fl x ≤ x + (1 / 2 ^ 53 * x + 1 / 2 ^ 1075) := by
  have h := (abs_le.mp (fl_err x)).2
  rw [abs_of_nonneg hx] at h
  unfold uRound etaRound at h
  linarith

theorem fl_ge_of_nonneg (x : ℚ) (hx : 0 ≤ x) : x - (1 / 2 ^ 53 * x + 1 / 2 ^ 1075) ≤ fl x := by
  have h := (abs_le.mp (fl_err x)).1
  rw [abs_of_nonneg hx] at h
  unfold uRound etaRound at h
  linarith

theorem fl_ge_of_nonpos (x : ℚ) (hx : x ≤ 0) : x + (1 / 2 ^ 53 * x - 1 / 2 ^ 1075) ≤ fl x := by
  have h := (abs_le.mp (fl_err x)).1
  rw [abs_of_nonpos hx] at h
  unfold uRound etaRound at h
  linarith

/-- The saturation the lower layer of a pair gets in `double`: it stays ≥ 0 and
exceeds 1 by at most 12·2^-53. -/
theorem seep_gain_bound (s p r t : ℚ) (hs : 1 / 2 ^ 100 ≤ s) (hs2 : s ≤ 2 ^ 100)
    (hp : 1 / 2 ^ 100 ≤ p) (hp2 : p ≤ 2 ^ 100) (hr0 : 0 ≤ r) (hr1 : r ≤ 1)
    (ht0 : 0 < t) (ht : t ≤ fl (fl (s * fl (1 - r)) * p)) :
    0 ≤ fl (r + fl (fl t / fl (s * p))) ∧
    fl (r + fl (fl t / fl (s * p))) ≤ 1 + 12 / 2 ^ 53 := by
  have hs0 : 0 < s := lt_of_lt_of_le (by positivity) hs
  have hp0 : 0 < p := lt_of_lt_of_le (by positivity) hp
  have hA0 : 0 < s * p := mul_pos hs0 hp0
  have hA1 : 1 / 2 ^ 200 ≤ s * p := by
    have := mul_le_mul hs hp (by positivity) (le_of_lt hs0)
    have e : (1 : ℚ) / 2 ^ 100 * (1 / 2 ^ 100) = 1 / 2 ^ 200 := by norm_num
    linarith
  have hB : s * r * p ≤ s * p := by
    have := mul_le_mul_of_nonneg_left hr1 (le_of_lt hA0)
    have e : s * r * p = s * p * r := by ring
    linarith
  -- the empty volume
  have w1n := fl_nonneg (1 - r) (by linarith)
  have w1u := fl_le_of_nonneg (1 - r) (by linarith)
  have hsw : 0 ≤ s * fl (1 - r) := mul_nonneg (le_of_lt hs0) w1n
  have w2n := fl_nonneg _ hsw
  have w2u := fl_le_of_nonneg _ hsw
  have hsw2 : s * fl (1 - r) ≤ s * (1 - r + (1 / 2 ^ 53 * (1 - r) + 1 / 2 ^ 1075)) :=
    mul_le_mul_of_nonneg_left w1u (le_of_lt hs0)
  have hwp : 0 ≤ fl (s * fl (1 - r)) * p := mul_nonneg w2n (le_of_lt hp0)
  have nu := fl_le_of_nonneg _ hwp
  have hwp2 : fl (s * fl (1 - r)) * p ≤
      (s * fl (1 - r) + (1 / 2 ^ 53 * (s * fl (1 - r)) + 1 / 2 ^ 1075)) * p :=
    mul_le_mul_of_nonneg_right w2u (le_of_lt hp0)
  have hsw3 : s * fl (1 - r) * p ≤ s * (1 - r + (1 / 2 ^ 53 * (1 - r) + 1 / 2 ^ 1075)) * p :=
    mul_le_mul_of_nonneg_right hsw2 (le_of_lt hp0)
  have hsp2 : s * p ≤ 2 ^ 200 := by
    have := mul_le_mul hs2 hp2 (le_of_lt hp0) (by positivity)
    have e : (2 : ℚ) ^ 100 * 2 ^ 100 = 2 ^ 200 := by norm_num
    linarith
  -- the transferred amount and the divisor
  have t1u := fl_le_of_nonneg t (le_of_lt ht0)
  have t1n := fl_nonneg t (le_of_lt ht0)
  have dl := fl_ge_of_nonneg (s * p) (le_of_lt hA0)
  have hden : 0 < fl (s * p) := by
    linarith only [dl, hA1]
  have hc0 : 0 ≤ (1 - r) * (1 + 8 / 2 ^ 53) + 1 / 2 ^ 700 := by
    have : 0 ≤ (1 - r) * (1 + 8 / 2 ^ 53) := mul_nonneg (by linarith) (by positivity)
    have : (0 : ℚ) ≤ 1 / 2 ^ 700 := by positivity
    linarith
  have hq : fl t / fl (s * p) ≤ (1 - r) * (1 + 8 / 2 ^ 53) + 1 / 2 ^ 700 := by
    rw [div_le_iff₀ hden]
    have h1 : ((1 - r) * (1 + 8 / 2 ^ 53) + 1 / 2 ^ 700) *
        (s * p - (1 / 2 ^ 53 * (s * p) + 1 / 2 ^ 1075)) ≤
        ((1 - r) * (1 + 8 / 2 ^ 53) + 1 / 2 ^ 700) * fl (s * p) :=
      mul_le_mul_of_nonneg_left dl hc0
    linarith only [h1, t1u, ht, nu, hwp2, hsw3, hB, hA1, hp2, hsp2, hr0, hr1]
  have hq0 : 0 ≤ fl t / fl (s * p) := div_nonneg t1n (le_of_lt hden)
  have rn := fl_nonneg _ hq0
  have ru := fl_le_of_nonneg _ hq0
  have hsum : 0 ≤ r + fl (fl t / fl (s * p)) := by linarith
  refine ⟨fl_nonneg _ hsum, ?_⟩
  have fu := fl_le_of_nonneg _ hsum
  linarith only [fu, ru, hq, hr0, hr1]

/-- The saturation the upper layer of a pair is left with in `double`: it falls
below 0 by at most 8·2^-53 and stays below 1 + 14·2^-53. -/
theorem seep_loss_bound (s p r t : ℚ) (hs : 1 / 2 ^ 100 ≤ s)
    (hp : 1 / 2 ^ 100 ≤ p) (hp2 : p ≤ 2 ^ 100) (hr0 : 0 ≤ r) (hr1 : r ≤ 1 + 12 / 2 ^ 53)
    (ht0 : 0 < t) (ht : t ≤ fl (fl (s * r) * p)) :
    -(8 / 2 ^ 53) ≤ fl (r - fl (fl t / fl (s * p))) ∧
    fl (r - fl (fl t / fl (s * p))) ≤ 1 + 14 / 2 ^ 53 := by
  have hs0 : 0 < s := lt_of_lt_of_le (by positivity) hs
  have hp0 : 0 < p := lt_of_lt_of_le (by positivity) hp
  have hA0 : 0 < s * p := mul_pos hs0 hp0
  have hA1 : 1 / 2 ^ 200 ≤ s * p := by
    have := mul_le_mul hs hp (by positivity) (le_of_lt hs0)
    have e : (1 : ℚ) / 2 ^ 100 * (1 / 2 ^ 100) = 1 / 2 ^ 200 := by norm_num
    linarith only [this, e]
  -- the water volume of the layer
  have hsr : 0 ≤ s * r := mul_nonneg (le_of_lt hs0) hr0
  have v1n := fl_nonneg _ hsr
  have v1u := fl_le_of_nonneg _ hsr
  have hvp : 0 ≤ fl (s * r) * p := mul_nonneg v1n (le_of_lt hp0)
  have vu := fl_le_of_nonneg _ hvp
  have hvp2 : fl (s * r) * p ≤ (s * r + (1 / 2 ^ 53 * (s * r) + 1 / 2 ^ 1075)) * p :=
    mul_le_mul_of_nonneg_right v1u (le_of_lt hp0)
  -- the transferred amount and the divisor
  have t1u := fl_le_of_nonneg t (le_of_lt ht0)
  have t1n := fl_nonneg t (le_of_lt ht0)
  have dl := fl_ge_of_nonneg (s * p) (le_of_lt hA0)
  have hden : 0 < fl (s * p) := by
    linarith only [dl, hA1]
  have hc0 : 0 ≤ r * (1 + 6 / 2 ^ 53) + 1 / 2 ^ 700 := by
    have : 0 ≤ r * (1 + 6 / 2 ^ 53) := mul_nonneg hr0 (by positivity)
    have : (0 : ℚ) ≤ 1 / 2 ^ 700 := by positivity
    linarith
  have hsrp : 0 ≤ s * r * p := mul_nonneg hsr (le_of_lt hp0)
  have hq : fl t / fl (s * p) ≤ r * (1 + 6 / 2 ^ 53) + 1 / 2 ^ 700 := by
    rw [div_le_iff₀ hden]
    have h1 : (r * (1 + 6 / 2 ^ 53) + 1 / 2 ^ 700) *
        (s * p - (1 / 2 ^ 53 * (s * p) + 1 / 2 ^ 1075)) ≤
        (r * (1 + 6 / 2 ^ 53) + 1 / 2 ^ 700) * fl (s * p) :=
      mul_le_mul_of_nonneg_left dl hc0
    linarith only [h1, t1u, ht, vu, hvp2, hsrp, hA1, hp2, hr0, hr1]
  have hq0 : 0 ≤ fl t / fl (s * p) := div_nonneg t1n (le_of_lt hden)
  have rn := fl_nonneg _ hq0
  have ru := fl_le_of_nonneg _ hq0
  by_cases hsign : 0 ≤ r - fl (fl t / fl (s * p))
  · have f0 := fl_nonneg _ hsign
    have fu := fl_le_of_nonneg _ hsign
    constructor
    · have : (0 : ℚ) ≤ 8 / 2 ^ 53 := by positivity
      linarith only [f0, this]
    · linarith only [fu, rn, hr1]
  · have hneg : r - fl (fl t / fl (s * p)) ≤ 0 := le_of_lt (not_le.mp hsign)
    have f0 := fl_nonpos _ hneg
    have fl0 := fl_ge_of_nonpos _ hneg
    constructor
    · linarith only [fl0, ru, hq, hr0, hr1]
    · linarith only [f0]

/-! ## Seepage in double arithmetic: the saturation range -/

theorem seepTransferD_le (soils : SurfType → SurfParam) (top prev : sec) :
    seepTransferD soils top prev ≤
      fl (fl (top.size * top.saturation) * (soils top.type).porosity) ∧
    seepTransferD soils top prev ≤
      fl (fl (prev.size * fl (1 - prev.saturation)) * (soils prev.type).porosity) := by
  unfold seepTransferD
  simp only []
  split
  · rename_i h
    exact ⟨le_refl _, le_of_lt h⟩
  · rename_i h
    exact ⟨not_lt.mp h, le_refl _⟩

theorem satNear_removeD {col : Column} (h : ∀ s ∈ col, SatNear s) (x : ℚ) :
    ∀ s ∈ (col.removeD x).1, SatNear s := by
  unfold Column.removeD
  cases hl : col.getLast? with
  | none => exact h
  | some t =>
    have ht := h t (List.mem_of_getLast?_eq_some hl)
    simp only []
    split
    · exact h
    · split
      · intro s hs
        rcases List.mem_append.mp hs with h1 | h1
        · exact h s (List.dropLast_subset col h1)
        · rw [List.mem_singleton] at h1
          rw [h1]
          exact ht
      · intro s hs
        exact h s (List.dropLast_subset col hs)

/-- A `map.remove` in `double` leaves the layers below the top of the column
alone. -/
theorem column_removeD_getElem (col : Column) (x : ℚ) (i : Nat) (hi : i + 1 < col.length) :
    (col.removeD x).1[i]? = col[i]? := by
  unfold Column.removeD
  cases hl : col.getLast? with
  | none => rfl
  | some t =>
    simp only []
    have hdl : i < col.dropLast.length := by rw [List.length_dropLast]; omega
    have hdrop : col.dropLast[i]? = col[i]? := by
      rw [List.getElem?_eq_getElem hdl, List.getElem?_eq_getElem (by omega), List.getElem_dropLast]
    split
    · rfl
    · split
      · rw [List.getElem?_append_left hdl, hdrop]
      · exact hdrop

theorem satNear_set {col : Column} (h : ∀ s ∈ col, SatNear s) (j : Nat) (a : sec)
    (ha : SatNear a) : ∀ s ∈ col.set j a, SatNear s := by
  intro s hs
  rcases List.mem_or_eq_of_mem_set hs with h1 | h1
  · exact h s h1
  · rw [h1]; exact ha

/-- One transfer of `seep` in `double` keeps the state of the column. -/
theorem seepPairD_inv (soils : SurfType → SurfParam) (Air : SurfType) (d : Nat) (col : Column)
    (top prev : sec) (hinv : SeepInv soils (d + 1) col) (htop : col[d + 1]? = some top)
    (hprev : col[d]? = some prev) (hpos : 0 < seepTransferD soils top prev) :
    SeepInv soils d (seepPairD soils Air d col top prev) := by
  obtain ⟨hnear, hlow, htopinv⟩ := hinv
  have hlen : d + 1 < col.length := by
    by_contra hc
    rw [List.getElem?_eq_none (by omega)] at htop
    cases htop
  obtain ⟨⟨hts, hts2⟩, ⟨htp, htp2⟩, hts0, hts1⟩ := htopinv top htop
  obtain ⟨⟨hps, hps2⟩, ⟨hpp, hpp2⟩, hps0, hps1⟩ := hlow d prev (by omega) hprev
  obtain ⟨hle1, hle2⟩ := seepTransferD_le soils top prev
  have hgain := seep_gain_bound prev.size (soils prev.type).porosity prev.saturation
    (seepTransferD soils top prev) hps hps2 hpp hpp2 hps0 hps1 hpos hle2
  have hloss := seep_loss_bound top.size (soils top.type).porosity top.saturation
    (seepTransferD soils top prev) hts htp htp2 hts0 hts1 hpos hle1
  have hfin : ∀ col1 : Column, (∀ s ∈ col1, SatNear s) → col1[d]? = some prev →
      (∀ i, i < d → col1[i]? = col[i]?) →
      SeepInv soils d (match col1[d]? with
        | some prev1 => col1.set d { prev1 with saturation := fl (prev1.saturation +
            fl (fl ((if seepTransferD soils top prev < 1 / 1000000 then (1 : ℚ) else 1) *
              seepTransferD soils top prev) / fl (prev1.size * (soils prev.type).porosity))) }
        | none => col1) := by
    intro col1 h1 h2 h3
    rw [h2]
    simp only [ite_self, one_mul]
    have hd1 : d < col1.length := by
      by_contra hc
      rw [List.getElem?_eq_none (by omega)] at h2
      cases h2
    refine ⟨?_, ?_, ?_⟩
    · apply satNear_set h1
      constructor
      · have : (0 : ℚ) ≤ 1 / 2 ^ 49 := by positivity
        simp only []
        linarith only [hgain.1, this]
      · have : (12 : ℚ) / 2 ^ 53 ≤ 1 / 2 ^ 49 := by norm_num
        simp only []
        linarith only [hgain.2, this]
    · intro i s hi hs
      rw [List.getElem?_set_ne (by omega), h3 i hi] at hs
      exact hlow i s (by omega) hs
    · intro s hs
      rw [List.getElem?_set_self hd1] at hs
      cases hs
      exact ⟨⟨hps, hps2⟩, ⟨hpp, hpp2⟩, hgain.1, hgain.2⟩
  unfold seepPairD
  simp only []
  by_cases hair : top.type = Air
  · rw [if_pos hair]
    apply hfin
    · exact satNear_removeD hnear _
    · rw [column_removeD_getElem col _ d hlen]
      exact hprev
    · intro i hi
      exact column_removeD_getElem col _ i (by omega)
  · rw [if_neg hair]
    apply hfin
    · apply satNear_set hnear
      simp only [ite_self, one_mul]
      constructor
      · have : (8 : ℚ) / 2 ^ 53 ≤ 1 / 2 ^ 49 := by norm_num
        simp only []
        linarith only [hloss.1, this]
      · have : (14 : ℚ) / 2 ^ 53 ≤ 1 / 2 ^ 49 := by norm_num
        simp only []
        linarith only [hloss.2, this]
    · rw [List.getElem?_set_ne (by omega)]
      exact hprev
    · intro i hi
      rw [List.getElem?_set_ne (by omega)]

theorem seepLoopD_near (soils : SurfType → SurfParam) (Air : SurfType) :
    ∀ (d : Nat) (col : Column), SeepInv soils d col →
      ∀ s ∈ seepLoopD soils Air d col, SatNear s := by
  intro d
  induction d with
  | zero => intro col h; exact h.1
  | succ d ih =>
    intro col hinv
    unfold seepLoopD
    cases htop : col[d + 1]? with
    | none => exact hinv.1
    | some top =>
      cases hprev : col[d]? with
      | none => exact hinv.1
      | some prev =>
        simp only []
        split
        · rename_i hpos
          exact ih _ (seepPairD_inv soils Air d col top prev hinv htop hprev hpos)
        · apply ih
          obtain ⟨h1, h2, h3⟩ := hinv
          refine ⟨h1, fun i s hi hs => h2 i s (by omega) hs, ?_⟩
          intro s hs
          obtain ⟨a, b, c1, c2⟩ := h2 d s (by omega) hs
          have : (0 : ℚ) ≤ 12 / 2 ^ 53 := by positivity
          exact ⟨a, b, c1, by linarith only [c2, this]⟩

theorem seepD_dat (env : Env) (pos : Vec2) (w : World) :
    (seepD env pos w).map.dat (toIVec2 pos) =
      seepLoopD env.soils env.Air ((w.map.dat (toIVec2 pos)).length - 1)
        (w.map.dat (toIVec2 pos)) := by
  cases h : w.map.top (toIVec2 pos) with
  | none =>
    have h0 : w.map.dat (toIVec2 pos) = [] := by
      simpa [Layermap.top, Column.top, List.getLast?_eq_none_iff] using h
    simp only [seepD, h, h0, List.length_nil]
    rfl
  | some t =>
    simp only [seepD, h, World.update, Layermap.setColumn, if_true]

/-- C18 (amended): per-cell `seep`, in the `double` arithmetic of the code,
preserves the saturation range up to rounding.  If every layer of the column
has thickness and porosity between 2^-100 and 2^100 and saturation in [0,1],
then after the pass every layer that remains in the column has its saturation
in [−2^-49, 1 + 2^-49] (the whole loop, so also for water passed on through
several layers); the other columns are untouched. -/
theorem seep_saturation_near_range (env : Env) (pos : Vec2) (w : World)
    (hok : ∀ s ∈ w.map.dat (toIVec2 pos), LayerIn env.soils s) :
    (∀ s ∈ (seepD env pos w).map.dat (toIVec2 pos),
      -(1 / 2 ^ 49) ≤ s.saturation ∧ s.saturation ≤ 1 + 1 / 2 ^ 49) ∧
    (∀ q, q ≠ toIVec2 pos → (seepD env pos w).map.dat q = w.map.dat q) := by
  constructor
  · rw [seepD_dat]
    apply seepLoopD_near
    refine ⟨?_, ?_, ?_⟩
    · intro s hs
      obtain ⟨-, -, h0, h1⟩ := hok s hs
      have : (0 : ℚ) ≤ 1 / 2 ^ 49 := by positivity
      exact ⟨by linarith only [h0, this], by linarith only [h1, this]⟩
    · intro i s _ hs
      exact hok s (List.getElem?_mem hs)
    · intro s hs
      obtain ⟨a, b, h0, h1⟩ := hok s (List.getElem?_mem hs)
      have : (0 : ℚ) ≤ 12 / 2 ^ 53 := by positivity
      exact ⟨a, b, h0, by linarith only [h1, this]⟩
  · intro q hq
    unfold seepD
    simp only []
    split
    · rfl
    · simp only [World.update, Layermap.setColumn, if_neg hq]

/-- C18, as stated, fails, in the `double` arithmetic of the code.  Three units
of soil of porosity `0.3f` and saturation 0.1 on a unit of dry soil: the upper
layer gives all its water and is left with the saturation −2^-56, below 0.  A
layer of saturation 0.8999… on one of saturation 0.1740…: the lower layer
takes its empty capacity and ends at the saturation 1 + 2^-52, above 1. -/
theorem seep_saturation_leaves_range :
    ((∀ s ∈ (exWorld exDampOnDry).map.dat (toIVec2 (0, 0)), LayerIn exEnvF.soils s) ∧
      ((seepD exEnvF (0, 0) (exWorld exDampOnDry)).map.dat (toIVec2 (0, 0))).map sec.saturation =
        [1351079888211149 / 4503599627370496, -(1 / 2 ^ 56)] ∧
      ¬ ∀ s ∈ (seepD exEnvF (0, 0) (exWorld exDampOnDry)).map.dat (toIVec2 (0, 0)),
        0 ≤ s.saturation ∧ s.saturation ≤ 1) ∧
    ((∀ s ∈ (exWorld exNearFull).map.dat (toIVec2 (0, 0)), LayerIn exEnvF.soils s) ∧
      ((seepD exEnvF (0, 0) (exWorld exNearFull)).map.dat (toIVec2 (0, 0))).map sec.saturation =
        [1 + 1 / 2 ^ 52, 5176126877693813 / 9007199254740992] ∧
      ¬ ∀ s ∈ (seepD exEnvF (0, 0) (exWorld exNearFull)).map.dat (toIVec2 (0, 0)),
        0 ≤ s.saturation ∧ s.saturation ≤ 1) := by
  decide!

theorem exDampOnDry_in :
    ∀ s ∈ (exWorld exDampOnDry).map.dat (toIVec2 (0, 0)), LayerIn exEnvF.soils s := by
  decide!

/-- C18 (amended), at the column `exDampOnDry`, whose upper layer ends at the
saturation −2^-56. -/
theorem seep_saturation_near_range_witness :
    (∀ s ∈ (seepD exEnvF (0, 0) (exWorld exDampOnDry)).map.dat (toIVec2 (0, 0)),
      -(1 / 2 ^ 49) ≤ s.saturation ∧ s.saturation ≤ 1 + 1 / 2 ^ 49) ∧
    (∀ q, q ≠ toIVec2 (0, 0) →
      (seepD exEnvF (0, 0) (exWorld exDampOnDry)).map.dat q = (exWorld exDampOnDry).map.dat q) :=
  seep_saturation_near_range exEnvF (0, 0) (exWorld exDampOnDry) exDampOnDry_in

end SoilMachine
